import Mathlib

/-!
# EdgeRIC bridge and proportional-fair scheduler policy

A shallow embedding of `lib/edgeric/edgeric.{h,cpp}` and
`lib/scheduler/policy/scheduler_time_pf.{h,cpp}`.

Conventions of the embedding:

* `float` and `double` values are rationals (exact arithmetic, no rounding);
* unsigned machine integers are naturals, reduced `% 2 ^ w` where the code
  converts or can overflow;
* a `std::map` is an association list kept in key order (`StdMap`);
* the process-wide static tables of class `edgeric` are the fields of the
  record `edgeric`, passed explicitly;
* a read past the end of a protobuf repeated field has no defined result:
  the operations that can perform one return `Option`, and `none` is that read;
* writes to log files and to `std::cerr` are not part of the state.
-/

namespace StdMap

/-- A `std::map<K, V>`: key/value entries, iterated from the head. -/
abbrev Map (K V : Type) := List (K × V)

variable {K V : Type} [DecidableEq K]

/-- `m.find(k)`: the value of the first entry with key `k`, `none` for `end()`. -/
def find : Map K V → K → Option V
  | [], _ => none
  | (k', v) :: t, k => if k = k' then some v else find t k

/-- `m.count(k) > 0` / `contains(k)`. -/
def contains (m : Map K V) (k : K) : Bool := (find m k).isSome

/-- `m[k] = v`: overwrite the entry of `k`, or insert it at its place in key order. -/
def set [LT K] [DecidableRel (α := K) (· < ·)] (k : K) (v : V) : Map K V → Map K V
  | [] => [(k, v)]
  | (k', v') :: t =>
    if k = k' then (k, v) :: t
    else if k < k' then (k, v) :: (k', v') :: t
    else (k', v') :: set k v t

/-- `m.erase(k)`. -/
def erase (k : K) (m : Map K V) : Map K V := m.filter (fun e => decide (e.1 ≠ k))

/-- The keys of the map, in iteration order. -/
def keys (m : Map K V) : List K := m.map Prod.fst

/-- The values of the map, in iteration order. -/
def values (m : Map K V) : List V := m.map Prod.snd

end StdMap

open StdMap

/-! ## Bridge: data model (`edgeric.h`) -/

/-- Dynamic QoS parameters that can be overridden per UE and per DRB. -/
structure dynamic_qos_params where
  qos_priority : Nat := 0
  arp_priority : Nat := 0
  pdb_ms : Nat := 0
  gbr_dl : Nat := 0
  gbr_ul : Nat := 0
  override_qos_priority : Bool := false
  override_arp_priority : Bool := false
  override_pdb : Bool := false
  override_gbr : Bool := false
  deriving DecidableEq, Repr

/-- Key of a QoS override, `std::pair<uint16_t, uint8_t>` = (RNTI, LCID). -/
structure ue_drb_key where
  first : Nat
  second : Nat
  deriving DecidableEq, Repr

/-- The ordering of `std::pair`: lexicographic. -/
instance : LT ue_drb_key :=
  ⟨fun a b => a.first < b.first ∨ (a.first = b.first ∧ a.second < b.second)⟩

instance (a b : ue_drb_key) : Decidable (a < b) :=
  inferInstanceAs (Decidable (a.first < b.first ∨ (a.first = b.first ∧ a.second < b.second)))

/-- The static members of class `edgeric`. -/
structure edgeric where
  weights_recved : Map Nat ℚ := []
  mcs_recved : Map Nat Nat := []
  qos_overrides : Map ue_drb_key dynamic_qos_params := []
  ue_cqis : Map Nat ℚ := []
  ue_snrs : Map Nat ℚ := []
  rx_bytes : Map Nat ℚ := []
  tx_bytes : Map Nat ℚ := []
  ue_ul_buffers : Map Nat Nat := []
  ue_dl_buffers : Map Nat Nat := []
  dl_tbs_ues : Map Nat ℚ := []
  er_ran_index_weights : Nat := 0
  er_ran_index_mcs : Nat := 0
  er_ran_index_qos : Nat := 0
  initialized : Bool := false
  enable_logging : Bool := true
  tti_cnt : Nat := 0
  deriving DecidableEq

/-- Conversion to `uint16_t` of an unsigned integer. -/
def to_uint16 (x : Nat) : Nat := x % 2 ^ 16

/-- Conversion to `uint8_t` of an unsigned integer. -/
def to_uint8 (x : Nat) : Nat := x % 2 ^ 8

/-- `static_cast<uint16_t>(x)` of a `float`: the fractional part is discarded.
(The conversion is undefined in C++ when the truncated value does not fit; the
embedding reduces it modulo `2 ^ 16`.) -/
def float_to_uint16 (x : ℚ) : Nat := to_uint16 (Int.toNat (Rat.floor x))

/-- What a non-blocking `recv` followed by `ParseFromArray` yields for a
message type `M`: nothing pending, a pending message that does not parse, or
a parsed message. -/
inductive recv_result (M : Type) where
  | no_message : recv_result M
  | parse_failure : recv_result M
  | parsed (msg : M) : recv_result M

/-- Message `SchedulingWeights`: a control-round index and the flat list
`rnti_0, weight_0, rnti_1, weight_1, ...` of floats. -/
structure SchedulingWeights where
  ran_index : Nat
  weights : List ℚ

/-- Message `mcs_control`: a control-round index and the flat list
`rnti_0, mcs_0, rnti_1, mcs_1, ...`. -/
structure mcs_control where
  ran_index : Nat
  mcs : List Nat

/-- Message `DrbQosParams`: one per-bearer entry; an optional field that is
not present is `none`. -/
structure DrbQosParams where
  rnti : Nat
  lcid : Nat
  clear_override : Bool := false
  qos_priority : Option Nat := none
  arp_priority : Option Nat := none
  pdb_ms : Option Nat := none
  gbr_dl : Option Nat := none
  gbr_ul : Option Nat := none

/-- Message `QosControl`. -/
structure QosControl where
  ran_index : Nat
  drb_qos : List DrbQosParams

/-- Message `UeMetrics`: the per-user record of the telemetry message. -/
structure UeMetrics where
  rnti : Nat
  cqi : Nat
  snr : ℚ
  tx_bytes : ℚ
  rx_bytes : ℚ
  dl_buffer : Nat
  ul_buffer : Nat
  dl_tbs : ℚ
  deriving DecidableEq

/-- Message `Metrics`: the interval counter and one record per reported user. -/
structure Metrics where
  tti_cnt : Nat
  ue_metrics : List UeMetrics
  deriving DecidableEq

/-- `static_cast<uint32_t>(x)` of a `float`: the fractional part is discarded.
(Undefined in C++ when the truncated value does not fit; the embedding reduces
it modulo `2 ^ 32`.) -/
def float_to_uint32 (x : ℚ) : Nat := (Int.toNat (Rat.floor x)) % 2 ^ 32

/-! ## Bridge: operations (`edgeric.cpp`) -/

namespace edgeric

/-- `edgeric::init` / `ensure_initialized`: the sockets are set up once. -/
def ensure_initialized (s : edgeric) : edgeric :=
  if s.initialized then s else { s with initialized := true }

/-- The loop `for (int i = 0; i < xs.size(); i += 2) { a = xs(i); b = xs(i + 1); body }`
over a repeated field `xs`, started at index `i` with `fuel` iterations allowed.
`none` when `xs(i + 1)` is read past the end, or when the fuel runs out. -/
def for_pairs {α σ : Type} (xs : List α) (body : α → α → σ → σ) : Nat → Nat → σ → Option σ
  | 0, _, _ => none
  | fuel + 1, i, st =>
    if i < xs.length then
      match xs[i]?, xs[i + 1]? with
      | some a, some b => for_pairs xs body fuel (i + 2) (body a b st)
      | _, _ => none
    else some st

/-- Body of the first loop of `get_weights_from_er`, on the pair
(table, `total_weight`). -/
def store_weight (r w : ℚ) (st : Map Nat ℚ × ℚ) : Map Nat ℚ × ℚ :=
  (set (float_to_uint16 r) w st.1, st.2 + w)

/-- Second part of `get_weights_from_er`: every stored weight is divided by
`total_weight` when it is strictly positive; otherwise the table is left as is. -/
def normalize_weights (st : Map Nat ℚ × ℚ) : Map Nat ℚ :=
  if 0 < st.2 then st.1.map (fun e => (e.1, e.2 / st.2)) else st.1

/-- `edgeric::get_weights_from_er`. -/
def get_weights_from_er (rx : recv_result SchedulingWeights) (s0 : edgeric) : Option edgeric :=
  let s := ensure_initialized s0
  match rx with
  | .parsed weights_msg =>
    match for_pairs weights_msg.weights store_weight (weights_msg.weights.length + 1) 0
        (s.weights_recved, 0) with
    | some st =>
      some { s with er_ran_index_weights := weights_msg.ran_index,
                    weights_recved := normalize_weights st }
    | none => none
  | .parse_failure => some s
  | .no_message => some { s with weights_recved := [] }

/-- `edgeric::get_weights`. -/
def get_weights (s : edgeric) (rnti : Nat) : Option ℚ :=
  if s.weights_recved.isEmpty then none else find s.weights_recved rnti

/-- Body of the loop of `get_mcs_from_er`. -/
def store_mcs (r m : Nat) (tbl : Map Nat Nat) : Map Nat Nat :=
  set (to_uint16 r) (to_uint8 m) tbl

/-- `edgeric::get_mcs_from_er`. -/
def get_mcs_from_er (rx : recv_result mcs_control) (s0 : edgeric) : Option edgeric :=
  let s := ensure_initialized s0
  match rx with
  | .parsed mcs_msg =>
    match for_pairs mcs_msg.mcs store_mcs (mcs_msg.mcs.length + 1) 0 s.mcs_recved with
    | some tbl => some { s with er_ran_index_mcs := mcs_msg.ran_index, mcs_recved := tbl }
    | none => none
  | .parse_failure => some s
  | .no_message => some { s with mcs_recved := [] }

/-- `edgeric::get_mcs`. -/
def get_mcs (s : edgeric) (rnti : Nat) : Option Nat :=
  if s.mcs_recved.isEmpty then none else find s.mcs_recved rnti


/-! ### Dynamic QoS control (per UE, per DRB) -/

/-- `edgeric::set_dynamic_qos`. -/
def set_dynamic_qos (rnti lcid : Nat) (params : dynamic_qos_params) (s : edgeric) : edgeric :=
  { s with qos_overrides := set (ue_drb_key.mk rnti lcid) params s.qos_overrides }

/-- `edgeric::clear_dynamic_qos`. -/
def clear_dynamic_qos (rnti lcid : Nat) (s : edgeric) : edgeric :=
  { s with qos_overrides := erase (ue_drb_key.mk rnti lcid) s.qos_overrides }

/-- `edgeric::clear_all_dynamic_qos`: erases every entry whose key has this RNTI. -/
def clear_all_dynamic_qos (rnti : Nat) (s : edgeric) : edgeric :=
  { s with qos_overrides := s.qos_overrides.filter (fun e => decide (e.1.first ≠ rnti)) }

/-- `edgeric::get_dynamic_qos`. -/
def get_dynamic_qos (s : edgeric) (rnti lcid : Nat) : Option dynamic_qos_params :=
  find s.qos_overrides (ue_drb_key.mk rnti lcid)

/-- `qos_overrides[key]` read as a reference: the stored record, or the
value-initialised record that `operator[]` inserts for a new key. -/
def qos_ref (tbl : Map ue_drb_key dynamic_qos_params) (key : ue_drb_key) : dynamic_qos_params :=
  (find tbl key).getD {}

/-- `edgeric::set_qos_priority`. -/
def set_qos_priority (rnti lcid priority : Nat) (s : edgeric) : edgeric :=
  let key := ue_drb_key.mk rnti lcid
  let params := qos_ref s.qos_overrides key
  let params := { params with qos_priority := priority, override_qos_priority := true }
  { s with qos_overrides := set key params s.qos_overrides }

/-- `edgeric::set_arp_priority`. -/
def set_arp_priority (rnti lcid arp : Nat) (s : edgeric) : edgeric :=
  let key := ue_drb_key.mk rnti lcid
  let params := qos_ref s.qos_overrides key
  let params := { params with arp_priority := arp, override_arp_priority := true }
  { s with qos_overrides := set key params s.qos_overrides }

/-- `edgeric::set_pdb`. -/
def set_pdb (rnti lcid pdb_ms : Nat) (s : edgeric) : edgeric :=
  let key := ue_drb_key.mk rnti lcid
  let params := qos_ref s.qos_overrides key
  let params := { params with pdb_ms := pdb_ms, override_pdb := true }
  { s with qos_overrides := set key params s.qos_overrides }

/-- `edgeric::set_gbr`. -/
def set_gbr (rnti lcid gbr_dl gbr_ul : Nat) (s : edgeric) : edgeric :=
  let key := ue_drb_key.mk rnti lcid
  let params := qos_ref s.qos_overrides key
  let params := { params with gbr_dl := gbr_dl, gbr_ul := gbr_ul, override_gbr := true }
  { s with qos_overrides := set key params s.qos_overrides }

/-- `edgeric::get_qos_priority`. -/
def get_qos_priority (s : edgeric) (rnti lcid : Nat) : Option Nat :=
  match find s.qos_overrides (ue_drb_key.mk rnti lcid) with
  | some p => if p.override_qos_priority then some p.qos_priority else none
  | none => none

/-- `edgeric::get_arp_priority`. -/
def get_arp_priority (s : edgeric) (rnti lcid : Nat) : Option Nat :=
  match find s.qos_overrides (ue_drb_key.mk rnti lcid) with
  | some p => if p.override_arp_priority then some p.arp_priority else none
  | none => none

/-- `edgeric::get_pdb`. -/
def get_pdb (s : edgeric) (rnti lcid : Nat) : Option Nat :=
  match find s.qos_overrides (ue_drb_key.mk rnti lcid) with
  | some p => if p.override_pdb then some p.pdb_ms else none
  | none => none

/-- `edgeric::get_gbr_dl`. -/
def get_gbr_dl (s : edgeric) (rnti lcid : Nat) : Option Nat :=
  match find s.qos_overrides (ue_drb_key.mk rnti lcid) with
  | some p => if p.override_gbr then some p.gbr_dl else none
  | none => none

/-- `edgeric::get_gbr_ul`. -/
def get_gbr_ul (s : edgeric) (rnti lcid : Nat) : Option Nat :=
  match find s.qos_overrides (ue_drb_key.mk rnti lcid) with
  | some p => if p.override_gbr then some p.gbr_ul else none
  | none => none

/-- The fields of one message entry written into the referenced record
(the `else` branch of the loop body of `get_qos_from_er`). -/
def apply_drb_fields (drb : DrbQosParams) (params : dynamic_qos_params) : dynamic_qos_params :=
  let params := match drb.qos_priority with
    | some p => { params with qos_priority := to_uint8 p, override_qos_priority := true }
    | none => params
  let params := match drb.arp_priority with
    | some a => { params with arp_priority := to_uint8 a, override_arp_priority := true }
    | none => params
  let params := match drb.pdb_ms with
    | some d => { params with pdb_ms := d, override_pdb := true }
    | none => params
  if drb.gbr_dl.isSome || drb.gbr_ul.isSome then
    let params := match drb.gbr_dl with
      | some g => { params with gbr_dl := g }
      | none => params
    let params := match drb.gbr_ul with
      | some g => { params with gbr_ul := g }
      | none => params
    { params with override_gbr := true }
  else params

/-- Loop body of `get_qos_from_er` for one entry of the message. -/
def apply_drb (tbl : Map ue_drb_key dynamic_qos_params) (drb : DrbQosParams) :
    Map ue_drb_key dynamic_qos_params :=
  let key := ue_drb_key.mk (to_uint16 drb.rnti) (to_uint8 drb.lcid)
  if drb.clear_override then erase key tbl
  else set key (apply_drb_fields drb (qos_ref tbl key)) tbl

/-- `edgeric::get_qos_from_er`. -/
def get_qos_from_er (rx : recv_result QosControl) (s0 : edgeric) : edgeric :=
  let s := ensure_initialized s0
  match rx with
  | .parsed qos_msg =>
    { s with er_ran_index_qos := qos_msg.ran_index,
             qos_overrides := qos_msg.drb_qos.foldl apply_drb s.qos_overrides }
  | .parse_failure => s
  | .no_message => s

/-! ### Telemetry setters (`edgeric.h`) -/

/-- `edgeric::set_cqi`. -/
def set_cqi (rnti : Nat) (cqi : ℚ) (s : edgeric) : edgeric :=
  { s with ue_cqis := set rnti cqi s.ue_cqis }

/-- `edgeric::set_snr`. -/
def set_snr (rnti : Nat) (snr : ℚ) (s : edgeric) : edgeric :=
  { s with ue_snrs := set rnti snr s.ue_snrs }

/-- `edgeric::set_ul_buffer`. -/
def set_ul_buffer (rnti ul_buffer : Nat) (s : edgeric) : edgeric :=
  { s with ue_ul_buffers := set rnti ul_buffer s.ue_ul_buffers }

/-- `edgeric::set_dl_buffer`. -/
def set_dl_buffer (rnti dl_buffer : Nat) (s : edgeric) : edgeric :=
  { s with ue_dl_buffers := set rnti dl_buffer s.ue_dl_buffers }

/-- `edgeric::set_tx_bytes`: `tx_bytes[rnti] += tbs`. -/
def set_tx_bytes (rnti : Nat) (tbs : ℚ) (s : edgeric) : edgeric :=
  { s with tx_bytes := set rnti ((find s.tx_bytes rnti).getD 0 + tbs) s.tx_bytes }

/-- `edgeric::set_rx_bytes`: `rx_bytes[rnti] += tbs`. -/
def set_rx_bytes (rnti : Nat) (tbs : ℚ) (s : edgeric) : edgeric :=
  { s with rx_bytes := set rnti ((find s.rx_bytes rnti).getD 0 + tbs) s.rx_bytes }

/-- `edgeric::set_dl_tbs`. -/
def set_dl_tbs (rnti : Nat) (tbs : ℚ) (s : edgeric) : edgeric :=
  { s with dl_tbs_ues := set rnti tbs s.dl_tbs_ues }

/-! ### Telemetry report (`edgeric::send_to_er`) -/

/-- Loop body of `send_to_er`: the record added for one entry of `ue_cqis`;
a field whose table has no entry for the RNTI is 0. -/
def ue_metrics_of (s : edgeric) (ue_cqi_pair : Nat × ℚ) : UeMetrics :=
  let rnti := ue_cqi_pair.1
  { rnti := rnti,
    cqi := float_to_uint32 ue_cqi_pair.2,
    snr := (find s.ue_snrs rnti).getD 0,
    tx_bytes := (find s.tx_bytes rnti).getD 0,
    rx_bytes := (find s.rx_bytes rnti).getD 0,
    dl_buffer := (find s.ue_dl_buffers rnti).getD 0,
    ul_buffer := (find s.ue_ul_buffers rnti).getD 0,
    dl_tbs := (find s.dl_tbs_ues rnti).getD 0 }

/-- The message `send_to_er` builds: one record per entry of `ue_cqis`, in
the order of the map. -/
def build_metrics (s : edgeric) : Metrics :=
  { tti_cnt := s.tti_cnt, ue_metrics := s.ue_cqis.map (ue_metrics_of s) }

/-- `edgeric::send_to_er`. `serialized` is the result of `SerializeToString`.
Returns the message handed to the publisher (`none` when it is dropped) and
the state left. -/
def send_to_er (serialized : Bool) (s0 : edgeric) : Option Metrics × edgeric :=
  let s := ensure_initialized s0
  let metrics_msg := build_metrics s
  if !serialized then (none, s)
  else
    (some metrics_msg,
      { s with ue_cqis := [], ue_snrs := [], tx_bytes := [], rx_bytes := [], dl_tbs_ues := [] })

end edgeric

/-! ## Proportional-fair policy: data model (`scheduler_time_pf.h`) -/

/-- Modelled from the spec: the class `exp_average_fast_start<double>` of
`srsran/support/math/exponential_averager.h`, which is not among the sources.
A fast-start exponential moving average: the first `start_count_size_`
samples are averaged with equal weight (so early samples weigh more than
`alpha_`), later ones with the fixed decay coefficient `alpha_`. -/
structure exp_average_fast_start where
  avg_ : ℚ := 0
  count : Nat := 0
  alpha_ : ℚ
  start_count_size_ : Nat
  deriving DecidableEq

namespace exp_average_fast_start

/-- Modelled from the spec: the constructor, with the fast-start window
`1 / alpha` samples long. -/
def init (alpha : ℚ) : exp_average_fast_start :=
  { alpha_ := alpha, start_count_size_ := Int.toNat (Rat.floor (1 / alpha)) }

/-- Modelled from the spec: `push(sample)`. -/
def push (sample : ℚ) (a : exp_average_fast_start) : exp_average_fast_start :=
  if a.count < a.start_count_size_ then
    { a with avg_ := a.avg_ + (sample - a.avg_) / ((a.count : ℚ) + 1), count := a.count + 1 }
  else
    { a with avg_ := (1 - a.alpha_) * a.avg_ + a.alpha_ * sample }

/-- Modelled from the spec: `get_average_value()`. -/
def get_average_value (a : exp_average_fast_start) : ℚ :=
  if a.count = 0 then 0 else a.avg_

end exp_average_fast_start

/-- Modelled from the spec: `slot_point`, which is not among the sources; a
default-constructed slot point is not valid, a valid one counts slots. -/
structure slot_point where
  valid : Bool := false
  count : Nat := 0
  deriving DecidableEq

/-- The `unsigned` that `pdsch_slot - last_pdsch_slot` is stored into: the
difference of the slot counts, converted to 32 bits. -/
def slot_point.diff (a b : slot_point) : Nat :=
  Int.toNat (((a.count : Int) - (b.count : Int)) % 2 ^ 32)

/-- What the policy takes from outside the sources: the libm function
`std::pow` on doubles and the constant `max_sched_priority` of
`scheduler_policy.h`. -/
structure pf_externals where
  pow : ℚ → ℚ → ℚ
  max_sched_priority : ℚ

/-- The part of `ue_cell` the policy reads: the RNTI, the effective CQI of the
link adaptation controller and the PUSCH SNR of the channel state manager. -/
structure ue_cell where
  rnti : Nat
  effective_cqi : ℚ
  pusch_snr : ℚ
  deriving DecidableEq

/-- The part of `slice_ue` the policy reads. -/
structure slice_ue where
  ue_index : Nat
  pending_dl_newtx_bytes : Nat := 0
  pending_ul_newtx_bytes : Nat := 0
  deriving DecidableEq

/-- A `ue_newtx_candidate`; a null `ue_cc` is `none`. -/
structure ue_newtx_candidate where
  ue : slice_ue
  ue_cc : Option ue_cell := none
  pending_bytes : Nat
  priority : ℚ := 0
  deriving DecidableEq

/-- The part of `dl_msg_alloc` the policy reads: `context.ue_index` and the
`tb_size_bytes` of each codeword of `pdsch_cfg`. -/
structure dl_msg_alloc where
  ue_index : Nat
  codewords : List Nat

/-- The part of `ul_sched_info` the policy reads: `context.ue_index` and
`pusch_cfg.tb_size_bytes`. -/
structure ul_sched_info where
  ue_index : Nat
  tb_size_bytes : Nat

/-- `scheduler_time_pf::ue_ctxt`. -/
structure ue_ctxt where
  ue_index : Nat
  fairness_coeff : ℚ
  dl_prio : ℚ := 0
  ul_prio : ℚ := 0
  dl_sum_alloc_bytes : Nat := 0
  ul_sum_alloc_bytes : Nat := 0
  dl_avg_rate_ : exp_average_fast_start
  ul_avg_rate_ : exp_average_fast_start
  deriving DecidableEq

/-- Class `scheduler_time_pf`, with the file-level counter `tti_cnt`. -/
structure scheduler_time_pf where
  fairness_coeff : ℚ
  exp_avg_alpha : ℚ := 1 / 100
  ue_history_db : Map Nat ue_ctxt := []
  last_pdsch_slot : slot_point := {}
  last_pusch_slot : slot_point := {}
  tti_cnt : Nat := 0
  deriving DecidableEq

/-! ## Proportional-fair policy: operations (`scheduler_time_pf.cpp`) -/

namespace ue_ctxt

/-- The constructor `ue_ctxt(ue_index_, alpha, fairness)`. -/
def init (ue_index_ : Nat) (alpha fairness : ℚ) : ue_ctxt :=
  { ue_index := ue_index_, fairness_coeff := fairness,
    dl_avg_rate_ := exp_average_fast_start.init alpha,
    ul_avg_rate_ := exp_average_fast_start.init alpha }

/-- `ue_ctxt::dl_avg_rate`. -/
def dl_avg_rate (c : ue_ctxt) : ℚ := c.dl_avg_rate_.get_average_value

/-- `ue_ctxt::ul_avg_rate`. -/
def ul_avg_rate (c : ue_ctxt) : ℚ := c.ul_avg_rate_.get_average_value

/-- `ue_ctxt::save_dl_alloc`. -/
def save_dl_alloc (alloc_bytes : Nat) (c : ue_ctxt) : ue_ctxt :=
  let c := { c with dl_sum_alloc_bytes := (c.dl_sum_alloc_bytes + alloc_bytes) % 2 ^ 32 }
  let c := { c with dl_avg_rate_ := c.dl_avg_rate_.push (c.dl_sum_alloc_bytes : ℚ) }
  { c with dl_sum_alloc_bytes := 0 }

/-- `ue_ctxt::save_ul_alloc`. -/
def save_ul_alloc (alloc_bytes : Nat) (c : ue_ctxt) : ue_ctxt :=
  let c := { c with ul_sum_alloc_bytes := (c.ul_sum_alloc_bytes + alloc_bytes) % 2 ^ 32 }
  let c := { c with ul_avg_rate_ := c.ul_avg_rate_.push (c.ul_sum_alloc_bytes : ℚ) }
  { c with ul_sum_alloc_bytes := 0 }

/-- `ue_ctxt::update_dl_avg_rate_no_alloc`: one loop iteration per slot. -/
def update_dl_avg_rate_no_alloc : Nat → ue_ctxt → ue_ctxt
  | 0, c => c
  | nof_slots + 1, c =>
    update_dl_avg_rate_no_alloc nof_slots
      (if c.dl_sum_alloc_bytes = 0 then { c with dl_avg_rate_ := c.dl_avg_rate_.push 0 } else c)

/-- `ue_ctxt::update_ul_avg_rate_no_alloc`: one loop iteration per slot. -/
def update_ul_avg_rate_no_alloc : Nat → ue_ctxt → ue_ctxt
  | 0, c => c
  | nof_slots + 1, c =>
    update_ul_avg_rate_no_alloc nof_slots
      (if c.ul_sum_alloc_bytes = 0 then { c with ul_avg_rate_ := c.ul_avg_rate_.push 0 } else c)

end ue_ctxt

namespace scheduler_time_pf

/-- State threaded through the policy: the policy object and the bridge. -/
abbrev pf_state := scheduler_time_pf × edgeric

/-- `scheduler_time_pf::add_ue`. -/
def add_ue (ue_index : Nat) (p : scheduler_time_pf) : scheduler_time_pf :=
  if !contains p.ue_history_db ue_index then
    let ctxt := ue_ctxt.init ue_index p.exp_avg_alpha p.fairness_coeff
    { p with ue_history_db := set ue_index ctxt p.ue_history_db }
  else p

/-- `scheduler_time_pf::rem_ue`. -/
def rem_ue (ue_index : Nat) (p : scheduler_time_pf) : scheduler_time_pf :=
  { p with ue_history_db := erase ue_index p.ue_history_db }

/-- A range-for over the candidates: `body` is run on each candidate in
order, on the state left by the previous one. -/
def for_candidates (body : pf_state → ue_newtx_candidate → pf_state × ue_newtx_candidate) :
    List ue_newtx_candidate → pf_state → pf_state × List ue_newtx_candidate
  | [], st => (st, [])
  | c :: cs, st =>
    let r := body st c
    let rs := for_candidates body cs r.1
    (rs.1, r.2 :: rs.2)

/-- The telemetry that `compute_ue_dl_priorities` reports for a candidate with
a non-null `ue_cc`. -/
def report_metrics (candidate : ue_newtx_candidate) (er : edgeric) : edgeric :=
  match candidate.ue_cc with
  | some ue_cc =>
    let er := edgeric.set_cqi ue_cc.rnti ue_cc.effective_cqi er
    let er := edgeric.set_snr ue_cc.rnti ue_cc.pusch_snr er
    let er := edgeric.set_dl_buffer ue_cc.rnti candidate.ue.pending_dl_newtx_bytes er
    edgeric.set_ul_buffer ue_cc.rnti candidate.ue.pending_ul_newtx_bytes er
  | none => er

/-- Loop body of `compute_ue_dl_priorities`. -/
def dl_candidate (env : pf_externals) (nof_slots_elapsed : Nat) (st : pf_state)
    (candidate : ue_newtx_candidate) : pf_state × ue_newtx_candidate :=
  let er := report_metrics candidate st.2
  match find st.1.ue_history_db candidate.ue.ue_index with
  | none => ((st.1, er), { candidate with priority := env.max_sched_priority })
  | some ctxt =>
    let ctxt := ctxt.update_dl_avg_rate_no_alloc nof_slots_elapsed
    let avg_rate := ctxt.dl_avg_rate
    let avg_rate := if avg_rate < 1 then 1 else avg_rate
    let pf_metric := (candidate.pending_bytes : ℚ) / env.pow avg_rate st.1.fairness_coeff
    let ctxt := { ctxt with dl_prio := pf_metric }
    (({ st.1 with ue_history_db := set candidate.ue.ue_index ctxt st.1.ue_history_db }, er),
      { candidate with priority := pf_metric })

/-- Loop body of `compute_ue_ul_priorities`. -/
def ul_candidate (env : pf_externals) (nof_slots_elapsed : Nat) (st : pf_state)
    (candidate : ue_newtx_candidate) : pf_state × ue_newtx_candidate :=
  match find st.1.ue_history_db candidate.ue.ue_index with
  | none => (st, { candidate with priority := env.max_sched_priority })
  | some ctxt =>
    let ctxt := ctxt.update_ul_avg_rate_no_alloc nof_slots_elapsed
    let avg_rate := ctxt.ul_avg_rate
    let avg_rate := if avg_rate < 1 then 1 else avg_rate
    let pf_metric := (candidate.pending_bytes : ℚ) / env.pow avg_rate st.1.fairness_coeff
    let ctxt := { ctxt with ul_prio := pf_metric }
    (({ st.1 with ue_history_db := set candidate.ue.ue_index ctxt st.1.ue_history_db }, st.2),
      { candidate with priority := pf_metric })

/-- The number of slots elapsed since the slot `last` of the previous call. -/
def nof_slots_elapsed (slot last : slot_point) : Nat :=
  if last.valid then slot.diff last else 1

/-- `scheduler_time_pf::compute_ue_dl_priorities`. -/
def compute_ue_dl_priorities (env : pf_externals) (pdsch_slot : slot_point)
    (ue_candidates : List ue_newtx_candidate) (st : pf_state) :
    pf_state × List ue_newtx_candidate :=
  let n := nof_slots_elapsed pdsch_slot st.1.last_pdsch_slot
  let p := { st.1 with tti_cnt := (st.1.tti_cnt + 1) % 2 ^ 32, last_pdsch_slot := pdsch_slot }
  for_candidates (dl_candidate env n) ue_candidates (p, st.2)

/-- `scheduler_time_pf::compute_ue_ul_priorities`. -/
def compute_ue_ul_priorities (env : pf_externals) (pusch_slot : slot_point)
    (ue_candidates : List ue_newtx_candidate) (st : pf_state) :
    pf_state × List ue_newtx_candidate :=
  let n := nof_slots_elapsed pusch_slot st.1.last_pusch_slot
  let p := { st.1 with last_pusch_slot := pusch_slot }
  for_candidates (ul_candidate env n) ue_candidates (p, st.2)

/-- The sum `total_bytes` of the codeword sizes of a DL grant. -/
def total_bytes (g : dl_msg_alloc) : Nat :=
  g.codewords.foldl (fun t cw => (t + cw) % 2 ^ 32) 0

/-- Loop body of `save_dl_newtx_grants`. -/
def save_dl_grant (p : scheduler_time_pf) (grant : dl_msg_alloc) : scheduler_time_pf :=
  match find p.ue_history_db grant.ue_index with
  | some ctxt =>
    let ctxt := ctxt.save_dl_alloc (total_bytes grant)
    { p with ue_history_db := set grant.ue_index ctxt p.ue_history_db }
  | none => p

/-- `scheduler_time_pf::save_dl_newtx_grants`. -/
def save_dl_newtx_grants (dl_grants : List dl_msg_alloc) (p : scheduler_time_pf) :
    scheduler_time_pf :=
  dl_grants.foldl save_dl_grant p

/-- Loop body of `save_ul_newtx_grants`. -/
def save_ul_grant (p : scheduler_time_pf) (grant : ul_sched_info) : scheduler_time_pf :=
  match find p.ue_history_db grant.ue_index with
  | some ctxt =>
    let ctxt := ctxt.save_ul_alloc grant.tb_size_bytes
    { p with ue_history_db := set grant.ue_index ctxt p.ue_history_db }
  | none => p

/-- `scheduler_time_pf::save_ul_newtx_grants`. -/
def save_ul_newtx_grants (ul_grants : List ul_sched_info) (p : scheduler_time_pf) :
    scheduler_time_pf :=
  ul_grants.foldl save_ul_grant p

end scheduler_time_pf

/-! ## Vocabulary for the statements -/

/-- The consecutive pairs `(xs(0), xs(1)), (xs(2), xs(3)), ...` of a flat list. -/
def pairs {α : Type} : List α → List (α × α)
  | a :: b :: rest => (a, b) :: pairs rest
  | _ => []

/-- The pair loop of `for_pairs` by recursion on the part of the list not yet
read: `none` when a single element is left, whose partner would be read past
the end. -/
def fold_pairs {α σ : Type} (body : α → α → σ → σ) : List α → σ → Option σ
  | [], st => some st
  | [_], _ => none
  | a :: b :: rest, st => fold_pairs body rest (body a b st)

/-- A table after the assignments `tbl[k] = v` for the entries `(k, v)` of a list, in order. -/
def set_all {V : Type} (ps : List (Nat × V)) (tbl : Map Nat V) : Map Nat V :=
  ps.foldl (fun m p => set p.1 p.2 m) tbl

/-- The (RNTI, weight) pairs a weight message lists, in order. -/
def weight_pairs (weights : List ℚ) : List (Nat × ℚ) :=
  (pairs weights).map (fun p => (float_to_uint16 p.1, p.2))

/-- The sum of the weights a weight message lists. -/
def weight_total (weights : List ℚ) : ℚ := (values (weight_pairs weights)).sum

/-- The (RNTI, MCS) pairs an MCS message lists, in order. -/
def mcs_pairs (mcs : List Nat) : List (Nat × Nat) :=
  (pairs mcs).map (fun p => (to_uint16 p.1, to_uint8 p.2))

/-- The value the last entry with key `k` pairs with `k`. -/
def last_paired {V : Type} (ps : List (Nat × V)) (k : Nat) : Option V := find ps.reverse k

/-- The priority formula `pending_bytes / max(avg_rate, 1.0)^fairness_coeff`. -/
def pf_priority (env : pf_externals) (pending_bytes : Nat) (avg_rate fairness_coeff : ℚ) : ℚ :=
  (pending_bytes : ℚ) / env.pow (max avg_rate 1) fairness_coeff

/-- An average after the samples of a list are pushed in order. -/
def push_all (samples : List ℚ) (a : exp_average_fast_start) : exp_average_fast_start :=
  samples.foldl (fun a b => a.push b) a

/-- The key `(RNTI, LCID)` under which `get_qos_from_er` files an entry. -/
def drb_key (drb : DrbQosParams) : ue_drb_key :=
  ue_drb_key.mk (to_uint16 drb.rnti) (to_uint8 drb.lcid)

/-! ## Reference definitions and reachable states -/

/-- The indices of the repeated field that the pair loop
`for (int i = 0; i < size; i += 2) { xs(i); xs(i + 1); }` reads, in order,
started at index `i` with `fuel` iterations allowed. -/
def pair_loop_reads (size : Nat) : Nat → Nat → List Nat
  | 0, _ => []
  | fuel + 1, i => if i < size then i :: (i + 1) :: pair_loop_reads size fuel (i + 2) else []

/-- Reference definition of weight ingestion, in the words of the
specification: let `T'` be `T` with `T'[r_i] := w_i` applied in order for the
pairs `(r_i, w_i)`, and `S` the sum of the `w_i`; the result is `T'` with every
value divided by `S` if `S > 0`, and `T'` unchanged otherwise. -/
def ingest_weights_reference (T : Map Nat ℚ) (ps : List (Nat × ℚ)) : Map Nat ℚ :=
  let T' := ps.foldl (fun m p => set p.1 p.2 m) T
  let S := (ps.map (fun p => p.2)).sum
  if S > 0 then T'.map (fun e => (e.1, e.2 / S)) else T'

/-- The operations of the policy. -/
inductive pf_op where
  | add_ue (ue_index : Nat)
  | rem_ue (ue_index : Nat)
  | compute_ue_dl_priorities (pdsch_slot : slot_point) (ue_candidates : List ue_newtx_candidate)
  | compute_ue_ul_priorities (pusch_slot : slot_point) (ue_candidates : List ue_newtx_candidate)
  | save_dl_newtx_grants (dl_grants : List dl_msg_alloc)
  | save_ul_newtx_grants (ul_grants : List ul_sched_info)

/-- One operation of the policy on the state. -/
def pf_step (env : pf_externals) (op : pf_op) (st : scheduler_time_pf.pf_state) :
    scheduler_time_pf.pf_state :=
  match op with
  | .add_ue u => (scheduler_time_pf.add_ue u st.1, st.2)
  | .rem_ue u => (scheduler_time_pf.rem_ue u st.1, st.2)
  | .compute_ue_dl_priorities slot cs =>
    (scheduler_time_pf.compute_ue_dl_priorities env slot cs st).1
  | .compute_ue_ul_priorities slot cs =>
    (scheduler_time_pf.compute_ue_ul_priorities env slot cs st).1
  | .save_dl_newtx_grants gs => (scheduler_time_pf.save_dl_newtx_grants gs st.1, st.2)
  | .save_ul_newtx_grants gs => (scheduler_time_pf.save_ul_newtx_grants gs st.1, st.2)

/-- The state after a sequence of operations, run in order. -/
def pf_run (env : pf_externals) (ops : List pf_op) (st : scheduler_time_pf.pf_state) :
    scheduler_time_pf.pf_state :=
  ops.foldl (fun s op => pf_step env op s) st

/-- The policy as constructed: no user tracked, no slot seen. -/
def pf_initial (fairness_coeff : ℚ) : scheduler_time_pf := { fairness_coeff := fairness_coeff }

/-- Every context of the policy has both current-slot accumulators at zero. -/
def accumulators_zero (p : scheduler_time_pf) : Prop :=
  ∀ e ∈ p.ue_history_db, e.2.dl_sum_alloc_bytes = 0 ∧ e.2.ul_sum_alloc_bytes = 0

/-! ## Concrete inputs -/

/-- Externals with fairness coefficient 1 in mind: `pow x 1 = x`; the
sentinel priority is an arbitrary large value. -/
def sample_env : pf_externals := { pow := fun x _ => x, max_sched_priority := 1000000 }

/-- A policy with fairness coefficient 1 that tracks user 0 (fresh context),
next to an empty bridge. -/
def sample_state : scheduler_time_pf.pf_state :=
  (scheduler_time_pf.add_ue 0 { fairness_coeff := 1 }, {})

/-- A candidate of user `ue_index` with `pending_bytes` bytes pending. -/
def sample_candidate (ue_index pending_bytes : Nat) : ue_newtx_candidate :=
  { ue := { ue_index := ue_index }, pending_bytes := pending_bytes }

/-- A policy with fairness coefficient 1 that tracks users 0 and 1, after a DL
grant of 1000 bytes to user 0 and one of 4 bytes to user 1, next to an empty
bridge. One elapsed slot later the DL averages are 500 and 2. -/
def scenario_state : scheduler_time_pf.pf_state :=
  (scheduler_time_pf.save_dl_newtx_grants [⟨0, [1000]⟩, ⟨1, [4]⟩]
    (scheduler_time_pf.add_ue 1 (scheduler_time_pf.add_ue 0 { fairness_coeff := 1 })), {})

/-- A bridge in which bearer (17921, 4) has a record that overrides the QoS
priority (5) and the packet delay budget (50). -/
def qos_sample_state : edgeric :=
  edgeric.set_pdb 17921 4 50 (edgeric.set_qos_priority 17921 4 5 {})

/-- A QoS message entry that carries only the ARP priority 3 for bearer (17921, 4). -/
def qos_sample_entry : DrbQosParams := { rnti := 17921, lcid := 4, arp_priority := some 3 }

/-- The entries before `qos_sample_entry` in the sample message: a packet
delay budget for another bearer of the same user. -/
def qos_sample_pre : List DrbQosParams := [{ rnti := 17921, lcid := 5, pdb_ms := some 10 }]

/-- The entries after `qos_sample_entry` in the sample message: a clear for a
bearer of another user. -/
def qos_sample_post : List DrbQosParams := [{ rnti := 17922, lcid := 4, clear_override := true }]

/-! # Properties -/

/-! ## `StdMap` -/

namespace StdMap

variable {K V : Type} [DecidableEq K]

theorem find_set_self [LT K] [DecidableRel (α := K) (· < ·)] (k : K) (v : V) (m : Map K V) :
    find (set k v m) k = some v := by
  induction m with
  | nil => simp [set, find]
  | cons e t ih =>
    obtain ⟨k', v'⟩ := e
    by_cases h : k = k'
    · simp [set, find, h]
    · by_cases hlt : k < k'
      · simp [set, find, h, hlt]
      · simp [set, find, h, hlt, ih]

theorem find_set_ne [LT K] [DecidableRel (α := K) (· < ·)] (k r : K) (v : V) (m : Map K V)
    (hr : r ≠ k) : find (set k v m) r = find m r := by
  induction m with
  | nil => simp [set, find, hr]
  | cons e t ih =>
    obtain ⟨k', v'⟩ := e
    by_cases h : k = k'
    · subst h
      simp [set, find, hr]
    · by_cases hlt : k < k'
      · simp [set, find, h, hlt, hr]
      · simp [set, find, h, hlt, ih]

theorem find_eq_none_iff (m : Map K V) (k : K) : find m k = none ↔ k ∉ keys m := by
  induction m with
  | nil => simp [find, keys]
  | cons e t ih =>
    obtain ⟨k', v'⟩ := e
    by_cases h : k = k'
    · simp [find, keys, h]
    · simp only [keys] at ih
      simp [find, keys, h, ih]

theorem mem_of_find (m : Map K V) (k : K) (v : V) (h : find m k = some v) : (k, v) ∈ m := by
  induction m with
  | nil => simp [find] at h
  | cons e t ih =>
    obtain ⟨k', v'⟩ := e
    by_cases hk : k = k'
    · subst hk
      simp only [find, if_true, Option.some.injEq] at h
      subst h
      exact List.mem_cons_self _ _
    · simp only [find, hk, if_false] at h
      exact List.mem_cons_of_mem _ (ih h)

theorem find_append (a b : Map K V) (k : K) : find (a ++ b) k = (find a k).or (find b k) := by
  induction a with
  | nil => simp [find]
  | cons e t ih =>
    obtain ⟨k', v'⟩ := e
    by_cases h : k = k'
    · simp [find, h]
    · simp [find, h, ih]

theorem find_map_values {W : Type} (f : V → W) (m : Map K V) (k : K) :
    find (m.map (fun e => (e.1, f e.2))) k = (find m k).map f := by
  induction m with
  | nil => simp [find]
  | cons e t ih =>
    obtain ⟨k', v'⟩ := e
    by_cases h : k = k'
    · simp [find, h]
    · simp [find, h, ih]

theorem mem_iff_find (m : Map K V) (hm : (keys m).Nodup) (k : K) (v : V) :
    (k, v) ∈ m ↔ find m k = some v := by
  induction m with
  | nil => simp [find]
  | cons e t ih =>
    obtain ⟨k', v'⟩ := e
    simp only [keys, List.map_cons, List.nodup_cons] at hm
    have ih' := ih hm.2
    by_cases h : k = k'
    · subst h
      simp only [find, if_true, List.mem_cons, Prod.mk.injEq, true_and, Option.some.injEq]
      constructor
      · rintro (h1 | h1)
        · exact h1.symm
        · exact absurd (List.mem_map_of_mem Prod.fst h1) hm.1
      · intro h1
        exact Or.inl h1.symm
    · simp [find, h, ih']

theorem keys_set [LT K] [DecidableRel (α := K) (· < ·)] (k r : K) (v : V) (m : Map K V) :
    r ∈ keys (set k v m) ↔ r = k ∨ r ∈ keys m := by
  rw [← not_iff_not, ← find_eq_none_iff, not_or, ← find_eq_none_iff]
  by_cases h : r = k
  · subst h
    simp [find_set_self]
  · simp [find_set_ne _ _ _ _ h, h]

theorem sorted_keys_set (k : Nat) (v : V) (m : Map Nat V)
    (hm : (keys m).Pairwise (· < ·)) : (keys (set k v m)).Pairwise (· < ·) := by
  induction m with
  | nil => simp [set, keys]
  | cons e t ih =>
    obtain ⟨k', v'⟩ := e
    simp only [keys, List.map_cons, List.pairwise_cons] at hm
    by_cases h : k = k'
    · subst h
      simpa [set, keys] using hm
    · by_cases hlt : k < k'
      · simp only [set, h, hlt, if_true, if_false, keys, List.map_cons, List.pairwise_cons,
          List.mem_cons]
        refine ⟨?_, hm⟩
        rintro a (rfl | ha)
        · exact hlt
        · exact lt_trans hlt (hm.1 a ha)
      · simp only [set, h, hlt, if_false, keys, List.map_cons, List.pairwise_cons]
        refine ⟨?_, ih hm.2⟩
        intro a ha
        rcases (keys_set k a v t).1 ha with h1 | h1
        · subst h1
          omega
        · exact hm.1 a h1

theorem nodup_of_sorted_keys (m : Map Nat V) (hm : (keys m).Pairwise (· < ·)) :
    (keys m).Nodup :=
  List.Pairwise.imp (fun h => Nat.ne_of_lt h) hm

end StdMap

/-! ## The pair loop -/

theorem for_pairs_eq_fold_pairs {α σ : Type} (xs : List α) (body : α → α → σ → σ) :
    ∀ (fuel i : Nat) (st : σ), i ≤ xs.length → xs.length < i + fuel →
      edgeric.for_pairs xs body fuel i st = fold_pairs body (xs.drop i) st := by
  intro fuel
  induction fuel with
  | zero => intro i st h1 h2; omega
  | succ fuel ih =>
    intro i st h1 h2
    by_cases hi : i < xs.length
    · by_cases hi1 : i + 1 < xs.length
      · have e0 : xs[i]? = some xs[i] := List.getElem?_eq_getElem hi
        have e1 : xs[i + 1]? = some xs[i + 1] := List.getElem?_eq_getElem hi1
        have d0 : xs.drop i = xs[i] :: xs[i + 1] :: xs.drop (i + 2) := by
          rw [List.drop_eq_getElem_cons hi, List.drop_eq_getElem_cons hi1]
        rw [d0]
        simp only [edgeric.for_pairs, hi, if_true, e0, e1, fold_pairs]
        exact ih (i + 2) _ (by omega) (by omega)
      · have e0 : xs[i]? = some xs[i] := List.getElem?_eq_getElem hi
        have e1 : xs[i + 1]? = none := List.getElem?_eq_none (by omega)
        have d0 : xs.drop i = [xs[i]] := by
          rw [List.drop_eq_getElem_cons hi, List.drop_eq_nil_of_le (by omega)]
        rw [d0]
        simp only [edgeric.for_pairs, hi, if_true, e0, e1, fold_pairs]
    · have d0 : xs.drop i = [] := List.drop_eq_nil_of_le (by omega)
      rw [d0]
      simp only [edgeric.for_pairs, hi, if_false, fold_pairs]

theorem fold_pairs_of_even {α σ : Type} (body : α → α → σ → σ) :
    ∀ (xs : List α) (st : σ), Even xs.length →
      fold_pairs body xs st = some ((pairs xs).foldl (fun st p => body p.1 p.2 st) st)
  | [], st, _ => by simp [fold_pairs, pairs]
  | [a], st, h => by simp at h
  | a :: b :: rest, st, h => by
    have h2 : Even rest.length := by
      have h3 : (a :: b :: rest).length = rest.length + 2 := by simp
      rw [h3] at h
      rcases h with ⟨r, hr⟩
      exact ⟨r - 1, by omega⟩
    simp only [fold_pairs, pairs, List.foldl_cons]
    exact fold_pairs_of_even body rest _ h2

theorem fold_pairs_of_odd {α σ : Type} (body : α → α → σ → σ) :
    ∀ (xs : List α) (st : σ), ¬ Even xs.length → fold_pairs body xs st = none
  | [], st, h => by simp at h
  | [a], st, _ => by simp [fold_pairs]
  | a :: b :: rest, st, h => by
    have h2 : ¬ Even rest.length := by
      intro h4
      apply h
      rcases h4 with ⟨r, hr⟩
      exact ⟨r + 1, by simp only [List.length_cons]; omega⟩
    simp only [fold_pairs]
    exact fold_pairs_of_odd body rest _ h2

/-- The pair loop over a list of even length runs its body on each pair in
order and finishes; over a list of odd length it reads past the end. -/
theorem for_pairs_run {α σ : Type} (xs : List α) (body : α → α → σ → σ) (st : σ) :
    edgeric.for_pairs xs body (xs.length + 1) 0 st =
      if Even xs.length then some ((pairs xs).foldl (fun st p => body p.1 p.2 st) st)
      else none := by
  rw [for_pairs_eq_fold_pairs xs body _ 0 st (by omega) (by omega), List.drop_zero]
  by_cases h : Even xs.length
  · rw [if_pos h, fold_pairs_of_even body xs st h]
  · rw [if_neg h, fold_pairs_of_odd body xs st h]

/-! ## Tables after a sequence of assignments -/

theorem find_set_all {V : Type} (ps : List (Nat × V)) (m : Map Nat V) (r : Nat) :
    find (set_all ps m) r = (last_paired ps r).or (find m r) := by
  induction ps generalizing m with
  | nil => simp [set_all, last_paired, find]
  | cons p ps ih =>
    have e : set_all (p :: ps) m = set_all ps (set p.1 p.2 m) := rfl
    rw [e, ih]
    simp only [last_paired, List.reverse_cons, find_append]
    by_cases h : r = p.1
    · subst h
      cases hf : find ps.reverse p.1 <;> simp [find, find_set_self]
    · cases hf : find ps.reverse r <;> simp [find, find_set_ne _ _ _ _ h, h]

theorem sorted_keys_set_all {V : Type} (ps : List (Nat × V)) (m : Map Nat V)
    (hm : (keys m).Pairwise (· < ·)) : (keys (set_all ps m)).Pairwise (· < ·) := by
  induction ps generalizing m with
  | nil => simpa [set_all] using hm
  | cons p ps ih => exact ih _ (sorted_keys_set p.1 p.2 m hm)

theorem last_paired_eq_none_iff {V : Type} (ps : List (Nat × V)) (r : Nat) :
    last_paired ps r = none ↔ r ∉ keys ps := by
  simp [last_paired, find_eq_none_iff, keys]

theorem last_paired_of_nodup {V : Type} (ps : List (Nat × V)) (hps : (keys ps).Nodup)
    (k : Nat) (v : V) (h : (k, v) ∈ ps) : last_paired ps k = some v := by
  have hrev : (keys ps.reverse).Nodup := by
    simpa [keys, List.map_reverse] using hps
  exact (mem_iff_find ps.reverse hrev k v).1 (List.mem_reverse.2 h)

/-! ## Weight and MCS ingestion -/

theorem foldl_store_weight (ps : List (ℚ × ℚ)) (tbl : Map Nat ℚ) (tot : ℚ) :
    ps.foldl (fun st p => edgeric.store_weight p.1 p.2 st) (tbl, tot) =
      (set_all (ps.map (fun p => (float_to_uint16 p.1, p.2))) tbl,
        tot + (ps.map Prod.snd).sum) := by
  induction ps generalizing tbl tot with
  | nil => simp [set_all]
  | cons p ps ih =>
    simp only [List.foldl_cons, List.map_cons, List.sum_cons]
    rw [edgeric.store_weight, ih]
    simp [set_all, add_assoc]

theorem foldl_store_mcs (ps : List (Nat × Nat)) (tbl : Map Nat Nat) :
    ps.foldl (fun st p => edgeric.store_mcs p.1 p.2 st) tbl =
      set_all (ps.map (fun p => (to_uint16 p.1, to_uint8 p.2))) tbl := by
  induction ps generalizing tbl with
  | nil => simp [set_all]
  | cons p ps ih =>
    simp only [List.foldl_cons, List.map_cons]
    rw [edgeric.store_mcs, ih]
    simp [set_all]

theorem ensure_initialized_eq (s : edgeric) :
    edgeric.ensure_initialized s = { s with initialized := true } := by
  unfold edgeric.ensure_initialized
  by_cases h : s.initialized = true
  · rw [if_pos h]
    cases s
    simp_all
  · rw [if_neg h]

theorem get_weights_eq_find (s : edgeric) (r : Nat) :
    edgeric.get_weights s r = find s.weights_recved r := by
  unfold edgeric.get_weights
  cases h : s.weights_recved <;> simp [find]

theorem get_mcs_eq_find (s : edgeric) (r : Nat) :
    edgeric.get_mcs s r = find s.mcs_recved r := by
  unfold edgeric.get_mcs
  cases h : s.mcs_recved <;> simp [find]

theorem find_normalize_weights (m : Map Nat ℚ) (T : ℚ) (r : Nat) :
    find (edgeric.normalize_weights (m, T)) r =
      if 0 < T then (find m r).map (fun w => w / T) else find m r := by
  unfold edgeric.normalize_weights
  by_cases h : 0 < T
  · simp only [h, if_true]
    exact find_map_values (fun w => w / T) m r
  · simp only [h, if_false]

/-- A parsed weight message of even length: the listed pairs are assigned in
order, then the table is normalised by the listed total. -/
theorem get_weights_from_er_parsed (s : edgeric) (msg : SchedulingWeights)
    (heven : Even msg.weights.length) :
    edgeric.get_weights_from_er (.parsed msg) s =
      some { s with
        initialized := true,
        er_ran_index_weights := msg.ran_index,
        weights_recved := edgeric.normalize_weights
          (set_all (weight_pairs msg.weights) s.weights_recved, weight_total msg.weights) } := by
  unfold edgeric.get_weights_from_er
  simp only [for_pairs_run, heven, if_true, foldl_store_weight, ensure_initialized_eq]
  simp [weight_pairs, weight_total, values, List.map_map, Function.comp_def]

/-- A parsed MCS message of even length: the listed pairs are assigned in order. -/
theorem get_mcs_from_er_parsed (s : edgeric) (msg : mcs_control)
    (heven : Even msg.mcs.length) :
    edgeric.get_mcs_from_er (.parsed msg) s =
      some { s with
        initialized := true,
        er_ran_index_mcs := msg.ran_index,
        mcs_recved := set_all (mcs_pairs msg.mcs) s.mcs_recved } := by
  unfold edgeric.get_mcs_from_er
  simp only [for_pairs_run, heven, if_true, foldl_store_mcs, ensure_initialized_eq]
  simp [mcs_pairs]

theorem set_all_perm (ps : List (Nat × ℚ)) (m : Map Nat ℚ) (hps : (keys ps).Nodup)
    (hm : (keys m).Pairwise (· < ·)) (hsub : ∀ k ∈ keys m, k ∈ keys ps) :
    (set_all ps m).Perm ps := by
  have hk : (keys (set_all ps m)).Nodup :=
    nodup_of_sorted_keys _ (sorted_keys_set_all ps m hm)
  refine (List.perm_ext_iff_of_nodup (List.Nodup.of_map Prod.fst hk)
    (List.Nodup.of_map Prod.fst hps)).2 ?_
  rintro ⟨k, v⟩
  rw [mem_iff_find _ hk, mem_iff_find _ hps, find_set_all]
  cases hf : find ps k with
  | none =>
    have h1 : k ∉ keys ps := (find_eq_none_iff ps k).1 hf
    have h2 : find m k = none := (find_eq_none_iff m k).2 (fun h => h1 (hsub k h))
    rw [(last_paired_eq_none_iff ps k).2 h1, h2]
    simp
  | some w =>
    rw [last_paired_of_nodup ps hps k w ((mem_iff_find ps hps k w).2 hf)]
    simp

theorem values_sum_normalize (m : Map Nat ℚ) (T : ℚ) (hT : 0 < T) :
    (values (edgeric.normalize_weights (m, T))).sum = (values m).sum / T := by
  unfold edgeric.normalize_weights
  simp only [hT, if_true, values, List.map_map, Function.comp_def]
  have h := List.sum_map_mul_right m (fun e => e.2) T⁻¹
  simpa [div_eq_mul_inv] using h

/-- C1 (evaluation at the failing input): starting from the empty table, the
message `[5, 1]` leaves the table `5 ↦ 1`; the next message `[7, 2]` has a
strictly positive total, yet the table it leaves, `5 ↦ 1/2, 7 ↦ 1`, sums to
`3/2`, not to `1`: the entry of RNTI 5 is kept and divided by a total it is not
part of. -/
theorem C1_sum_after_second_message :
    ((edgeric.get_weights_from_er (.parsed ⟨1, [5, 1]⟩) {}).bind
        (edgeric.get_weights_from_er (.parsed ⟨2, [7, 2]⟩))).map
      (fun s => (s.weights_recved, (values s.weights_recved).sum))
      = some ([(5, 1 / 2), (7, 1)], 3 / 2) := by
  decide!

/-- C2 (counterexample): with the table `5 ↦ 1` and the message `[7, 2]`,
which does not list RNTI 5, `get_weights 5` still returns a value after the
call. -/
theorem C2_unlisted_rnti_keeps_entry :
    5 ∉ keys (weight_pairs [7, 2]) ∧
    (edgeric.get_weights_from_er (.parsed ⟨1, [7, 2]⟩) { weights_recved := [(5, 1)] }).map
      (fun s => edgeric.get_weights s 5) = some (some (1 / 2)) := by
  decide!

/-- C2 (amended): after `get_weights_from_er` with a parsed message (a flat
list of even length), an RNTI that the message does not list has a weight
exactly when it had one before the call: the table holds entries only for
RNTIs listed in the message or already present, and entries already present
are kept. -/
theorem C2_entries_after_weight_message (s : edgeric) (msg : SchedulingWeights)
    (heven : Even msg.weights.length) :
    ∃ s', edgeric.get_weights_from_er (.parsed msg) s = some s' ∧
      ∀ r, r ∉ keys (weight_pairs msg.weights) →
        (edgeric.get_weights s' r = none ↔ edgeric.get_weights s r = none) := by
  refine ⟨_, get_weights_from_er_parsed s msg heven, ?_⟩
  intro r hr
  rw [get_weights_eq_find, get_weights_eq_find]
  simp only [find_normalize_weights, find_set_all, (last_paired_eq_none_iff _ r).2 hr]
  by_cases hT : 0 < weight_total msg.weights
  · cases hf : find s.weights_recved r <;> simp [hT]
  · cases hf : find s.weights_recved r <;> simp [hT]

/-- Witness of C2 (amended): the table `5 ↦ 1` and the message `[7, 2]`. -/
theorem C2_entries_after_weight_message_witness :
    Even ([7, 2] : List ℚ).length ∧
    ∃ s', edgeric.get_weights_from_er (.parsed ⟨1, [7, 2]⟩) { weights_recved := [(5, 1)] }
        = some s' ∧
      ∀ r, r ∉ keys (weight_pairs [7, 2]) →
        (edgeric.get_weights s' r = none ↔
          edgeric.get_weights { weights_recved := [(5, 1)] } r = none) :=
  ⟨by decide, C2_entries_after_weight_message { weights_recved := [(5, 1)] } ⟨1, [7, 2]⟩
    (by decide)⟩

/-- C3: `get_weights_from_er` with no message pending leaves the weight table
empty, so `get_weights` returns no value for every RNTI; and when the next
call finds a parsed message (a flat list of even length) listing pairwise
distinct RNTIs with strictly positive total `T`, then afterwards
`get_weights r` is `w / T` for each listed pair `(r, w)` and no value for
every RNTI that is not listed. -/
theorem C3_clear_then_repopulate (s : edgeric) (msg : SchedulingWeights)
    (heven : Even msg.weights.length)
    (hdistinct : (keys (weight_pairs msg.weights)).Nodup)
    (hpos : 0 < weight_total msg.weights) :
    ∃ s1, edgeric.get_weights_from_er .no_message s = some s1 ∧
      s1.weights_recved = [] ∧ (∀ r, edgeric.get_weights s1 r = none) ∧
      ∃ s2, edgeric.get_weights_from_er (.parsed msg) s1 = some s2 ∧
        (∀ r w, (r, w) ∈ weight_pairs msg.weights →
          edgeric.get_weights s2 r = some (w / weight_total msg.weights)) ∧
        (∀ r, r ∉ keys (weight_pairs msg.weights) → edgeric.get_weights s2 r = none) := by
  refine ⟨_, rfl, rfl, ?_, _, get_weights_from_er_parsed _ msg heven, ?_, ?_⟩
  · intro r
    simp [get_weights_eq_find, find]
  · intro r w hrw
    rw [get_weights_eq_find]
    simp only [find_normalize_weights, find_set_all, hpos, if_true,
      last_paired_of_nodup _ hdistinct r w hrw]
    simp
  · intro r hr
    rw [get_weights_eq_find]
    simp only [find_normalize_weights, find_set_all, hpos, if_true,
      (last_paired_eq_none_iff _ r).2 hr]
    simp [find]

/-- Witness of C3: the table `5 ↦ 1`, an empty poll, then the message `[7, 1, 8, 3]`. -/
theorem C3_clear_then_repopulate_witness :
    (Even ([7, 1, 8, 3] : List ℚ).length ∧ (keys (weight_pairs [7, 1, 8, 3])).Nodup ∧
      0 < weight_total [7, 1, 8, 3]) ∧
    ∃ s1, edgeric.get_weights_from_er .no_message { weights_recved := [(5, 1)] } = some s1 ∧
      s1.weights_recved = [] ∧ (∀ r, edgeric.get_weights s1 r = none) ∧
      ∃ s2, edgeric.get_weights_from_er (.parsed ⟨1, [7, 1, 8, 3]⟩) s1 = some s2 ∧
        (∀ r w, (r, w) ∈ weight_pairs [7, 1, 8, 3] →
          edgeric.get_weights s2 r = some (w / weight_total [7, 1, 8, 3])) ∧
        (∀ r, r ∉ keys (weight_pairs [7, 1, 8, 3]) → edgeric.get_weights s2 r = none) :=
  ⟨⟨by decide, by decide!, by decide!⟩,
    C3_clear_then_repopulate { weights_recved := [(5, 1)] } ⟨1, [7, 1, 8, 3]⟩
      (by decide) (by decide!) (by decide!)⟩

/-- C4 (counterexample): with the MCS table `5 ↦ 10` and the message
`[7, 12]`, which does not list RNTI 5, `get_mcs 5` still returns 10 after the
call: the table is not replaced by the message. -/
theorem C4_unlisted_rnti_keeps_mcs :
    5 ∉ keys (mcs_pairs [7, 12]) ∧
    (edgeric.get_mcs_from_er (.parsed ⟨1, [7, 12]⟩) { mcs_recved := [(5, 10)] }).map
      (fun s => edgeric.get_mcs s 5) = some (some 10) := by
  decide

/-- C4 (amended): after `get_mcs_from_er` with a parsed message (a flat list
of even length), `get_mcs r` is the MCS index of the last pair of the message
that lists `r` when `r` is listed, and what it was before the call when `r`
is not listed; with no message pending, `get_mcs r` is no value for every
`r`. -/
theorem C4_mcs_after_ingest (s : edgeric) (msg : mcs_control) (heven : Even msg.mcs.length) :
    (∃ s', edgeric.get_mcs_from_er (.parsed msg) s = some s' ∧
      ∀ r, edgeric.get_mcs s' r =
        (last_paired (mcs_pairs msg.mcs) r).or (edgeric.get_mcs s r)) ∧
    (∃ s', edgeric.get_mcs_from_er .no_message s = some s' ∧
      ∀ r, edgeric.get_mcs s' r = none) := by
  refine ⟨⟨_, get_mcs_from_er_parsed s msg heven, ?_⟩, ⟨_, rfl, ?_⟩⟩
  · intro r
    rw [get_mcs_eq_find, get_mcs_eq_find]
    exact find_set_all _ _ r
  · intro r
    simp [get_mcs_eq_find, find]

/-- Witness of C4 (amended): the table `5 ↦ 10` and the message `[7, 12, 8, 3]`. -/
theorem C4_mcs_after_ingest_witness :
    Even ([7, 12, 8, 3] : List Nat).length ∧
    (∃ s', edgeric.get_mcs_from_er (.parsed ⟨1, [7, 12, 8, 3]⟩) { mcs_recved := [(5, 10)] }
        = some s' ∧
      ∀ r, edgeric.get_mcs s' r =
        (last_paired (mcs_pairs [7, 12, 8, 3]) r).or
          (edgeric.get_mcs { mcs_recved := [(5, 10)] } r)) ∧
    (∃ s', edgeric.get_mcs_from_er .no_message { mcs_recved := [(5, 10)] } = some s' ∧
      ∀ r, edgeric.get_mcs s' r = none) :=
  ⟨by decide, C4_mcs_after_ingest { mcs_recved := [(5, 10)] } ⟨1, [7, 12, 8, 3]⟩ (by decide)⟩

/-- C5: for a parsed weight message (a flat list of even length) in which
every weight is zero, `get_weights_from_er` completes, and the table it leaves
is exactly the table after the assignments of the first loop, nothing being
divided: every listed RNTI has weight 0 and every other RNTI has the weight,
or the absence of weight, it had before the call. -/
theorem C5_all_zero_message_unnormalized (s : edgeric) (msg : SchedulingWeights)
    (heven : Even msg.weights.length)
    (hzero : ∀ p ∈ weight_pairs msg.weights, p.2 = 0) :
    ∃ s', edgeric.get_weights_from_er (.parsed msg) s = some s' ∧
      s'.weights_recved = set_all (weight_pairs msg.weights) s.weights_recved ∧
      (∀ r ∈ keys (weight_pairs msg.weights), edgeric.get_weights s' r = some 0) ∧
      (∀ r, r ∉ keys (weight_pairs msg.weights) →
        edgeric.get_weights s' r = edgeric.get_weights s r) := by
  have htot : weight_total msg.weights = 0 := by
    unfold weight_total values
    apply List.sum_eq_zero
    intro x hx
    rcases List.mem_map.1 hx with ⟨p, hp, rfl⟩
    exact hzero p hp
  have htbl : edgeric.normalize_weights
      (set_all (weight_pairs msg.weights) s.weights_recved, weight_total msg.weights)
      = set_all (weight_pairs msg.weights) s.weights_recved := by
    simp [edgeric.normalize_weights, htot]
  refine ⟨_, get_weights_from_er_parsed s msg heven, htbl, ?_, ?_⟩
  · intro r hr
    rw [get_weights_eq_find]
    simp only [htbl, find_set_all]
    cases hl : last_paired (weight_pairs msg.weights) r with
    | none => exact absurd hr ((last_paired_eq_none_iff _ r).1 hl)
    | some w =>
      have hmem : (r, w) ∈ (weight_pairs msg.weights).reverse := mem_of_find _ r w hl
      have hw : w = 0 := hzero (r, w) (List.mem_reverse.1 hmem)
      simp [hw]
  · intro r hr
    rw [get_weights_eq_find, get_weights_eq_find]
    simp only [htbl, find_set_all, (last_paired_eq_none_iff _ r).2 hr]
    simp

/-- Witness of C5: the table `5 ↦ 1` and the all-zero message `[7, 0, 8, 0]`. -/
theorem C5_all_zero_message_unnormalized_witness :
    (Even ([7, 0, 8, 0] : List ℚ).length ∧ ∀ p ∈ weight_pairs [7, 0, 8, 0], p.2 = 0) ∧
    ∃ s', edgeric.get_weights_from_er (.parsed ⟨1, [7, 0, 8, 0]⟩) { weights_recved := [(5, 1)] }
        = some s' ∧
      s'.weights_recved = set_all (weight_pairs [7, 0, 8, 0]) [(5, 1)] ∧
      (∀ r ∈ keys (weight_pairs [7, 0, 8, 0]), edgeric.get_weights s' r = some 0) ∧
      (∀ r, r ∉ keys (weight_pairs [7, 0, 8, 0]) →
        edgeric.get_weights s' r = edgeric.get_weights { weights_recved := [(5, 1)] } r) :=
  ⟨⟨by decide, by decide!⟩,
    C5_all_zero_message_unnormalized { weights_recved := [(5, 1)] } ⟨1, [7, 0, 8, 0]⟩
      (by decide) (by decide!)⟩

/-- C6: when a message is pending but fails to parse, each of
`get_weights_from_er`, `get_mcs_from_er` and `get_qos_from_er` returns with
every table and every control-round index as before the call (only the
initialisation flag is set); in particular the override table and the round
index of its own channel are unchanged. -/
theorem C6_parse_failure_keeps_state (s : edgeric) :
    (edgeric.get_weights_from_er .parse_failure s = some { s with initialized := true } ∧
      edgeric.get_mcs_from_er .parse_failure s = some { s with initialized := true } ∧
      edgeric.get_qos_from_er .parse_failure s = { s with initialized := true }) ∧
    ((edgeric.get_weights_from_er .parse_failure s).map
        (fun s' => (s'.weights_recved, s'.er_ran_index_weights))
        = some (s.weights_recved, s.er_ran_index_weights) ∧
      (edgeric.get_mcs_from_er .parse_failure s).map
        (fun s' => (s'.mcs_recved, s'.er_ran_index_mcs))
        = some (s.mcs_recved, s.er_ran_index_mcs) ∧
      (edgeric.get_qos_from_er .parse_failure s).qos_overrides = s.qos_overrides ∧
      (edgeric.get_qos_from_er .parse_failure s).er_ran_index_qos = s.er_ran_index_qos) := by
  simp [edgeric.get_weights_from_er, edgeric.get_mcs_from_er, edgeric.get_qos_from_er,
    ensure_initialized_eq]

/-- C7 (counterexample): on the empty table the message `[7, 0]` leaves the
table `7 ↦ 0`, which is not empty and whose weights sum to 0, not to 1. -/
theorem C7_zero_total_table_not_normalized :
    (edgeric.get_weights_from_er (.parsed ⟨1, [7, 0]⟩) {}).map
      (fun s => (s.weights_recved, (values s.weights_recved).sum)) = some ([(7, 0)], 0) := by
  decide!

/-- C7 (amended): with the `float` weights, their running total and the
division read as exact rationals (exact arithmetic: no rounding, no overflow
of the total), after `get_weights_from_er` with a parsed message (a flat list
of even length) that lists pairwise distinct RNTIs with non-negative weights
of strictly positive total, on a prior table (keys in increasing order) all of
whose RNTIs are listed in the message, every stored weight lies in `[0, 1]`
and the stored weights sum to 1. -/
theorem C7_weights_normalized (s : edgeric) (msg : SchedulingWeights)
    (heven : Even msg.weights.length)
    (hdistinct : (keys (weight_pairs msg.weights)).Nodup)
    (hnonneg : ∀ p ∈ weight_pairs msg.weights, 0 ≤ p.2)
    (hpos : 0 < weight_total msg.weights)
    (hsorted : (keys s.weights_recved).Pairwise (· < ·))
    (hlisted : ∀ k ∈ keys s.weights_recved, k ∈ keys (weight_pairs msg.weights)) :
    ∃ s', edgeric.get_weights_from_er (.parsed msg) s = some s' ∧
      (∀ e ∈ s'.weights_recved, 0 ≤ e.2 ∧ e.2 ≤ 1) ∧
      (values s'.weights_recved).sum = 1 := by
  have hperm := set_all_perm (weight_pairs msg.weights) s.weights_recved hdistinct hsorted hlisted
  refine ⟨_, get_weights_from_er_parsed s msg heven, ?_, ?_⟩
  · intro e he
    simp only [edgeric.normalize_weights, hpos, if_true, List.mem_map] at he
    rcases he with ⟨p, hp, rfl⟩
    have hp' : p ∈ weight_pairs msg.weights := hperm.mem_iff.1 hp
    have h0 : 0 ≤ p.2 := hnonneg p hp'
    have hle : p.2 ≤ weight_total msg.weights := by
      unfold weight_total values
      apply List.single_le_sum
      · intro x hx
        rcases List.mem_map.1 hx with ⟨q, hq, rfl⟩
        exact hnonneg q hq
      · exact List.mem_map_of_mem Prod.snd hp'
    exact ⟨div_nonneg h0 hpos.le, (div_le_one hpos).2 hle⟩
  · show (values (edgeric.normalize_weights _)).sum = 1
    rw [values_sum_normalize _ _ hpos]
    have hs : (values (set_all (weight_pairs msg.weights) s.weights_recved)).sum
        = weight_total msg.weights := by
      unfold weight_total values
      exact (hperm.map Prod.snd).sum_eq
    rw [hs]
    exact div_self hpos.ne'

/-- Witness of C7 (amended): the table `7 ↦ 1/2, 8 ↦ 1/2` and the message
`[7, 1, 8, 3]`, which leave the table `7 ↦ 1/4, 8 ↦ 3/4`. -/
theorem C7_weights_normalized_witness :
    (Even ([7, 1, 8, 3] : List ℚ).length ∧ (keys (weight_pairs [7, 1, 8, 3])).Nodup ∧
      (∀ p ∈ weight_pairs [7, 1, 8, 3], 0 ≤ p.2) ∧ 0 < weight_total [7, 1, 8, 3] ∧
      (keys ([(7, 1 / 2), (8, 1 / 2)] : Map Nat ℚ)).Pairwise (· < ·) ∧
      (∀ k ∈ keys ([(7, 1 / 2), (8, 1 / 2)] : Map Nat ℚ), k ∈ keys (weight_pairs [7, 1, 8, 3])) ∧
      (edgeric.get_weights_from_er (.parsed ⟨1, [7, 1, 8, 3]⟩)
        { weights_recved := [(7, 1 / 2), (8, 1 / 2)] }).map (fun s' => s'.weights_recved)
        = some [(7, 1 / 4), (8, 3 / 4)]) ∧
    ∃ s', edgeric.get_weights_from_er (.parsed ⟨1, [7, 1, 8, 3]⟩)
        { weights_recved := [(7, 1 / 2), (8, 1 / 2)] } = some s' ∧
      (∀ e ∈ s'.weights_recved, 0 ≤ e.2 ∧ e.2 ≤ 1) ∧
      (values s'.weights_recved).sum = 1 :=
  ⟨⟨by decide, by decide!, by decide!, by decide!, by decide!, by decide!, by decide!⟩,
    C7_weights_normalized { weights_recved := [(7, 1 / 2), (8, 1 / 2)] } ⟨1, [7, 1, 8, 3]⟩
      (by decide) (by decide!) (by decide!) (by decide!) (by decide!) (by decide!)⟩

/-! ## Proportional-fair policy -/

theorem for_candidates_append
    (body : scheduler_time_pf.pf_state → ue_newtx_candidate →
      scheduler_time_pf.pf_state × ue_newtx_candidate)
    (a b : List ue_newtx_candidate) (st : scheduler_time_pf.pf_state) :
    scheduler_time_pf.for_candidates body (a ++ b) st =
      ((scheduler_time_pf.for_candidates body b
          (scheduler_time_pf.for_candidates body a st).1).1,
        (scheduler_time_pf.for_candidates body a st).2 ++
          (scheduler_time_pf.for_candidates body b
            (scheduler_time_pf.for_candidates body a st).1).2) := by
  induction a generalizing st with
  | nil => simp [scheduler_time_pf.for_candidates]
  | cons c cs ih => simp [scheduler_time_pf.for_candidates, ih]

theorem for_candidates_length
    (body : scheduler_time_pf.pf_state → ue_newtx_candidate →
      scheduler_time_pf.pf_state × ue_newtx_candidate)
    (a : List ue_newtx_candidate) (st : scheduler_time_pf.pf_state) :
    (scheduler_time_pf.for_candidates body a st).2.length = a.length := by
  induction a generalizing st with
  | nil => simp [scheduler_time_pf.for_candidates]
  | cons c cs ih => simp [scheduler_time_pf.for_candidates, ih]

/-- A loop whose body keeps a property of the policy state keeps it overall. -/
theorem for_candidates_invariant
    (body : scheduler_time_pf.pf_state → ue_newtx_candidate →
      scheduler_time_pf.pf_state × ue_newtx_candidate)
    (P : scheduler_time_pf.pf_state → Prop)
    (hbody : ∀ st c, P st → P (body st c).1)
    (a : List ue_newtx_candidate) (st : scheduler_time_pf.pf_state) (h : P st) :
    P (scheduler_time_pf.for_candidates body a st).1 := by
  induction a generalizing st with
  | nil => simpa [scheduler_time_pf.for_candidates] using h
  | cons c cs ih =>
    simp only [scheduler_time_pf.for_candidates]
    exact ih _ (hbody st c h)

theorem rate_floor_eq_max (a : ℚ) : (if a < 1 then 1 else a) = max a 1 := by
  by_cases h : a < 1
  · rw [if_pos h, max_eq_right h.le]
  · rw [if_neg h, max_eq_left (not_lt.1 h)]

/-- What the body of the DL loop does to the context of user `k`. -/
theorem dl_candidate_find (env : pf_externals) (n : Nat) (st : scheduler_time_pf.pf_state)
    (c : ue_newtx_candidate) (k : Nat) :
    find (scheduler_time_pf.dl_candidate env n st c).1.1.ue_history_db k =
      if k = c.ue.ue_index then
        (find st.1.ue_history_db k).map (fun ctxt =>
          { ctxt.update_dl_avg_rate_no_alloc n with
            dl_prio := pf_priority env c.pending_bytes
              (ctxt.update_dl_avg_rate_no_alloc n).dl_avg_rate st.1.fairness_coeff })
      else find st.1.ue_history_db k := by
  unfold scheduler_time_pf.dl_candidate
  by_cases hk : k = c.ue.ue_index
  · subst hk
    cases hf : find st.1.ue_history_db c.ue.ue_index with
    | none => simp [hf]
    | some ctxt => simp [hf, find_set_self, rate_floor_eq_max, pf_priority]
  · cases hf : find st.1.ue_history_db c.ue.ue_index with
    | none => simp [hk]
    | some ctxt => simp [hk, find_set_ne _ _ _ _ hk]

/-- What the body of the UL loop does to the context of user `k`. -/
theorem ul_candidate_find (env : pf_externals) (n : Nat) (st : scheduler_time_pf.pf_state)
    (c : ue_newtx_candidate) (k : Nat) :
    find (scheduler_time_pf.ul_candidate env n st c).1.1.ue_history_db k =
      if k = c.ue.ue_index then
        (find st.1.ue_history_db k).map (fun ctxt =>
          { ctxt.update_ul_avg_rate_no_alloc n with
            ul_prio := pf_priority env c.pending_bytes
              (ctxt.update_ul_avg_rate_no_alloc n).ul_avg_rate st.1.fairness_coeff })
      else find st.1.ue_history_db k := by
  unfold scheduler_time_pf.ul_candidate
  by_cases hk : k = c.ue.ue_index
  · subst hk
    cases hf : find st.1.ue_history_db c.ue.ue_index with
    | none => simp [hf]
    | some ctxt => simp [hf, find_set_self, rate_floor_eq_max, pf_priority]
  · cases hf : find st.1.ue_history_db c.ue.ue_index with
    | none => simp [hk]
    | some ctxt => simp [hk, find_set_ne _ _ _ _ hk]

/-- The candidate the body of the DL loop hands back. -/
theorem dl_candidate_out (env : pf_externals) (n : Nat) (st : scheduler_time_pf.pf_state)
    (c : ue_newtx_candidate) :
    (scheduler_time_pf.dl_candidate env n st c).2 =
      match find st.1.ue_history_db c.ue.ue_index with
      | none => { c with priority := env.max_sched_priority }
      | some ctxt =>
        { c with
          priority := pf_priority env c.pending_bytes
            (ctxt.update_dl_avg_rate_no_alloc n).dl_avg_rate st.1.fairness_coeff } := by
  unfold scheduler_time_pf.dl_candidate
  cases hf : find st.1.ue_history_db c.ue.ue_index with
  | none => simp
  | some ctxt => simp [rate_floor_eq_max, pf_priority]

/-- The candidate the body of the UL loop hands back. -/
theorem ul_candidate_out (env : pf_externals) (n : Nat) (st : scheduler_time_pf.pf_state)
    (c : ue_newtx_candidate) :
    (scheduler_time_pf.ul_candidate env n st c).2 =
      match find st.1.ue_history_db c.ue.ue_index with
      | none => { c with priority := env.max_sched_priority }
      | some ctxt =>
        { c with
          priority := pf_priority env c.pending_bytes
            (ctxt.update_ul_avg_rate_no_alloc n).ul_avg_rate st.1.fairness_coeff } := by
  unfold scheduler_time_pf.ul_candidate
  cases hf : find st.1.ue_history_db c.ue.ue_index with
  | none => simp
  | some ctxt => simp [rate_floor_eq_max, pf_priority]

theorem dl_candidate_fairness (env : pf_externals) (n : Nat) (st : scheduler_time_pf.pf_state)
    (c : ue_newtx_candidate) :
    (scheduler_time_pf.dl_candidate env n st c).1.1.fairness_coeff = st.1.fairness_coeff := by
  unfold scheduler_time_pf.dl_candidate
  cases hf : find st.1.ue_history_db c.ue.ue_index <;> simp

theorem ul_candidate_fairness (env : pf_externals) (n : Nat) (st : scheduler_time_pf.pf_state)
    (c : ue_newtx_candidate) :
    (scheduler_time_pf.ul_candidate env n st c).1.1.fairness_coeff = st.1.fairness_coeff := by
  unfold scheduler_time_pf.ul_candidate
  cases hf : find st.1.ue_history_db c.ue.ue_index <;> simp

section loops

variable (body : scheduler_time_pf.pf_state → ue_newtx_candidate →
  scheduler_time_pf.pf_state × ue_newtx_candidate)

theorem for_candidates_get (pre post : List ue_newtx_candidate) (c : ue_newtx_candidate)
    (st : scheduler_time_pf.pf_state) :
    (scheduler_time_pf.for_candidates body (pre ++ c :: post) st).2[pre.length]? =
      some (body (scheduler_time_pf.for_candidates body pre st).1 c).2 := by
  rw [for_candidates_append]
  have hlen := for_candidates_length body pre st
  rw [List.getElem?_append_right (by omega)]
  simp [hlen, scheduler_time_pf.for_candidates]

theorem for_candidates_snoc (pre : List ue_newtx_candidate) (c : ue_newtx_candidate)
    (st : scheduler_time_pf.pf_state) :
    (scheduler_time_pf.for_candidates body (pre ++ [c]) st).1 =
      (body (scheduler_time_pf.for_candidates body pre st).1 c).1 := by
  rw [for_candidates_append]
  simp [scheduler_time_pf.for_candidates]

theorem for_candidates_state (pre post : List ue_newtx_candidate) (c : ue_newtx_candidate)
    (st : scheduler_time_pf.pf_state) :
    (scheduler_time_pf.for_candidates body (pre ++ c :: post) st).1 =
      (scheduler_time_pf.for_candidates body post
        (body (scheduler_time_pf.for_candidates body pre st).1 c).1).1 := by
  rw [for_candidates_append]
  simp [scheduler_time_pf.for_candidates]

variable (upd : scheduler_time_pf.pf_state → ue_newtx_candidate → ue_ctxt → ue_ctxt)
  (hfind : ∀ st c k, find (body st c).1.1.ue_history_db k =
    if k = c.ue.ue_index then (find st.1.ue_history_db k).map (upd st c)
    else find st.1.ue_history_db k)

include hfind

theorem for_candidates_find_other (k : Nat) (cs : List ue_newtx_candidate)
    (st : scheduler_time_pf.pf_state) (h : ∀ d ∈ cs, d.ue.ue_index ≠ k) :
    find (scheduler_time_pf.for_candidates body cs st).1.1.ue_history_db k =
      find st.1.ue_history_db k := by
  induction cs generalizing st with
  | nil => simp [scheduler_time_pf.for_candidates]
  | cons c cs ih =>
    simp only [scheduler_time_pf.for_candidates]
    rw [ih _ (fun d hd => h d (List.mem_cons_of_mem _ hd)), hfind]
    have hne : k ≠ c.ue.ue_index := fun e => h c (List.mem_cons_self _ _) e.symm
    simp [hne]

theorem for_candidates_tracked (k : Nat) (cs : List ue_newtx_candidate)
    (st : scheduler_time_pf.pf_state) :
    contains (scheduler_time_pf.for_candidates body cs st).1.1.ue_history_db k =
      contains st.1.ue_history_db k := by
  induction cs generalizing st with
  | nil => simp [scheduler_time_pf.for_candidates]
  | cons c cs ih =>
    simp only [scheduler_time_pf.for_candidates]
    rw [ih]
    unfold contains
    rw [hfind]
    by_cases hk : k = c.ue.ue_index
    · simp [hk]
    · simp [hk]

end loops

theorem for_candidates_fairness_dl (env : pf_externals) (n : Nat)
    (cs : List ue_newtx_candidate) (st : scheduler_time_pf.pf_state) :
    (scheduler_time_pf.for_candidates (scheduler_time_pf.dl_candidate env n) cs
      st).1.1.fairness_coeff = st.1.fairness_coeff :=
  for_candidates_invariant (scheduler_time_pf.dl_candidate env n)
    (fun s => s.1.fairness_coeff = st.1.fairness_coeff)
    (fun s c h => (dl_candidate_fairness env n s c).trans h) cs st rfl

theorem for_candidates_fairness_ul (env : pf_externals) (n : Nat)
    (cs : List ue_newtx_candidate) (st : scheduler_time_pf.pf_state) :
    (scheduler_time_pf.for_candidates (scheduler_time_pf.ul_candidate env n) cs
      st).1.1.fairness_coeff = st.1.fairness_coeff :=
  for_candidates_invariant (scheduler_time_pf.ul_candidate env n)
    (fun s => s.1.fairness_coeff = st.1.fairness_coeff)
    (fun s c h => (ul_candidate_fairness env n s c).trans h) cs st rfl

/-- The DL loop at a tracked candidate `c` reached after the candidates `pre`. -/
theorem dl_loop_tracked (env : pf_externals) (n : Nat) (pre post : List ue_newtx_candidate)
    (c : ue_newtx_candidate) (st : scheduler_time_pf.pf_state)
    (htracked : contains st.1.ue_history_db c.ue.ue_index = true) :
    ∃ ctxt prio,
      find (scheduler_time_pf.for_candidates (scheduler_time_pf.dl_candidate env n) pre
        st).1.1.ue_history_db c.ue.ue_index = some ctxt ∧
      prio = pf_priority env c.pending_bytes
        (ctxt.update_dl_avg_rate_no_alloc n).dl_avg_rate st.1.fairness_coeff ∧
      (scheduler_time_pf.for_candidates (scheduler_time_pf.dl_candidate env n)
        (pre ++ c :: post) st).2[pre.length]? = some { c with priority := prio } ∧
      (find (scheduler_time_pf.for_candidates (scheduler_time_pf.dl_candidate env n)
        (pre ++ [c]) st).1.1.ue_history_db c.ue.ue_index).map (fun x => x.dl_prio)
        = some prio ∧
      ((∀ d ∈ post, d.ue.ue_index ≠ c.ue.ue_index) →
        (find (scheduler_time_pf.for_candidates (scheduler_time_pf.dl_candidate env n)
          (pre ++ c :: post) st).1.1.ue_history_db c.ue.ue_index).map (fun x => x.dl_prio)
          = some prio) := by
  have hfind := dl_candidate_find env n
  have ht := for_candidates_tracked _ _ hfind c.ue.ue_index pre st
  rw [htracked] at ht
  unfold contains at ht
  obtain ⟨ctxt, hctxt⟩ := Option.isSome_iff_exists.1 ht
  have hf := for_candidates_fairness_dl env n pre st
  have hafter : (find (scheduler_time_pf.dl_candidate env n
      (scheduler_time_pf.for_candidates (scheduler_time_pf.dl_candidate env n) pre st).1
      c).1.1.ue_history_db c.ue.ue_index).map (fun x => x.dl_prio)
      = some (pf_priority env c.pending_bytes
        (ctxt.update_dl_avg_rate_no_alloc n).dl_avg_rate st.1.fairness_coeff) := by
    rw [hfind, hctxt, hf]
    simp
  refine ⟨ctxt, _, hctxt, rfl, ?_, ?_, ?_⟩
  · rw [for_candidates_get, dl_candidate_out, hctxt, hf]
  · rw [for_candidates_snoc]
    exact hafter
  · intro hpost
    rw [for_candidates_state, for_candidates_find_other _ _ hfind _ _ _ hpost]
    exact hafter

/-- The UL loop at a tracked candidate `c` reached after the candidates `pre`. -/
theorem ul_loop_tracked (env : pf_externals) (n : Nat) (pre post : List ue_newtx_candidate)
    (c : ue_newtx_candidate) (st : scheduler_time_pf.pf_state)
    (htracked : contains st.1.ue_history_db c.ue.ue_index = true) :
    ∃ ctxt prio,
      find (scheduler_time_pf.for_candidates (scheduler_time_pf.ul_candidate env n) pre
        st).1.1.ue_history_db c.ue.ue_index = some ctxt ∧
      prio = pf_priority env c.pending_bytes
        (ctxt.update_ul_avg_rate_no_alloc n).ul_avg_rate st.1.fairness_coeff ∧
      (scheduler_time_pf.for_candidates (scheduler_time_pf.ul_candidate env n)
        (pre ++ c :: post) st).2[pre.length]? = some { c with priority := prio } ∧
      (find (scheduler_time_pf.for_candidates (scheduler_time_pf.ul_candidate env n)
        (pre ++ [c]) st).1.1.ue_history_db c.ue.ue_index).map (fun x => x.ul_prio)
        = some prio ∧
      ((∀ d ∈ post, d.ue.ue_index ≠ c.ue.ue_index) →
        (find (scheduler_time_pf.for_candidates (scheduler_time_pf.ul_candidate env n)
          (pre ++ c :: post) st).1.1.ue_history_db c.ue.ue_index).map (fun x => x.ul_prio)
          = some prio) := by
  have hfind := ul_candidate_find env n
  have ht := for_candidates_tracked _ _ hfind c.ue.ue_index pre st
  rw [htracked] at ht
  unfold contains at ht
  obtain ⟨ctxt, hctxt⟩ := Option.isSome_iff_exists.1 ht
  have hf := for_candidates_fairness_ul env n pre st
  have hafter : (find (scheduler_time_pf.ul_candidate env n
      (scheduler_time_pf.for_candidates (scheduler_time_pf.ul_candidate env n) pre st).1
      c).1.1.ue_history_db c.ue.ue_index).map (fun x => x.ul_prio)
      = some (pf_priority env c.pending_bytes
        (ctxt.update_ul_avg_rate_no_alloc n).ul_avg_rate st.1.fairness_coeff) := by
    rw [hfind, hctxt, hf]
    simp
  refine ⟨ctxt, _, hctxt, rfl, ?_, ?_, ?_⟩
  · rw [for_candidates_get, ul_candidate_out, hctxt, hf]
  · rw [for_candidates_snoc]
    exact hafter
  · intro hpost
    rw [for_candidates_state, for_candidates_find_other _ _ hfind _ _ _ hpost]
    exact hafter

/-- C8: for every candidate `c` whose user is tracked, wherever it stands in
the candidate list (after `pre`, before `post`), the priority that
`compute_ue_dl_priorities` attaches to it is
`pending_bytes / max(avg_rate, 1)^fairness_coeff`, where `avg_rate` is the DL
average of the context the loop finds for the user (`ctxt`, the one left by
the candidates before `c`) after the zero-sample update for the elapsed slots;
the same value is the `dl_prio` of the context once `c` is processed, and at
the end of the call unless a later candidate names the same user. The same
holds for `compute_ue_ul_priorities`, the UL average and `ul_prio`. -/
theorem C8_priority_of_tracked_candidate (env : pf_externals) (slot : slot_point)
    (pre post : List ue_newtx_candidate) (c : ue_newtx_candidate)
    (st : scheduler_time_pf.pf_state)
    (htracked : contains st.1.ue_history_db c.ue.ue_index = true) :
    (∃ ctxt prio,
      find (scheduler_time_pf.compute_ue_dl_priorities env slot pre
        st).1.1.ue_history_db c.ue.ue_index = some ctxt ∧
      prio = pf_priority env c.pending_bytes
        (ctxt.update_dl_avg_rate_no_alloc
          (scheduler_time_pf.nof_slots_elapsed slot st.1.last_pdsch_slot)).dl_avg_rate
        st.1.fairness_coeff ∧
      (scheduler_time_pf.compute_ue_dl_priorities env slot (pre ++ c :: post)
        st).2[pre.length]? = some { c with priority := prio } ∧
      (find (scheduler_time_pf.compute_ue_dl_priorities env slot (pre ++ [c])
        st).1.1.ue_history_db c.ue.ue_index).map (fun x => x.dl_prio) = some prio ∧
      ((∀ d ∈ post, d.ue.ue_index ≠ c.ue.ue_index) →
        (find (scheduler_time_pf.compute_ue_dl_priorities env slot (pre ++ c :: post)
          st).1.1.ue_history_db c.ue.ue_index).map (fun x => x.dl_prio) = some prio)) ∧
    (∃ ctxt prio,
      find (scheduler_time_pf.compute_ue_ul_priorities env slot pre
        st).1.1.ue_history_db c.ue.ue_index = some ctxt ∧
      prio = pf_priority env c.pending_bytes
        (ctxt.update_ul_avg_rate_no_alloc
          (scheduler_time_pf.nof_slots_elapsed slot st.1.last_pusch_slot)).ul_avg_rate
        st.1.fairness_coeff ∧
      (scheduler_time_pf.compute_ue_ul_priorities env slot (pre ++ c :: post)
        st).2[pre.length]? = some { c with priority := prio } ∧
      (find (scheduler_time_pf.compute_ue_ul_priorities env slot (pre ++ [c])
        st).1.1.ue_history_db c.ue.ue_index).map (fun x => x.ul_prio) = some prio ∧
      ((∀ d ∈ post, d.ue.ue_index ≠ c.ue.ue_index) →
        (find (scheduler_time_pf.compute_ue_ul_priorities env slot (pre ++ c :: post)
          st).1.1.ue_history_db c.ue.ue_index).map (fun x => x.ul_prio) = some prio)) := by
  constructor
  · exact dl_loop_tracked env _ pre post c
      ({ st.1 with tti_cnt := (st.1.tti_cnt + 1) % 2 ^ 32, last_pdsch_slot := slot }, st.2)
      htracked
  · exact ul_loop_tracked env _ pre post c
      ({ st.1 with last_pusch_slot := slot }, st.2) htracked

/-- Witness of C8: user 0 tracked with a fresh context, one candidate with 10000 bytes pending. -/
theorem C8_priority_of_tracked_candidate_witness :
    contains sample_state.1.ue_history_db (sample_candidate 0 10000).ue.ue_index = true ∧
    ((∃ ctxt prio,
      find (scheduler_time_pf.compute_ue_dl_priorities sample_env ⟨true, 5⟩ []
        sample_state).1.1.ue_history_db (sample_candidate 0 10000).ue.ue_index = some ctxt ∧
      prio = pf_priority sample_env (sample_candidate 0 10000).pending_bytes
        (ctxt.update_dl_avg_rate_no_alloc
          (scheduler_time_pf.nof_slots_elapsed ⟨true, 5⟩
            sample_state.1.last_pdsch_slot)).dl_avg_rate
        sample_state.1.fairness_coeff ∧
      (scheduler_time_pf.compute_ue_dl_priorities sample_env ⟨true, 5⟩
        ([] ++ sample_candidate 0 10000 :: [])
        sample_state).2[([] : List ue_newtx_candidate).length]?
        = some { sample_candidate 0 10000 with priority := prio } ∧
      (find (scheduler_time_pf.compute_ue_dl_priorities sample_env ⟨true, 5⟩
        ([] ++ [sample_candidate 0 10000])
        sample_state).1.1.ue_history_db (sample_candidate 0 10000).ue.ue_index).map
          (fun x => x.dl_prio) = some prio ∧
      ((∀ d ∈ ([] : List ue_newtx_candidate),
          d.ue.ue_index ≠ (sample_candidate 0 10000).ue.ue_index) →
        (find (scheduler_time_pf.compute_ue_dl_priorities sample_env ⟨true, 5⟩
          ([] ++ sample_candidate 0 10000 :: [])
          sample_state).1.1.ue_history_db (sample_candidate 0 10000).ue.ue_index).map
            (fun x => x.dl_prio) = some prio)) ∧
    (∃ ctxt prio,
      find (scheduler_time_pf.compute_ue_ul_priorities sample_env ⟨true, 5⟩ []
        sample_state).1.1.ue_history_db (sample_candidate 0 10000).ue.ue_index = some ctxt ∧
      prio = pf_priority sample_env (sample_candidate 0 10000).pending_bytes
        (ctxt.update_ul_avg_rate_no_alloc
          (scheduler_time_pf.nof_slots_elapsed ⟨true, 5⟩
            sample_state.1.last_pusch_slot)).ul_avg_rate
        sample_state.1.fairness_coeff ∧
      (scheduler_time_pf.compute_ue_ul_priorities sample_env ⟨true, 5⟩
        ([] ++ sample_candidate 0 10000 :: [])
        sample_state).2[([] : List ue_newtx_candidate).length]?
        = some { sample_candidate 0 10000 with priority := prio } ∧
      (find (scheduler_time_pf.compute_ue_ul_priorities sample_env ⟨true, 5⟩
        ([] ++ [sample_candidate 0 10000])
        sample_state).1.1.ue_history_db (sample_candidate 0 10000).ue.ue_index).map
          (fun x => x.ul_prio) = some prio ∧
      ((∀ d ∈ ([] : List ue_newtx_candidate),
          d.ue.ue_index ≠ (sample_candidate 0 10000).ue.ue_index) →
        (find (scheduler_time_pf.compute_ue_ul_priorities sample_env ⟨true, 5⟩
          ([] ++ sample_candidate 0 10000 :: [])
          sample_state).1.1.ue_history_db (sample_candidate 0 10000).ue.ue_index).map
            (fun x => x.ul_prio) = some prio))) :=
  ⟨by decide!,
    C8_priority_of_tracked_candidate sample_env ⟨true, 5⟩ [] [] (sample_candidate 0 10000)
      sample_state (by decide!)⟩

/-- C10: for every candidate `c` whose user has no tracked context, wherever
it stands in the candidate list, `compute_ue_dl_priorities` and
`compute_ue_ul_priorities` hand the candidate back with priority
`max_sched_priority`, whatever its pending bytes, and the user still has no
context at the end of the call. -/
theorem C10_untracked_candidate_gets_sentinel (env : pf_externals) (slot : slot_point)
    (pre post : List ue_newtx_candidate) (c : ue_newtx_candidate)
    (st : scheduler_time_pf.pf_state)
    (huntracked : contains st.1.ue_history_db c.ue.ue_index = false) :
    ((scheduler_time_pf.compute_ue_dl_priorities env slot (pre ++ c :: post)
        st).2[pre.length]? = some { c with priority := env.max_sched_priority } ∧
      contains (scheduler_time_pf.compute_ue_dl_priorities env slot (pre ++ c :: post)
        st).1.1.ue_history_db c.ue.ue_index = false) ∧
    ((scheduler_time_pf.compute_ue_ul_priorities env slot (pre ++ c :: post)
        st).2[pre.length]? = some { c with priority := env.max_sched_priority } ∧
      contains (scheduler_time_pf.compute_ue_ul_priorities env slot (pre ++ c :: post)
        st).1.1.ue_history_db c.ue.ue_index = false) := by
  have key : ∀ (body : scheduler_time_pf.pf_state → ue_newtx_candidate →
        scheduler_time_pf.pf_state × ue_newtx_candidate)
      (upd : scheduler_time_pf.pf_state → ue_newtx_candidate → ue_ctxt → ue_ctxt)
      (s0 : scheduler_time_pf.pf_state),
      (∀ st c k, find (body st c).1.1.ue_history_db k =
        if k = c.ue.ue_index then (find st.1.ue_history_db k).map (upd st c)
        else find st.1.ue_history_db k) →
      (∀ st c, find st.1.ue_history_db c.ue.ue_index = none →
        (body st c).2 = { c with priority := env.max_sched_priority }) →
      contains s0.1.ue_history_db c.ue.ue_index = false →
      (scheduler_time_pf.for_candidates body (pre ++ c :: post) s0).2[pre.length]?
          = some { c with priority := env.max_sched_priority } ∧
        contains (scheduler_time_pf.for_candidates body (pre ++ c :: post)
          s0).1.1.ue_history_db c.ue.ue_index = false := by
    intro body upd s0 hfind hout h0
    have hpre := for_candidates_tracked body upd hfind c.ue.ue_index pre s0
    rw [h0] at hpre
    have hnone : find (scheduler_time_pf.for_candidates body pre s0).1.1.ue_history_db
        c.ue.ue_index = none := by
      unfold contains at hpre
      simpa using hpre
    refine ⟨?_, ?_⟩
    · rw [for_candidates_get, hout _ _ hnone]
    · rw [for_candidates_tracked body upd hfind]
      exact h0
  constructor
  · refine key (scheduler_time_pf.dl_candidate env _) _ _ (dl_candidate_find env _) ?_ huntracked
    intro s d hd
    rw [dl_candidate_out, hd]
  · refine key (scheduler_time_pf.ul_candidate env _) _ _ (ul_candidate_find env _) ?_ huntracked
    intro s d hd
    rw [ul_candidate_out, hd]

/-- Witness of C10: user 0 tracked, a candidate of the untracked user 3 after one of user 0. -/
theorem C10_untracked_candidate_gets_sentinel_witness :
    contains sample_state.1.ue_history_db (sample_candidate 3 10000).ue.ue_index = false ∧
    (((scheduler_time_pf.compute_ue_dl_priorities sample_env ⟨true, 5⟩
        ([sample_candidate 0 20] ++ sample_candidate 3 10000 :: [])
        sample_state).2[[sample_candidate 0 20].length]?
        = some { sample_candidate 3 10000 with priority := sample_env.max_sched_priority } ∧
      contains (scheduler_time_pf.compute_ue_dl_priorities sample_env ⟨true, 5⟩
        ([sample_candidate 0 20] ++ sample_candidate 3 10000 :: [])
        sample_state).1.1.ue_history_db (sample_candidate 3 10000).ue.ue_index = false) ∧
    ((scheduler_time_pf.compute_ue_ul_priorities sample_env ⟨true, 5⟩
        ([sample_candidate 0 20] ++ sample_candidate 3 10000 :: [])
        sample_state).2[[sample_candidate 0 20].length]?
        = some { sample_candidate 3 10000 with priority := sample_env.max_sched_priority } ∧
      contains (scheduler_time_pf.compute_ue_ul_priorities sample_env ⟨true, 5⟩
        ([sample_candidate 0 20] ++ sample_candidate 3 10000 :: [])
        sample_state).1.1.ue_history_db (sample_candidate 3 10000).ue.ue_index = false)) :=
  ⟨by decide!,
    C10_untracked_candidate_gets_sentinel sample_env ⟨true, 5⟩ [sample_candidate 0 20] []
      (sample_candidate 3 10000) sample_state (by decide!)⟩

/-! ### Recording of allocations -/

/-- What the body of `save_dl_newtx_grants` does to the context of user `k`. -/
theorem save_dl_grant_find (p : scheduler_time_pf) (g : dl_msg_alloc) (k : Nat) :
    find (scheduler_time_pf.save_dl_grant p g).ue_history_db k =
      if k = g.ue_index then
        (find p.ue_history_db k).map (ue_ctxt.save_dl_alloc (scheduler_time_pf.total_bytes g))
      else find p.ue_history_db k := by
  unfold scheduler_time_pf.save_dl_grant
  by_cases hk : k = g.ue_index
  · subst hk
    cases hf : find p.ue_history_db g.ue_index with
    | none => simp [hf]
    | some ctxt => simp [hf, find_set_self]
  · cases hf : find p.ue_history_db g.ue_index with
    | none => simp [hk]
    | some ctxt => simp [hk, find_set_ne _ _ _ _ hk]

/-- What the body of `save_ul_newtx_grants` does to the context of user `k`. -/
theorem save_ul_grant_find (p : scheduler_time_pf) (g : ul_sched_info) (k : Nat) :
    find (scheduler_time_pf.save_ul_grant p g).ue_history_db k =
      if k = g.ue_index then
        (find p.ue_history_db k).map (ue_ctxt.save_ul_alloc g.tb_size_bytes)
      else find p.ue_history_db k := by
  unfold scheduler_time_pf.save_ul_grant
  by_cases hk : k = g.ue_index
  · subst hk
    cases hf : find p.ue_history_db g.ue_index with
    | none => simp [hf]
    | some ctxt => simp [hf, find_set_self]
  · cases hf : find p.ue_history_db g.ue_index with
    | none => simp [hk]
    | some ctxt => simp [hk, find_set_ne _ _ _ _ hk]

/-- With a zero accumulator, the update for `n` elapsed slots pushes `n` zero samples. -/
theorem update_dl_of_zero (n : Nat) (c : ue_ctxt) (h : c.dl_sum_alloc_bytes = 0) :
    c.update_dl_avg_rate_no_alloc n =
      { c with dl_avg_rate_ := (exp_average_fast_start.push 0)^[n] c.dl_avg_rate_ } := by
  induction n generalizing c with
  | zero => simp [ue_ctxt.update_dl_avg_rate_no_alloc]
  | succ n ih =>
    rw [ue_ctxt.update_dl_avg_rate_no_alloc, if_pos h,
      ih { c with dl_avg_rate_ := c.dl_avg_rate_.push 0 } h]
    simp [Function.iterate_succ_apply]

/-- With a zero accumulator, the update for `n` elapsed slots pushes `n` zero samples. -/
theorem update_ul_of_zero (n : Nat) (c : ue_ctxt) (h : c.ul_sum_alloc_bytes = 0) :
    c.update_ul_avg_rate_no_alloc n =
      { c with ul_avg_rate_ := (exp_average_fast_start.push 0)^[n] c.ul_avg_rate_ } := by
  induction n generalizing c with
  | zero => simp [ue_ctxt.update_ul_avg_rate_no_alloc]
  | succ n ih =>
    rw [ue_ctxt.update_ul_avg_rate_no_alloc, if_pos h,
      ih { c with ul_avg_rate_ := c.ul_avg_rate_.push 0 } h]
    simp [Function.iterate_succ_apply]

/-- The candidates that `compute_ue_dl_priorities` hands back for two candidates. -/
theorem compute_dl_two (env : pf_externals) (slot : slot_point) (cA cB : ue_newtx_candidate)
    (st : scheduler_time_pf.pf_state) :
    (scheduler_time_pf.compute_ue_dl_priorities env slot [cA, cB] st).2 =
      [(scheduler_time_pf.dl_candidate env
          (scheduler_time_pf.nof_slots_elapsed slot st.1.last_pdsch_slot)
          ({ st.1 with tti_cnt := (st.1.tti_cnt + 1) % 2 ^ 32, last_pdsch_slot := slot },
            st.2) cA).2,
        (scheduler_time_pf.dl_candidate env
          (scheduler_time_pf.nof_slots_elapsed slot st.1.last_pdsch_slot)
          (scheduler_time_pf.dl_candidate env
            (scheduler_time_pf.nof_slots_elapsed slot st.1.last_pdsch_slot)
            ({ st.1 with tti_cnt := (st.1.tti_cnt + 1) % 2 ^ 32, last_pdsch_slot := slot },
              st.2) cA).1 cB).2] := by
  simp [scheduler_time_pf.compute_ue_dl_priorities, scheduler_time_pf.for_candidates]

/-- C11: with fairness coefficient 1 (and `pow x 1 = x`), for two tracked
users A and B with 10000 pending bytes each whose DL averages after the
zero-sample update are 500 and 2, `compute_ue_dl_priorities` attaches the
priority 20 to A's candidate and 5000 to B's, and 20 < 5000: B ranks above
A. -/
theorem C11_end_to_end_priorities (env : pf_externals) (slot : slot_point)
    (cA cB : ue_newtx_candidate) (ctxtA ctxtB : ue_ctxt) (st : scheduler_time_pf.pf_state)
    (hpow : ∀ x, env.pow x 1 = x)
    (hcoeff : st.1.fairness_coeff = 1)
    (hAB : cA.ue.ue_index ≠ cB.ue.ue_index)
    (hA : find st.1.ue_history_db cA.ue.ue_index = some ctxtA)
    (hB : find st.1.ue_history_db cB.ue.ue_index = some ctxtB)
    (hbytesA : cA.pending_bytes = 10000) (hbytesB : cB.pending_bytes = 10000)
    (hrateA : (ctxtA.update_dl_avg_rate_no_alloc
      (scheduler_time_pf.nof_slots_elapsed slot st.1.last_pdsch_slot)).dl_avg_rate = 500)
    (hrateB : (ctxtB.update_dl_avg_rate_no_alloc
      (scheduler_time_pf.nof_slots_elapsed slot st.1.last_pdsch_slot)).dl_avg_rate = 2) :
    (scheduler_time_pf.compute_ue_dl_priorities env slot [cA, cB] st).2 =
      [{ cA with priority := 20 }, { cB with priority := 5000 }] ∧
    (({ cA with priority := 20 } : ue_newtx_candidate).priority <
      ({ cB with priority := 5000 } : ue_newtx_candidate).priority) := by
  constructor
  · rw [compute_dl_two, dl_candidate_out, dl_candidate_out, dl_candidate_find,
      if_neg (fun e => hAB e.symm), dl_candidate_fairness]
    simp only [hA, hB, hrateA, hrateB, hcoeff, hbytesA, hbytesB, pf_priority, hpow]
    norm_num
  · norm_num

/-- Witness of C11: users 0 and 1 after grants of 1000 and 4 bytes and one elapsed slot. -/
theorem C11_end_to_end_priorities_witness :
    ((∀ x, sample_env.pow x 1 = x) ∧ scenario_state.1.fairness_coeff = 1 ∧
      (sample_candidate 0 10000).ue.ue_index ≠ (sample_candidate 1 10000).ue.ue_index ∧
      (∃ ctxtA ctxtB,
        find scenario_state.1.ue_history_db (sample_candidate 0 10000).ue.ue_index
          = some ctxtA ∧
        find scenario_state.1.ue_history_db (sample_candidate 1 10000).ue.ue_index
          = some ctxtB ∧
        (ctxtA.update_dl_avg_rate_no_alloc (scheduler_time_pf.nof_slots_elapsed ⟨true, 5⟩
          scenario_state.1.last_pdsch_slot)).dl_avg_rate = 500 ∧
        (ctxtB.update_dl_avg_rate_no_alloc (scheduler_time_pf.nof_slots_elapsed ⟨true, 5⟩
          scenario_state.1.last_pdsch_slot)).dl_avg_rate = 2)) ∧
    ((scheduler_time_pf.compute_ue_dl_priorities sample_env ⟨true, 5⟩
        [sample_candidate 0 10000, sample_candidate 1 10000] scenario_state).2 =
      [{ sample_candidate 0 10000 with priority := 20 },
        { sample_candidate 1 10000 with priority := 5000 }] ∧
    (({ sample_candidate 0 10000 with priority := 20 } : ue_newtx_candidate).priority <
      ({ sample_candidate 1 10000 with priority := 5000 } : ue_newtx_candidate).priority)) :=
  ⟨⟨fun _ => rfl, by decide!, by decide,
      ⟨(ue_ctxt.init 0 (1 / 100) 1).save_dl_alloc 1000,
        (ue_ctxt.init 1 (1 / 100) 1).save_dl_alloc 4,
        by decide!, by decide!, by decide!, by decide!⟩⟩,
    C11_end_to_end_priorities sample_env ⟨true, 5⟩ (sample_candidate 0 10000)
      (sample_candidate 1 10000) ((ue_ctxt.init 0 (1 / 100) 1).save_dl_alloc 1000)
      ((ue_ctxt.init 1 (1 / 100) 1).save_dl_alloc 4) scenario_state
      (fun _ => rfl) (by decide!) (by decide) (by decide!) (by decide!) rfl rfl
      (by decide!) (by decide!)⟩

theorem pf_priority_mono (env : pf_externals) (b1 b2 : Nat) (r1 r2 f : ℚ)
    (hpos : ∀ x f, 1 ≤ x → 0 ≤ f → f ≤ 1 → 0 < env.pow x f)
    (hmono : ∀ x y f, 1 ≤ x → x ≤ y → 0 ≤ f → f ≤ 1 → env.pow x f ≤ env.pow y f)
    (hf0 : 0 ≤ f) (hf1 : f ≤ 1) (hbytes : b2 ≤ b1) (hrate : r1 ≤ r2) :
    pf_priority env b2 r2 f ≤ pf_priority env b1 r1 f := by
  unfold pf_priority
  have h1 : (1 : ℚ) ≤ max r1 1 := le_max_right _ _
  have h12 : max r1 1 ≤ max r2 1 := max_le_max hrate le_rfl
  have hb : (b2 : ℚ) ≤ (b1 : ℚ) := by exact_mod_cast hbytes
  exact div_le_div₀ (Nat.cast_nonneg b1) hb (hpos _ _ h1 hf0 hf1) (hmono _ _ _ h1 h12 hf0 hf1)

/-- C12: let `pow` be positive on bases at least 1 and monotone in the base
for exponents in `[0, 1]`, as the exact power function is, and let the
fairness coefficient lie in `[0, 1]`. For two tracked candidates, in the DL
loop as in the UL loop, if candidate 1 has at least as many pending bytes as
candidate 2 and the average rate of its user (after the zero-sample update)
is at most that of candidate 2, then the priority computed for candidate 1 is
at least the priority computed for candidate 2. -/
theorem C12_priority_monotone (env : pf_externals) (n1 n2 : Nat)
    (st1 st2 : scheduler_time_pf.pf_state) (c1 c2 : ue_newtx_candidate)
    (ctxt1 ctxt2 : ue_ctxt)
    (hpos : ∀ x f, 1 ≤ x → 0 ≤ f → f ≤ 1 → 0 < env.pow x f)
    (hmono : ∀ x y f, 1 ≤ x → x ≤ y → 0 ≤ f → f ≤ 1 → env.pow x f ≤ env.pow y f)
    (hf0 : 0 ≤ st1.1.fairness_coeff) (hf1 : st1.1.fairness_coeff ≤ 1)
    (hsame : st2.1.fairness_coeff = st1.1.fairness_coeff)
    (h1 : find st1.1.ue_history_db c1.ue.ue_index = some ctxt1)
    (h2 : find st2.1.ue_history_db c2.ue.ue_index = some ctxt2)
    (hbytes : c2.pending_bytes ≤ c1.pending_bytes) :
    ((ctxt1.update_dl_avg_rate_no_alloc n1).dl_avg_rate ≤
        (ctxt2.update_dl_avg_rate_no_alloc n2).dl_avg_rate →
      (scheduler_time_pf.dl_candidate env n2 st2 c2).2.priority ≤
        (scheduler_time_pf.dl_candidate env n1 st1 c1).2.priority) ∧
    ((ctxt1.update_ul_avg_rate_no_alloc n1).ul_avg_rate ≤
        (ctxt2.update_ul_avg_rate_no_alloc n2).ul_avg_rate →
      (scheduler_time_pf.ul_candidate env n2 st2 c2).2.priority ≤
        (scheduler_time_pf.ul_candidate env n1 st1 c1).2.priority) := by
  constructor
  · intro hrate
    rw [dl_candidate_out, dl_candidate_out, h1, h2, hsame]
    exact pf_priority_mono env _ _ _ _ _ hpos hmono hf0 hf1 hbytes hrate
  · intro hrate
    rw [ul_candidate_out, ul_candidate_out, h1, h2, hsame]
    exact pf_priority_mono env _ _ _ _ _ hpos hmono hf0 hf1 hbytes hrate

/-- Witness of C12: in `scenario_state`, user 1 (average 2 after one slot)
against user 0 (average 500), 10000 pending bytes each. -/
theorem C12_priority_monotone_witness :
    ((∀ x f : ℚ, 1 ≤ x → 0 ≤ f → f ≤ 1 → 0 < sample_env.pow x f) ∧
      (∀ x y f : ℚ, 1 ≤ x → x ≤ y → 0 ≤ f → f ≤ 1 → sample_env.pow x f ≤ sample_env.pow y f) ∧
      0 ≤ scenario_state.1.fairness_coeff ∧ scenario_state.1.fairness_coeff ≤ 1 ∧
      find scenario_state.1.ue_history_db (sample_candidate 1 10000).ue.ue_index
        = some ((ue_ctxt.init 1 (1 / 100) 1).save_dl_alloc 4) ∧
      find scenario_state.1.ue_history_db (sample_candidate 0 10000).ue.ue_index
        = some ((ue_ctxt.init 0 (1 / 100) 1).save_dl_alloc 1000) ∧
      (sample_candidate 0 10000).pending_bytes ≤ (sample_candidate 1 10000).pending_bytes) ∧
    ((((ue_ctxt.init 1 (1 / 100) 1).save_dl_alloc 4).update_dl_avg_rate_no_alloc 1).dl_avg_rate ≤
        (((ue_ctxt.init 0 (1 / 100) 1).save_dl_alloc 1000).update_dl_avg_rate_no_alloc
          1).dl_avg_rate →
      (scheduler_time_pf.dl_candidate sample_env 1 scenario_state
          (sample_candidate 0 10000)).2.priority ≤
        (scheduler_time_pf.dl_candidate sample_env 1 scenario_state
          (sample_candidate 1 10000)).2.priority) ∧
    ((((ue_ctxt.init 1 (1 / 100) 1).save_dl_alloc 4).update_ul_avg_rate_no_alloc 1).ul_avg_rate ≤
        (((ue_ctxt.init 0 (1 / 100) 1).save_dl_alloc 1000).update_ul_avg_rate_no_alloc
          1).ul_avg_rate →
      (scheduler_time_pf.ul_candidate sample_env 1 scenario_state
          (sample_candidate 0 10000)).2.priority ≤
        (scheduler_time_pf.ul_candidate sample_env 1 scenario_state
          (sample_candidate 1 10000)).2.priority) :=
  ⟨⟨fun _ _ h _ _ => lt_of_lt_of_le zero_lt_one h, fun _ _ _ _ h _ _ => h,
      by decide!, by decide!, by decide!, by decide!, by decide⟩,
    C12_priority_monotone sample_env 1 1 scenario_state scenario_state
      (sample_candidate 1 10000) (sample_candidate 0 10000)
      ((ue_ctxt.init 1 (1 / 100) 1).save_dl_alloc 4)
      ((ue_ctxt.init 0 (1 / 100) 1).save_dl_alloc 1000)
      (fun _ _ h _ _ => lt_of_lt_of_le zero_lt_one h) (fun _ _ _ _ h _ _ => h)
      (by decide!) (by decide!) rfl (by decide!) (by decide!) (by decide)⟩

theorem push_zero_avg (a : exp_average_fast_start) (h : a.avg_ = 0) : (a.push 0).avg_ = 0 := by
  unfold exp_average_fast_start.push
  by_cases hc : a.count < a.start_count_size_
  · simp [hc, h]
  · simp [hc, h]

theorem push_all_zeros_avg (k : Nat) (a : exp_average_fast_start) (h : a.avg_ = 0) :
    (push_all (List.replicate k 0) a).avg_ = 0 := by
  induction k generalizing a with
  | zero => simpa [push_all] using h
  | succ k ih =>
    have e : push_all (List.replicate (k + 1) 0) a = push_all (List.replicate k 0) (a.push 0) := by
      simp [push_all, List.replicate_succ]
    rw [e]
    exact ih _ (push_zero_avg a h)

theorem average_of_avg_zero (a : exp_average_fast_start) (h : a.avg_ = 0) :
    a.get_average_value = 0 := by
  unfold exp_average_fast_start.get_average_value
  by_cases hc : a.count = 0
  · simp [hc]
  · simp [hc, h]

theorem update_dl_avg_zero (n : Nat) (c : ue_ctxt) (h : c.dl_avg_rate_.avg_ = 0) :
    (c.update_dl_avg_rate_no_alloc n).dl_avg_rate = 0 := by
  induction n generalizing c with
  | zero => exact average_of_avg_zero _ h
  | succ n ih =>
    rw [ue_ctxt.update_dl_avg_rate_no_alloc]
    by_cases hz : c.dl_sum_alloc_bytes = 0
    · rw [if_pos hz]
      exact ih _ (push_zero_avg _ h)
    · rw [if_neg hz]
      exact ih _ h

theorem update_ul_avg_zero (n : Nat) (c : ue_ctxt) (h : c.ul_avg_rate_.avg_ = 0) :
    (c.update_ul_avg_rate_no_alloc n).ul_avg_rate = 0 := by
  induction n generalizing c with
  | zero => exact average_of_avg_zero _ h
  | succ n ih =>
    rw [ue_ctxt.update_ul_avg_rate_no_alloc]
    by_cases hz : c.ul_sum_alloc_bytes = 0
    · rw [if_pos hz]
      exact ih _ (push_zero_avg _ h)
    · rw [if_neg hz]
      exact ih _ h

/-- C13: let `pow` be at least 1 on bases at least 1 for exponents in
`[0, 1]`, as the exact power function is, and let the fairness coefficient
lie in `[0, 1]`. Then for every average rate, also 0 or below 1, the divisor
`pow (max avg_rate 1) fairness_coeff` is at least 1, and the priority of a
tracked candidate, in the DL loop as in the UL loop, is its pending bytes
divided by such a divisor. In particular, for a tracked user with zero pending
bytes whose average has been fed zero samples only, the average after the
zero-sample update is 0, it is floored to 1, and the priority is exactly 0. -/
theorem C13_divisor_at_least_one (env : pf_externals) (n : Nat)
    (st : scheduler_time_pf.pf_state) (c : ue_newtx_candidate) (ctxt : ue_ctxt)
    (hpow : ∀ x f, 1 ≤ x → 0 ≤ f → f ≤ 1 → 1 ≤ env.pow x f)
    (hf0 : 0 ≤ st.1.fairness_coeff) (hf1 : st.1.fairness_coeff ≤ 1)
    (htracked : find st.1.ue_history_db c.ue.ue_index = some ctxt) :
    (∀ avg_rate : ℚ, 1 ≤ env.pow (max avg_rate 1) st.1.fairness_coeff) ∧
    ((scheduler_time_pf.dl_candidate env n st c).2.priority =
        (c.pending_bytes : ℚ) /
          env.pow (max (ctxt.update_dl_avg_rate_no_alloc n).dl_avg_rate 1)
            st.1.fairness_coeff ∧
      (scheduler_time_pf.ul_candidate env n st c).2.priority =
        (c.pending_bytes : ℚ) /
          env.pow (max (ctxt.update_ul_avg_rate_no_alloc n).ul_avg_rate 1)
            st.1.fairness_coeff) ∧
    (∀ (k : Nat) (alpha : ℚ), c.pending_bytes = 0 →
      (ctxt.dl_avg_rate_ = push_all (List.replicate k 0) (exp_average_fast_start.init alpha) →
        (ctxt.update_dl_avg_rate_no_alloc n).dl_avg_rate = 0 ∧
        max (ctxt.update_dl_avg_rate_no_alloc n).dl_avg_rate 1 = 1 ∧
        (scheduler_time_pf.dl_candidate env n st c).2.priority = 0) ∧
      (ctxt.ul_avg_rate_ = push_all (List.replicate k 0) (exp_average_fast_start.init alpha) →
        (ctxt.update_ul_avg_rate_no_alloc n).ul_avg_rate = 0 ∧
        max (ctxt.update_ul_avg_rate_no_alloc n).ul_avg_rate 1 = 1 ∧
        (scheduler_time_pf.ul_candidate env n st c).2.priority = 0)) := by
  have hdl : (scheduler_time_pf.dl_candidate env n st c).2.priority =
      (c.pending_bytes : ℚ) /
        env.pow (max (ctxt.update_dl_avg_rate_no_alloc n).dl_avg_rate 1)
          st.1.fairness_coeff := by
    rw [dl_candidate_out, htracked]
    rfl
  have hul : (scheduler_time_pf.ul_candidate env n st c).2.priority =
      (c.pending_bytes : ℚ) /
        env.pow (max (ctxt.update_ul_avg_rate_no_alloc n).ul_avg_rate 1)
          st.1.fairness_coeff := by
    rw [ul_candidate_out, htracked]
    rfl
  refine ⟨fun avg_rate => hpow _ _ (le_max_right _ _) hf0 hf1, ⟨hdl, hul⟩, ?_⟩
  intro k alpha hbytes
  constructor
  · intro hhist
    have h0 : (ctxt.update_dl_avg_rate_no_alloc n).dl_avg_rate = 0 :=
      update_dl_avg_zero n ctxt (by rw [hhist]; exact push_all_zeros_avg k _ rfl)
    refine ⟨h0, by rw [h0]; norm_num, ?_⟩
    rw [hdl, hbytes]
    simp
  · intro hhist
    have h0 : (ctxt.update_ul_avg_rate_no_alloc n).ul_avg_rate = 0 :=
      update_ul_avg_zero n ctxt (by rw [hhist]; exact push_all_zeros_avg k _ rfl)
    refine ⟨h0, by rw [h0]; norm_num, ?_⟩
    rw [hul, hbytes]
    simp

/-- Witness of C13: user 0 tracked with a fresh context (no sample yet), a
candidate with no pending bytes, two elapsed slots. -/
theorem C13_divisor_at_least_one_witness :
    ((∀ x f : ℚ, 1 ≤ x → 0 ≤ f → f ≤ 1 → 1 ≤ sample_env.pow x f) ∧
      0 ≤ sample_state.1.fairness_coeff ∧ sample_state.1.fairness_coeff ≤ 1 ∧
      find sample_state.1.ue_history_db (sample_candidate 0 0).ue.ue_index
        = some (ue_ctxt.init 0 (1 / 100) 1)) ∧
    ((∀ avg_rate : ℚ, 1 ≤ sample_env.pow (max avg_rate 1) sample_state.1.fairness_coeff) ∧
    ((scheduler_time_pf.dl_candidate sample_env 2 sample_state (sample_candidate 0 0)).2.priority =
        ((sample_candidate 0 0).pending_bytes : ℚ) /
          sample_env.pow
            (max ((ue_ctxt.init 0 (1 / 100) 1).update_dl_avg_rate_no_alloc 2).dl_avg_rate 1)
            sample_state.1.fairness_coeff ∧
      (scheduler_time_pf.ul_candidate sample_env 2 sample_state (sample_candidate 0 0)).2.priority =
        ((sample_candidate 0 0).pending_bytes : ℚ) /
          sample_env.pow
            (max ((ue_ctxt.init 0 (1 / 100) 1).update_ul_avg_rate_no_alloc 2).ul_avg_rate 1)
            sample_state.1.fairness_coeff) ∧
    (∀ (k : Nat) (alpha : ℚ), (sample_candidate 0 0).pending_bytes = 0 →
      ((ue_ctxt.init 0 (1 / 100) 1).dl_avg_rate_ =
          push_all (List.replicate k 0) (exp_average_fast_start.init alpha) →
        ((ue_ctxt.init 0 (1 / 100) 1).update_dl_avg_rate_no_alloc 2).dl_avg_rate = 0 ∧
        max ((ue_ctxt.init 0 (1 / 100) 1).update_dl_avg_rate_no_alloc 2).dl_avg_rate 1 = 1 ∧
        (scheduler_time_pf.dl_candidate sample_env 2 sample_state
          (sample_candidate 0 0)).2.priority = 0) ∧
      ((ue_ctxt.init 0 (1 / 100) 1).ul_avg_rate_ =
          push_all (List.replicate k 0) (exp_average_fast_start.init alpha) →
        ((ue_ctxt.init 0 (1 / 100) 1).update_ul_avg_rate_no_alloc 2).ul_avg_rate = 0 ∧
        max ((ue_ctxt.init 0 (1 / 100) 1).update_ul_avg_rate_no_alloc 2).ul_avg_rate 1 = 1 ∧
        (scheduler_time_pf.ul_candidate sample_env 2 sample_state
          (sample_candidate 0 0)).2.priority = 0))) :=
  ⟨⟨fun _ _ h _ _ => h, by decide!, by decide!, by decide!⟩,
    C13_divisor_at_least_one sample_env 2 sample_state (sample_candidate 0 0)
      (ue_ctxt.init 0 (1 / 100) 1) (fun _ _ h _ _ => h) (by decide!) (by decide!)
      (by decide!)⟩

/-! ### The set of tracked users -/

theorem erase_of_not_contains {V : Type} (k : Nat) (m : Map Nat V)
    (h : contains m k = false) : erase k m = m := by
  have hk : k ∉ keys m := by
    apply (find_eq_none_iff m k).1
    unfold contains at h
    simpa using h
  unfold erase
  apply List.filter_eq_self.2
  intro e he
  have : e.1 ≠ k := fun heq => hk (heq ▸ List.mem_map_of_mem Prod.fst he)
  simpa using this

theorem erase_erase {V : Type} (k : Nat) (m : Map Nat V) : erase k (erase k m) = erase k m := by
  unfold erase
  rw [List.filter_filter]
  simp

theorem find_erase {K V : Type} [DecidableEq K] (k r : K) (m : Map K V) :
    find (erase k m) r = if r = k then none else find m r := by
  induction m with
  | nil => simp [erase, find]
  | cons e t ih =>
    obtain ⟨k', v'⟩ := e
    unfold erase at ih
    by_cases h1 : k' = k
    · subst h1
      by_cases h2 : r = k'
      · subst h2
        simpa [erase, find] using ih
      · simpa [erase, find, h2] using ih
    · by_cases h2 : r = k
      · subst h2
        have h3 : r ≠ k' := fun e => h1 e.symm
        simpa [erase, find, h1, h3] using ih
      · by_cases h3 : r = k'
        · simp [erase, find, h1, h3]
        · simpa [erase, find, h1, h2, h3] using ih

theorem add_ue_of_tracked (u : Nat) (p : scheduler_time_pf)
    (h : contains p.ue_history_db u = true) : scheduler_time_pf.add_ue u p = p := by
  simp [scheduler_time_pf.add_ue, h]

theorem contains_add_ue (u k : Nat) (p : scheduler_time_pf) :
    contains (scheduler_time_pf.add_ue u p).ue_history_db k =
      (decide (k = u) || contains p.ue_history_db k) := by
  unfold scheduler_time_pf.add_ue
  cases hc : contains p.ue_history_db u with
  | true =>
    by_cases hk : k = u
    · subst hk
      simp [hc]
    · simp [hk]
  | false =>
    simp only [Bool.not_false, if_true]
    unfold contains
    by_cases hk : k = u
    · subst hk
      simp [find_set_self]
    · simp [hk, find_set_ne _ _ _ _ hk]

/-- C14: `add_ue` on a user that is already tracked leaves the whole policy
state unchanged (that user's context and every other one), and `add_ue`
followed by `add_ue` equals a single `add_ue`; `rem_ue` on a user that is not
tracked leaves the policy state unchanged, and `rem_ue` followed by `rem_ue`
equals a single `rem_ue`. -/
theorem C14_add_rem_idempotent (u v : Nat) (p : scheduler_time_pf)
    (hu : contains p.ue_history_db u = true) (hv : contains p.ue_history_db v = false) :
    scheduler_time_pf.add_ue u p = p ∧
    scheduler_time_pf.rem_ue v p = p ∧
    (∀ (w : Nat) (q : scheduler_time_pf),
      scheduler_time_pf.add_ue w (scheduler_time_pf.add_ue w q) = scheduler_time_pf.add_ue w q) ∧
    (∀ (w : Nat) (q : scheduler_time_pf),
      scheduler_time_pf.rem_ue w (scheduler_time_pf.rem_ue w q) =
        scheduler_time_pf.rem_ue w q) := by
  refine ⟨add_ue_of_tracked u p hu, ?_, ?_, ?_⟩
  · simp [scheduler_time_pf.rem_ue, erase_of_not_contains v _ hv]
  · intro w q
    apply add_ue_of_tracked
    rw [contains_add_ue]
    simp
  · intro w q
    simp [scheduler_time_pf.rem_ue, erase_erase]

/-- Witness of C14: user 0 is tracked in `sample_state`, user 3 is not. -/
theorem C14_add_rem_idempotent_witness :
    (contains sample_state.1.ue_history_db 0 = true ∧
      contains sample_state.1.ue_history_db 3 = false) ∧
    (scheduler_time_pf.add_ue 0 sample_state.1 = sample_state.1 ∧
    scheduler_time_pf.rem_ue 3 sample_state.1 = sample_state.1 ∧
    (∀ (w : Nat) (q : scheduler_time_pf),
      scheduler_time_pf.add_ue w (scheduler_time_pf.add_ue w q) = scheduler_time_pf.add_ue w q) ∧
    (∀ (w : Nat) (q : scheduler_time_pf),
      scheduler_time_pf.rem_ue w (scheduler_time_pf.rem_ue w q) =
        scheduler_time_pf.rem_ue w q)) :=
  ⟨⟨by decide!, by decide!⟩,
    C14_add_rem_idempotent 0 3 sample_state.1 (by decide!) (by decide!)⟩

theorem contains_save_dl_newtx_grants (gs : List dl_msg_alloc) (p : scheduler_time_pf)
    (k : Nat) :
    contains (scheduler_time_pf.save_dl_newtx_grants gs p).ue_history_db k =
      contains p.ue_history_db k := by
  induction gs generalizing p with
  | nil => rfl
  | cons g gs ih =>
    have e : scheduler_time_pf.save_dl_newtx_grants (g :: gs) p =
        scheduler_time_pf.save_dl_newtx_grants gs (scheduler_time_pf.save_dl_grant p g) := rfl
    rw [e, ih]
    unfold contains
    rw [save_dl_grant_find]
    by_cases hk : k = g.ue_index
    · simp [hk]
    · simp [hk]

theorem contains_save_ul_newtx_grants (gs : List ul_sched_info) (p : scheduler_time_pf)
    (k : Nat) :
    contains (scheduler_time_pf.save_ul_newtx_grants gs p).ue_history_db k =
      contains p.ue_history_db k := by
  induction gs generalizing p with
  | nil => rfl
  | cons g gs ih =>
    have e : scheduler_time_pf.save_ul_newtx_grants (g :: gs) p =
        scheduler_time_pf.save_ul_newtx_grants gs (scheduler_time_pf.save_ul_grant p g) := rfl
    rw [e, ih]
    unfold contains
    rw [save_ul_grant_find]
    by_cases hk : k = g.ue_index
    · simp [hk]
    · simp [hk]

/-- C15: `compute_ue_dl_priorities`, `compute_ue_ul_priorities`,
`save_dl_newtx_grants` and `save_ul_newtx_grants` leave the set of tracked
users as it is, for every input: a user is tracked after the call exactly when
it was before. A grant that names an untracked user leaves the policy state
unchanged. Only `add_ue` makes a user tracked and only `rem_ue` makes it
untracked, each for the user it names alone. -/
theorem C15_tracked_set_changes_only_by_add_rem (env : pf_externals) (slot : slot_point)
    (ue_candidates : List ue_newtx_candidate) (st : scheduler_time_pf.pf_state)
    (dl_grants : List dl_msg_alloc) (ul_grants : List ul_sched_info) (k : Nat) :
    contains (scheduler_time_pf.compute_ue_dl_priorities env slot ue_candidates
      st).1.1.ue_history_db k = contains st.1.ue_history_db k ∧
    contains (scheduler_time_pf.compute_ue_ul_priorities env slot ue_candidates
      st).1.1.ue_history_db k = contains st.1.ue_history_db k ∧
    contains (scheduler_time_pf.save_dl_newtx_grants dl_grants st.1).ue_history_db k =
      contains st.1.ue_history_db k ∧
    contains (scheduler_time_pf.save_ul_newtx_grants ul_grants st.1).ue_history_db k =
      contains st.1.ue_history_db k ∧
    (∀ g : dl_msg_alloc, contains st.1.ue_history_db g.ue_index = false →
      scheduler_time_pf.save_dl_newtx_grants [g] st.1 = st.1) ∧
    (∀ g : ul_sched_info, contains st.1.ue_history_db g.ue_index = false →
      scheduler_time_pf.save_ul_newtx_grants [g] st.1 = st.1) ∧
    (∀ u : Nat, contains (scheduler_time_pf.add_ue u st.1).ue_history_db k =
      (decide (k = u) || contains st.1.ue_history_db k)) ∧
    (∀ u : Nat, contains (scheduler_time_pf.rem_ue u st.1).ue_history_db k =
      (!decide (k = u) && contains st.1.ue_history_db k)) := by
  refine ⟨?_, ?_, contains_save_dl_newtx_grants _ _ _, contains_save_ul_newtx_grants _ _ _,
    ?_, ?_, fun u => contains_add_ue u k st.1, ?_⟩
  · exact for_candidates_tracked _ _ (dl_candidate_find env _) k ue_candidates _
  · exact for_candidates_tracked _ _ (ul_candidate_find env _) k ue_candidates _
  · intro g hg
    have hnone : find st.1.ue_history_db g.ue_index = none := by
      unfold contains at hg
      simpa using hg
    simp [scheduler_time_pf.save_dl_newtx_grants, scheduler_time_pf.save_dl_grant, hnone]
  · intro g hg
    have hnone : find st.1.ue_history_db g.ue_index = none := by
      unfold contains at hg
      simpa using hg
    simp [scheduler_time_pf.save_ul_newtx_grants, scheduler_time_pf.save_ul_grant, hnone]
  · intro u
    unfold contains scheduler_time_pf.rem_ue
    simp only [find_erase]
    by_cases hk : k = u
    · simp [hk]
    · simp [hk]

/-! ## Telemetry -/

/-- C16 (counterexample): when only an SNR was recorded for RNTI 7 in the
interval, the message that `send_to_er` builds has no record at all: RNTI 7
does not appear in it. -/
theorem C16_snr_only_rnti_not_reported :
    find (edgeric.set_snr 7 3 {}).ue_snrs 7 = some 3 ∧
    (edgeric.send_to_er true (edgeric.set_snr 7 3 {})).1 = some { tti_cnt := 0, ue_metrics := [] } := by
  decide!

/-- C16 (amended): the message built by `send_to_er` has one record per entry
of the CQI table, in the order of the table, and none for an RNTI without a
CQI entry (each RNTI of the CQI table once, the keys of a `std::map` being in
strictly increasing order). Each record carries the RNTI, the CQI of its
entry, and the SNR, tx-bytes, rx-bytes, DL-buffer, UL-buffer and TBS values
recorded for the RNTI, each being 0 when its table has no entry for it. -/
theorem C16_one_record_per_cqi_entry (s : edgeric) :
    ∃ m, (edgeric.send_to_er true s).1 = some m ∧
      m.tti_cnt = s.tti_cnt ∧
      m.ue_metrics.map (fun r => r.rnti) = keys s.ue_cqis ∧
      (∀ r, contains s.ue_cqis r = false → ∀ x ∈ m.ue_metrics, x.rnti ≠ r) ∧
      ((keys s.ue_cqis).Pairwise (· < ·) → (m.ue_metrics.map (fun r => r.rnti)).Nodup) ∧
      (∀ x ∈ m.ue_metrics,
        (∃ q, (x.rnti, q) ∈ s.ue_cqis ∧ x.cqi = float_to_uint32 q) ∧
        x.snr = (find s.ue_snrs x.rnti).getD 0 ∧
        x.tx_bytes = (find s.tx_bytes x.rnti).getD 0 ∧
        x.rx_bytes = (find s.rx_bytes x.rnti).getD 0 ∧
        x.dl_buffer = (find s.ue_dl_buffers x.rnti).getD 0 ∧
        x.ul_buffer = (find s.ue_ul_buffers x.rnti).getD 0 ∧
        x.dl_tbs = (find s.dl_tbs_ues x.rnti).getD 0) := by
  have hkeys : (s.ue_cqis.map (edgeric.ue_metrics_of { s with initialized := true })).map
      (fun r => r.rnti) = keys s.ue_cqis := by
    simp [keys, List.map_map, Function.comp_def, edgeric.ue_metrics_of]
  refine ⟨edgeric.build_metrics { s with initialized := true }, ?_, rfl, hkeys, ?_, ?_, ?_⟩
  · simp [edgeric.send_to_er, ensure_initialized_eq]
  · intro r hr x hx hxr
    have hmem : x.rnti ∈ keys s.ue_cqis := by
      rw [← hkeys]
      exact List.mem_map_of_mem (fun r => r.rnti) hx
    have hnone : find s.ue_cqis r = none := by
      unfold contains at hr
      simpa using hr
    exact (find_eq_none_iff _ _).1 hnone (hxr ▸ hmem)
  · intro hsorted
    show ((s.ue_cqis.map (edgeric.ue_metrics_of { s with initialized := true })).map
      (fun r => r.rnti)).Nodup
    rw [hkeys]
    exact nodup_of_sorted_keys _ hsorted
  · intro x hx
    simp only [edgeric.build_metrics, List.mem_map] at hx
    rcases hx with ⟨e, he, rfl⟩
    exact ⟨⟨e.2, he, rfl⟩, rfl, rfl, rfl, rfl, rfl, rfl⟩

/-- C17: after a `send_to_er` whose serialization succeeds, the CQI, SNR,
tx-bytes, rx-bytes and TBS tables are empty, and the UL and DL buffer tables,
the weight, MCS and QoS override tables, the round indices and the interval
counter are those of before the call. -/
theorem C17_publish_clears_interval_tables (s : edgeric) :
    (edgeric.send_to_er true s).2 =
      { s with initialized := true, ue_cqis := [], ue_snrs := [], tx_bytes := [],
               rx_bytes := [], dl_tbs_ues := [] } ∧
    ((edgeric.send_to_er true s).2.ue_cqis = [] ∧
      (edgeric.send_to_er true s).2.ue_snrs = [] ∧
      (edgeric.send_to_er true s).2.tx_bytes = [] ∧
      (edgeric.send_to_er true s).2.rx_bytes = [] ∧
      (edgeric.send_to_er true s).2.dl_tbs_ues = []) ∧
    ((edgeric.send_to_er true s).2.ue_ul_buffers = s.ue_ul_buffers ∧
      (edgeric.send_to_er true s).2.ue_dl_buffers = s.ue_dl_buffers ∧
      (edgeric.send_to_er true s).2.weights_recved = s.weights_recved ∧
      (edgeric.send_to_er true s).2.mcs_recved = s.mcs_recved ∧
      (edgeric.send_to_er true s).2.qos_overrides = s.qos_overrides) := by
  simp [edgeric.send_to_er, ensure_initialized_eq]

/-- C18 (evaluation at the failing input): CQI 10 and 100 tx-bytes are
recorded for RNTI 7 and the publish fails to serialize; then CQI 11 and 50
tx-bytes are recorded and the next publish succeeds. It reports 150 tx-bytes:
the 100 bytes of the dropped interval are still in the table. Had the first
publish succeeded, the same recordings would be reported as 50 tx-bytes. -/
theorem C18_failed_publish_leaks_into_next :
    (edgeric.send_to_er false (edgeric.set_tx_bytes 7 100 (edgeric.set_cqi 7 10 {}))).1 = none ∧
    ((edgeric.send_to_er true
        (edgeric.set_tx_bytes 7 50 (edgeric.set_cqi 7 11
          (edgeric.send_to_er false
            (edgeric.set_tx_bytes 7 100 (edgeric.set_cqi 7 10 {}))).2))).1).map
      (fun m => m.ue_metrics.map (fun r => (r.rnti, r.cqi, r.tx_bytes)))
      = some [(7, 11, 150)] ∧
    ((edgeric.send_to_er true
        (edgeric.set_tx_bytes 7 50 (edgeric.set_cqi 7 11
          (edgeric.send_to_er true
            (edgeric.set_tx_bytes 7 100 (edgeric.set_cqi 7 10 {}))).2))).1).map
      (fun m => m.ue_metrics.map (fun r => (r.rnti, r.cqi, r.tx_bytes)))
      = some [(7, 11, 50)] := by
  decide!

/-- C19: the setters of CQI, SNR, TBS and of the two buffer occupancies
overwrite: after two calls for the same RNTI the stored value is the second
one. The setters of tx-bytes and rx-bytes add: after two calls the stored
value is what was stored before (0 when there was no entry) plus both
arguments, so `a + b` on an RNTI without entry. Each setter leaves the
entries of every other RNTI in its table, and every other table, as they
were. -/
theorem C19_record_metric (s : edgeric) (r r' : Nat) (a b : ℚ) (x y : Nat) :
    (find (edgeric.set_cqi r b (edgeric.set_cqi r a s)).ue_cqis r = some b ∧
      find (edgeric.set_snr r b (edgeric.set_snr r a s)).ue_snrs r = some b ∧
      find (edgeric.set_dl_tbs r b (edgeric.set_dl_tbs r a s)).dl_tbs_ues r = some b ∧
      find (edgeric.set_ul_buffer r y (edgeric.set_ul_buffer r x s)).ue_ul_buffers r = some y ∧
      find (edgeric.set_dl_buffer r y (edgeric.set_dl_buffer r x s)).ue_dl_buffers r = some y) ∧
    (find (edgeric.set_tx_bytes r b (edgeric.set_tx_bytes r a s)).tx_bytes r
        = some ((find s.tx_bytes r).getD 0 + a + b) ∧
      find (edgeric.set_rx_bytes r b (edgeric.set_rx_bytes r a s)).rx_bytes r
        = some ((find s.rx_bytes r).getD 0 + a + b) ∧
      (find s.tx_bytes r = none →
        find (edgeric.set_tx_bytes r b (edgeric.set_tx_bytes r a s)).tx_bytes r = some (a + b)) ∧
      (find s.rx_bytes r = none →
        find (edgeric.set_rx_bytes r b (edgeric.set_rx_bytes r a s)).rx_bytes r
          = some (a + b))) ∧
    (r' ≠ r →
      find (edgeric.set_cqi r a s).ue_cqis r' = find s.ue_cqis r' ∧
      find (edgeric.set_snr r a s).ue_snrs r' = find s.ue_snrs r' ∧
      find (edgeric.set_dl_tbs r a s).dl_tbs_ues r' = find s.dl_tbs_ues r' ∧
      find (edgeric.set_ul_buffer r x s).ue_ul_buffers r' = find s.ue_ul_buffers r' ∧
      find (edgeric.set_dl_buffer r x s).ue_dl_buffers r' = find s.ue_dl_buffers r' ∧
      find (edgeric.set_tx_bytes r a s).tx_bytes r' = find s.tx_bytes r' ∧
      find (edgeric.set_rx_bytes r a s).rx_bytes r' = find s.rx_bytes r') ∧
    ({ edgeric.set_cqi r a s with ue_cqis := s.ue_cqis } = s ∧
      { edgeric.set_snr r a s with ue_snrs := s.ue_snrs } = s ∧
      { edgeric.set_dl_tbs r a s with dl_tbs_ues := s.dl_tbs_ues } = s ∧
      { edgeric.set_ul_buffer r x s with ue_ul_buffers := s.ue_ul_buffers } = s ∧
      { edgeric.set_dl_buffer r x s with ue_dl_buffers := s.ue_dl_buffers } = s ∧
      { edgeric.set_tx_bytes r a s with tx_bytes := s.tx_bytes } = s ∧
      { edgeric.set_rx_bytes r a s with rx_bytes := s.rx_bytes } = s) := by
  refine ⟨?_, ?_, ?_, ?_⟩
  · simp [edgeric.set_cqi, edgeric.set_snr, edgeric.set_dl_tbs, edgeric.set_ul_buffer,
      edgeric.set_dl_buffer, find_set_self]
  · have htx : find (edgeric.set_tx_bytes r b (edgeric.set_tx_bytes r a s)).tx_bytes r
        = some ((find s.tx_bytes r).getD 0 + a + b) := by
      simp [edgeric.set_tx_bytes, find_set_self]
    have hrx : find (edgeric.set_rx_bytes r b (edgeric.set_rx_bytes r a s)).rx_bytes r
        = some ((find s.rx_bytes r).getD 0 + a + b) := by
      simp [edgeric.set_rx_bytes, find_set_self]
    refine ⟨htx, hrx, ?_, ?_⟩
    · intro h
      rw [htx, h]
      simp
    · intro h
      rw [hrx, h]
      simp
  · intro h
    simp [edgeric.set_cqi, edgeric.set_snr, edgeric.set_dl_tbs, edgeric.set_ul_buffer,
      edgeric.set_dl_buffer, edgeric.set_tx_bytes, edgeric.set_rx_bytes,
      find_set_ne _ _ _ _ h]
  · simp [edgeric.set_cqi, edgeric.set_snr, edgeric.set_dl_tbs, edgeric.set_ul_buffer,
      edgeric.set_dl_buffer, edgeric.set_tx_bytes, edgeric.set_rx_bytes]

/-! ## QoS overrides -/

/-- What the loop body of `get_qos_from_er` does to the record of key `k`. -/
theorem apply_drb_find (tbl : Map ue_drb_key dynamic_qos_params) (d : DrbQosParams)
    (k : ue_drb_key) :
    find (edgeric.apply_drb tbl d) k =
      if k = drb_key d then
        (if d.clear_override then none
          else some (edgeric.apply_drb_fields d (edgeric.qos_ref tbl k)))
      else find tbl k := by
  unfold edgeric.apply_drb
  by_cases hk : k = drb_key d
  · subst hk
    by_cases hc : d.clear_override = true
    · simp [hc, find_erase, drb_key]
    · simp [hc, find_set_self, drb_key]
  · have hk' : k ≠ ue_drb_key.mk (to_uint16 d.rnti) (to_uint8 d.lcid) := hk
    by_cases hc : d.clear_override = true
    · simp [hc, find_erase, hk, hk']
    · simp [hc, find_set_ne _ _ _ _ hk', hk]

theorem foldl_apply_drb_find_other (ds : List DrbQosParams)
    (tbl : Map ue_drb_key dynamic_qos_params) (k : ue_drb_key)
    (h : ∀ d ∈ ds, drb_key d ≠ k) :
    find (ds.foldl edgeric.apply_drb tbl) k = find tbl k := by
  induction ds generalizing tbl with
  | nil => rfl
  | cons d ds ih =>
    rw [List.foldl_cons, ih _ (fun e he => h e (List.mem_cons_of_mem _ he)), apply_drb_find,
      if_neg (fun e => h d (List.mem_cons_self _ _) e.symm)]

/-- The three single-flag fields after the fields of a message entry are written. -/
theorem apply_drb_fields_spec (d : DrbQosParams) (old : dynamic_qos_params) :
    (edgeric.apply_drb_fields d old).qos_priority
        = (d.qos_priority.map to_uint8).getD old.qos_priority ∧
    (edgeric.apply_drb_fields d old).override_qos_priority
        = (d.qos_priority.isSome || old.override_qos_priority) ∧
    (edgeric.apply_drb_fields d old).arp_priority
        = (d.arp_priority.map to_uint8).getD old.arp_priority ∧
    (edgeric.apply_drb_fields d old).override_arp_priority
        = (d.arp_priority.isSome || old.override_arp_priority) ∧
    (edgeric.apply_drb_fields d old).pdb_ms = d.pdb_ms.getD old.pdb_ms ∧
    (edgeric.apply_drb_fields d old).override_pdb = (d.pdb_ms.isSome || old.override_pdb) := by
  obtain ⟨rnti, lcid, clr, qp, ap, pdb, gd, gu⟩ := d
  cases qp <;> cases ap <;> cases pdb <;> cases gd <;> cases gu <;>
    simp [edgeric.apply_drb_fields]

/-- C20: let a parsed QoS message hold an entry `drb` that does not signal
clear, after the entries `pre` and before the entries `post`. When the loop of
`get_qos_from_er` has processed the entry (the state that the message
`pre ++ [drb]` leaves), the bearer has a record in which each of QoS priority,
ARP priority and packet delay budget that is present in the entry holds the
entry's value (the priorities converted to `uint8_t`) with its flag set, and
each one that is absent holds the value and the flag it had in the record the
loop found for the bearer, or 0 with the flag unset if it found none. The rest
of the message is processed on from that state, so the record is the final one
unless a later entry names the bearer. The record of every bearer that no
entry of the message names is as before the call. -/
theorem C20_qos_partial_update (s : edgeric) (ran_index : Nat)
    (pre post : List DrbQosParams) (drb : DrbQosParams)
    (hkeep : drb.clear_override = false) :
    (∃ rec,
      edgeric.get_dynamic_qos (edgeric.get_qos_from_er (.parsed ⟨ran_index, pre ++ [drb]⟩) s)
        (drb_key drb).first (drb_key drb).second = some rec ∧
      (∀ old, edgeric.get_dynamic_qos (edgeric.get_qos_from_er (.parsed ⟨ran_index, pre⟩) s)
          (drb_key drb).first (drb_key drb).second = some old →
        rec.qos_priority = (drb.qos_priority.map to_uint8).getD old.qos_priority ∧
        rec.override_qos_priority = (drb.qos_priority.isSome || old.override_qos_priority) ∧
        rec.arp_priority = (drb.arp_priority.map to_uint8).getD old.arp_priority ∧
        rec.override_arp_priority = (drb.arp_priority.isSome || old.override_arp_priority) ∧
        rec.pdb_ms = drb.pdb_ms.getD old.pdb_ms ∧
        rec.override_pdb = (drb.pdb_ms.isSome || old.override_pdb)) ∧
      (edgeric.get_dynamic_qos (edgeric.get_qos_from_er (.parsed ⟨ran_index, pre⟩) s)
          (drb_key drb).first (drb_key drb).second = none →
        rec.qos_priority = (drb.qos_priority.map to_uint8).getD 0 ∧
        rec.override_qos_priority = drb.qos_priority.isSome ∧
        rec.arp_priority = (drb.arp_priority.map to_uint8).getD 0 ∧
        rec.override_arp_priority = drb.arp_priority.isSome ∧
        rec.pdb_ms = drb.pdb_ms.getD 0 ∧
        rec.override_pdb = drb.pdb_ms.isSome)) ∧
    ((edgeric.get_qos_from_er (.parsed ⟨ran_index, pre ++ drb :: post⟩) s).qos_overrides =
      post.foldl edgeric.apply_drb
        (edgeric.get_qos_from_er (.parsed ⟨ran_index, pre ++ [drb]⟩) s).qos_overrides) ∧
    ((∀ d ∈ post, drb_key d ≠ drb_key drb) →
      edgeric.get_dynamic_qos
          (edgeric.get_qos_from_er (.parsed ⟨ran_index, pre ++ drb :: post⟩) s)
          (drb_key drb).first (drb_key drb).second =
        edgeric.get_dynamic_qos
          (edgeric.get_qos_from_er (.parsed ⟨ran_index, pre ++ [drb]⟩) s)
          (drb_key drb).first (drb_key drb).second) ∧
    (∀ k : ue_drb_key, (∀ d ∈ pre ++ drb :: post, drb_key d ≠ k) →
      find (edgeric.get_qos_from_er (.parsed ⟨ran_index, pre ++ drb :: post⟩) s).qos_overrides k
        = find s.qos_overrides k) := by
  have hkey : ue_drb_key.mk (drb_key drb).first (drb_key drb).second = drb_key drb := rfl
  have hrec : find (edgeric.get_qos_from_er (.parsed ⟨ran_index, pre ++ [drb]⟩) s).qos_overrides
      (drb_key drb) =
      some (edgeric.apply_drb_fields drb (edgeric.qos_ref
        (edgeric.get_qos_from_er (.parsed ⟨ran_index, pre⟩) s).qos_overrides (drb_key drb))) := by
    simp only [edgeric.get_qos_from_er, ensure_initialized_eq, List.foldl_append,
      List.foldl_cons, List.foldl_nil]
    rw [apply_drb_find]
    simp [hkeep]
  have hsplit : (edgeric.get_qos_from_er (.parsed ⟨ran_index, pre ++ drb :: post⟩)
      s).qos_overrides =
      post.foldl edgeric.apply_drb
        (edgeric.get_qos_from_er (.parsed ⟨ran_index, pre ++ [drb]⟩) s).qos_overrides := by
    simp [edgeric.get_qos_from_er, ensure_initialized_eq, List.foldl_append]
  refine ⟨⟨edgeric.apply_drb_fields drb (edgeric.qos_ref
    (edgeric.get_qos_from_er (.parsed ⟨ran_index, pre⟩) s).qos_overrides (drb_key drb)),
    ?_, ?_, ?_⟩, hsplit, ?_, ?_⟩
  · unfold edgeric.get_dynamic_qos
    rw [hkey]
    exact hrec
  · intro old hold
    unfold edgeric.get_dynamic_qos at hold
    rw [hkey] at hold
    have hq : edgeric.qos_ref
        (edgeric.get_qos_from_er (.parsed ⟨ran_index, pre⟩) s).qos_overrides (drb_key drb)
        = old := by
      simp [edgeric.qos_ref, hold]
    rw [hq]
    exact apply_drb_fields_spec drb old
  · intro hnone
    unfold edgeric.get_dynamic_qos at hnone
    rw [hkey] at hnone
    have hq : edgeric.qos_ref
        (edgeric.get_qos_from_er (.parsed ⟨ran_index, pre⟩) s).qos_overrides (drb_key drb)
        = {} := by
      simp [edgeric.qos_ref, hnone]
    rw [hq]
    have hspec := apply_drb_fields_spec drb {}
    simpa using hspec
  · intro hlast
    unfold edgeric.get_dynamic_qos
    rw [hsplit, foldl_apply_drb_find_other post _ _ hlast]
  · intro k hk
    simp only [edgeric.get_qos_from_er, ensure_initialized_eq]
    exact foldl_apply_drb_find_other _ _ k hk

/-- Witness of C20: bearer (17921, 4) has a record overriding the QoS
priority (5) and the packet delay budget (50); the message sets the packet
delay budget of bearer (17921, 5), then carries only the ARP priority 3 for
bearer (17921, 4), then clears bearer (17922, 4). The record of bearer
(17921, 4) keeps QoS priority 5 and budget 50 with their flags and gains ARP
priority 3. -/
theorem C20_qos_partial_update_witness :
    (qos_sample_entry.clear_override = false ∧
      edgeric.get_dynamic_qos
        (edgeric.get_qos_from_er (.parsed ⟨1, qos_sample_pre⟩) qos_sample_state) 17921 4
        = some { qos_priority := 5, override_qos_priority := true,
                 pdb_ms := 50, override_pdb := true } ∧
      edgeric.get_dynamic_qos
        (edgeric.get_qos_from_er
          (.parsed ⟨1, qos_sample_pre ++ qos_sample_entry :: qos_sample_post⟩)
          qos_sample_state) 17921 4
        = some { qos_priority := 5, override_qos_priority := true,
                 arp_priority := 3, override_arp_priority := true,
                 pdb_ms := 50, override_pdb := true }) ∧
    ((∃ rec,
      edgeric.get_dynamic_qos
        (edgeric.get_qos_from_er (.parsed ⟨1, qos_sample_pre ++ [qos_sample_entry]⟩)
          qos_sample_state)
        (drb_key qos_sample_entry).first (drb_key qos_sample_entry).second = some rec ∧
      (∀ old, edgeric.get_dynamic_qos
          (edgeric.get_qos_from_er (.parsed ⟨1, qos_sample_pre⟩) qos_sample_state)
          (drb_key qos_sample_entry).first (drb_key qos_sample_entry).second = some old →
        rec.qos_priority = (qos_sample_entry.qos_priority.map to_uint8).getD old.qos_priority ∧
        rec.override_qos_priority
          = (qos_sample_entry.qos_priority.isSome || old.override_qos_priority) ∧
        rec.arp_priority = (qos_sample_entry.arp_priority.map to_uint8).getD old.arp_priority ∧
        rec.override_arp_priority
          = (qos_sample_entry.arp_priority.isSome || old.override_arp_priority) ∧
        rec.pdb_ms = qos_sample_entry.pdb_ms.getD old.pdb_ms ∧
        rec.override_pdb = (qos_sample_entry.pdb_ms.isSome || old.override_pdb)) ∧
      (edgeric.get_dynamic_qos
          (edgeric.get_qos_from_er (.parsed ⟨1, qos_sample_pre⟩) qos_sample_state)
          (drb_key qos_sample_entry).first (drb_key qos_sample_entry).second = none →
        rec.qos_priority = (qos_sample_entry.qos_priority.map to_uint8).getD 0 ∧
        rec.override_qos_priority = qos_sample_entry.qos_priority.isSome ∧
        rec.arp_priority = (qos_sample_entry.arp_priority.map to_uint8).getD 0 ∧
        rec.override_arp_priority = qos_sample_entry.arp_priority.isSome ∧
        rec.pdb_ms = qos_sample_entry.pdb_ms.getD 0 ∧
        rec.override_pdb = qos_sample_entry.pdb_ms.isSome)) ∧
    ((edgeric.get_qos_from_er
        (.parsed ⟨1, qos_sample_pre ++ qos_sample_entry :: qos_sample_post⟩)
        qos_sample_state).qos_overrides =
      qos_sample_post.foldl edgeric.apply_drb
        (edgeric.get_qos_from_er (.parsed ⟨1, qos_sample_pre ++ [qos_sample_entry]⟩)
          qos_sample_state).qos_overrides) ∧
    ((∀ d ∈ qos_sample_post, drb_key d ≠ drb_key qos_sample_entry) →
      edgeric.get_dynamic_qos
          (edgeric.get_qos_from_er
            (.parsed ⟨1, qos_sample_pre ++ qos_sample_entry :: qos_sample_post⟩)
            qos_sample_state)
          (drb_key qos_sample_entry).first (drb_key qos_sample_entry).second =
        edgeric.get_dynamic_qos
          (edgeric.get_qos_from_er (.parsed ⟨1, qos_sample_pre ++ [qos_sample_entry]⟩)
            qos_sample_state)
          (drb_key qos_sample_entry).first (drb_key qos_sample_entry).second) ∧
    (∀ k : ue_drb_key,
      (∀ d ∈ qos_sample_pre ++ qos_sample_entry :: qos_sample_post, drb_key d ≠ k) →
      find (edgeric.get_qos_from_er
          (.parsed ⟨1, qos_sample_pre ++ qos_sample_entry :: qos_sample_post⟩)
          qos_sample_state).qos_overrides k
        = find qos_sample_state.qos_overrides k)) :=
  ⟨⟨rfl, by decide, by decide⟩,
    C20_qos_partial_update qos_sample_state 1 qos_sample_pre qos_sample_post qos_sample_entry
      rfl⟩

/-- C21: `n` consecutive calls of `get_qos_from_er` that each find no pending
message leave the QoS table and the QoS round index exactly as they were, for
every `n` (every other table too; only the initialisation flag is set), so
`get_dynamic_qos` and each per-field accessor return what they returned
before. -/
theorem C21_empty_qos_polls_keep_overrides (s : edgeric) (n rnti lcid : Nat) :
    ((edgeric.get_qos_from_er .no_message)^[n] s).qos_overrides = s.qos_overrides ∧
    ((edgeric.get_qos_from_er .no_message)^[n] s).er_ran_index_qos = s.er_ran_index_qos ∧
    ((edgeric.get_qos_from_er .no_message)^[n + 1] s) = { s with initialized := true } ∧
    edgeric.get_dynamic_qos ((edgeric.get_qos_from_er .no_message)^[n] s) rnti lcid
      = edgeric.get_dynamic_qos s rnti lcid ∧
    edgeric.get_qos_priority ((edgeric.get_qos_from_er .no_message)^[n] s) rnti lcid
      = edgeric.get_qos_priority s rnti lcid ∧
    edgeric.get_arp_priority ((edgeric.get_qos_from_er .no_message)^[n] s) rnti lcid
      = edgeric.get_arp_priority s rnti lcid ∧
    edgeric.get_pdb ((edgeric.get_qos_from_er .no_message)^[n] s) rnti lcid
      = edgeric.get_pdb s rnti lcid ∧
    edgeric.get_gbr_dl ((edgeric.get_qos_from_er .no_message)^[n] s) rnti lcid
      = edgeric.get_gbr_dl s rnti lcid ∧
    edgeric.get_gbr_ul ((edgeric.get_qos_from_er .no_message)^[n] s) rnti lcid
      = edgeric.get_gbr_ul s rnti lcid := by
  have hstep : ∀ t : edgeric,
      edgeric.get_qos_from_er .no_message t = { t with initialized := true } := by
    intro t
    simp [edgeric.get_qos_from_er, ensure_initialized_eq]
  have hiter : ∀ (k : Nat) (t : edgeric),
      ((edgeric.get_qos_from_er .no_message)^[k + 1] t) = { t with initialized := true } := by
    intro k
    induction k with
    | zero => intro t; simp [hstep]
    | succ k ih =>
      intro t
      rw [Function.iterate_succ_apply, ih, hstep]
  have htbl : ((edgeric.get_qos_from_er .no_message)^[n] s).qos_overrides = s.qos_overrides := by
    cases n with
    | zero => rfl
    | succ k => rw [hiter]
  have hidx : ((edgeric.get_qos_from_er .no_message)^[n] s).er_ran_index_qos
      = s.er_ran_index_qos := by
    cases n with
    | zero => rfl
    | succ k => rw [hiter]
  refine ⟨htbl, hidx, hiter n s, ?_, ?_, ?_, ?_, ?_, ?_⟩ <;>
    simp only [edgeric.get_dynamic_qos, edgeric.get_qos_priority, edgeric.get_arp_priority,
      edgeric.get_pdb, edgeric.get_gbr_dl, edgeric.get_gbr_ul, htbl]

theorem find_filter_rnti (rnti : Nat) (m : Map ue_drb_key dynamic_qos_params) (k : ue_drb_key) :
    find (m.filter (fun e => decide (e.1.first ≠ rnti))) k =
      if k.first = rnti then none else find m k := by
  induction m with
  | nil => simp [find]
  | cons e t ih =>
    obtain ⟨k', v'⟩ := e
    by_cases h1 : k'.first = rnti
    · by_cases h2 : k = k'
      · subst h2
        simpa [find, h1] using ih
      · simpa [find, h1, h2] using ih
    · by_cases h2 : k = k'
      · subst h2
        simp [find, h1]
      · simpa [find, h1, h2] using ih

/-- C22: each per-field accessor returns a value exactly when a record exists
for `(rnti, lcid)` and the override flag of its field is set (the two GBR
accessors share the flag `override_gbr`), and the value is the stored field.
In particular, for a bearer without record, after `set_pdb rnti lcid v`
`get_arp_priority` returns no value and `get_pdb` returns `v`. -/
theorem C22_field_accessors (s t : edgeric) (rnti lcid v w : Nat)
    (hnew : edgeric.get_dynamic_qos t rnti lcid = none) :
    ((edgeric.get_qos_priority s rnti lcid = some w ↔
        ∃ p, edgeric.get_dynamic_qos s rnti lcid = some p ∧
          p.override_qos_priority = true ∧ p.qos_priority = w) ∧
      (edgeric.get_arp_priority s rnti lcid = some w ↔
        ∃ p, edgeric.get_dynamic_qos s rnti lcid = some p ∧
          p.override_arp_priority = true ∧ p.arp_priority = w) ∧
      (edgeric.get_pdb s rnti lcid = some w ↔
        ∃ p, edgeric.get_dynamic_qos s rnti lcid = some p ∧
          p.override_pdb = true ∧ p.pdb_ms = w) ∧
      (edgeric.get_gbr_dl s rnti lcid = some w ↔
        ∃ p, edgeric.get_dynamic_qos s rnti lcid = some p ∧
          p.override_gbr = true ∧ p.gbr_dl = w) ∧
      (edgeric.get_gbr_ul s rnti lcid = some w ↔
        ∃ p, edgeric.get_dynamic_qos s rnti lcid = some p ∧
          p.override_gbr = true ∧ p.gbr_ul = w)) ∧
    (edgeric.get_arp_priority (edgeric.set_pdb rnti lcid v t) rnti lcid = none ∧
      edgeric.get_pdb (edgeric.set_pdb rnti lcid v t) rnti lcid = some v) := by
  constructor
  · unfold edgeric.get_qos_priority edgeric.get_arp_priority edgeric.get_pdb
      edgeric.get_gbr_dl edgeric.get_gbr_ul edgeric.get_dynamic_qos
    cases hf : find s.qos_overrides (ue_drb_key.mk rnti lcid) with
    | none => simp
    | some p =>
      refine ⟨?_, ?_, ?_, ?_, ?_⟩
      · cases hflag : p.override_qos_priority <;> simp [hflag]
      · cases hflag : p.override_arp_priority <;> simp [hflag]
      · cases hflag : p.override_pdb <;> simp [hflag]
      · cases hflag : p.override_gbr <;> simp [hflag]
      · cases hflag : p.override_gbr <;> simp [hflag]
  · unfold edgeric.get_dynamic_qos at hnew
    simp [edgeric.get_arp_priority, edgeric.get_pdb, edgeric.set_pdb, find_set_self,
      edgeric.qos_ref, hnew]

/-- Witness of C22: on the empty table, `set_pdb 17921 4 50`. -/
theorem C22_field_accessors_witness :
    edgeric.get_dynamic_qos {} 17921 4 = none ∧
    (((edgeric.get_qos_priority (edgeric.set_pdb 17921 4 50 {}) 17921 4 = some 50 ↔
        ∃ p, edgeric.get_dynamic_qos (edgeric.set_pdb 17921 4 50 {}) 17921 4 = some p ∧
          p.override_qos_priority = true ∧ p.qos_priority = 50) ∧
      (edgeric.get_arp_priority (edgeric.set_pdb 17921 4 50 {}) 17921 4 = some 50 ↔
        ∃ p, edgeric.get_dynamic_qos (edgeric.set_pdb 17921 4 50 {}) 17921 4 = some p ∧
          p.override_arp_priority = true ∧ p.arp_priority = 50) ∧
      (edgeric.get_pdb (edgeric.set_pdb 17921 4 50 {}) 17921 4 = some 50 ↔
        ∃ p, edgeric.get_dynamic_qos (edgeric.set_pdb 17921 4 50 {}) 17921 4 = some p ∧
          p.override_pdb = true ∧ p.pdb_ms = 50) ∧
      (edgeric.get_gbr_dl (edgeric.set_pdb 17921 4 50 {}) 17921 4 = some 50 ↔
        ∃ p, edgeric.get_dynamic_qos (edgeric.set_pdb 17921 4 50 {}) 17921 4 = some p ∧
          p.override_gbr = true ∧ p.gbr_dl = 50) ∧
      (edgeric.get_gbr_ul (edgeric.set_pdb 17921 4 50 {}) 17921 4 = some 50 ↔
        ∃ p, edgeric.get_dynamic_qos (edgeric.set_pdb 17921 4 50 {}) 17921 4 = some p ∧
          p.override_gbr = true ∧ p.gbr_ul = 50)) ∧
    (edgeric.get_arp_priority (edgeric.set_pdb 17921 4 50 {}) 17921 4 = none ∧
      edgeric.get_pdb (edgeric.set_pdb 17921 4 50 {}) 17921 4 = some 50)) :=
  ⟨by decide, C22_field_accessors (edgeric.set_pdb 17921 4 50 {}) {} 17921 4 50 50 (by decide)⟩

/-- C23: after `clear_dynamic_qos rnti lcid`, `get_dynamic_qos rnti lcid`
returns no value, the record of every other key (another bearer of the same
user, any bearer of another user) is the one of before the call, and no other
table changes. -/
theorem C23_clear_one_bearer (s : edgeric) (rnti lcid : Nat) :
    edgeric.get_dynamic_qos (edgeric.clear_dynamic_qos rnti lcid s) rnti lcid = none ∧
    (∀ rnti' lcid' : Nat, (rnti', lcid') ≠ (rnti, lcid) →
      edgeric.get_dynamic_qos (edgeric.clear_dynamic_qos rnti lcid s) rnti' lcid'
        = edgeric.get_dynamic_qos s rnti' lcid') ∧
    { edgeric.clear_dynamic_qos rnti lcid s with qos_overrides := s.qos_overrides } = s := by
  refine ⟨?_, ?_, ?_⟩
  · simp [edgeric.get_dynamic_qos, edgeric.clear_dynamic_qos, find_erase]
  · intro rnti' lcid' hne
    have hk : ue_drb_key.mk rnti' lcid' ≠ ue_drb_key.mk rnti lcid := by
      intro e
      apply hne
      injection e with h1 h2
      rw [h1, h2]
    simp [edgeric.get_dynamic_qos, edgeric.clear_dynamic_qos, find_erase, hk]
  · simp [edgeric.clear_dynamic_qos]

/-- C24: after `clear_all_dynamic_qos rnti` no record with that RNTI remains,
for any LCID, and the records of every other user are exactly those present
before the call; no other table changes. -/
theorem C24_clear_all_bearers_of_user (s : edgeric) (rnti : Nat) :
    (∀ lcid : Nat,
      edgeric.get_dynamic_qos (edgeric.clear_all_dynamic_qos rnti s) rnti lcid = none) ∧
    (∀ e ∈ (edgeric.clear_all_dynamic_qos rnti s).qos_overrides, e.1.first ≠ rnti) ∧
    (∀ rnti' lcid' : Nat, rnti' ≠ rnti →
      edgeric.get_dynamic_qos (edgeric.clear_all_dynamic_qos rnti s) rnti' lcid'
        = edgeric.get_dynamic_qos s rnti' lcid') ∧
    (∀ e : ue_drb_key × dynamic_qos_params, e.1.first ≠ rnti →
      (e ∈ (edgeric.clear_all_dynamic_qos rnti s).qos_overrides ↔ e ∈ s.qos_overrides)) ∧
    { edgeric.clear_all_dynamic_qos rnti s with qos_overrides := s.qos_overrides } = s := by
  refine ⟨?_, ?_, ?_, ?_, ?_⟩
  · intro lcid
    show find (s.qos_overrides.filter (fun e => decide (e.1.first ≠ rnti)))
      (ue_drb_key.mk rnti lcid) = none
    rw [find_filter_rnti]
    simp
  · intro e he
    simp only [edgeric.clear_all_dynamic_qos, List.mem_filter] at he
    simpa using he.2
  · intro rnti' lcid' hne
    show find (s.qos_overrides.filter (fun e => decide (e.1.first ≠ rnti)))
      (ue_drb_key.mk rnti' lcid') = find s.qos_overrides (ue_drb_key.mk rnti' lcid')
    rw [find_filter_rnti]
    simp [hne]
  · intro e he
    simp [edgeric.clear_all_dynamic_qos, List.mem_filter, he]
  · simp [edgeric.clear_all_dynamic_qos]

/-- C25: on a bearer that has a record `p`, each single-field setter leaves a
record that differs from `p` only in its own field value (both values for
`set_gbr`) and its own override flag, which is set; the record of every other
bearer, and every other table, is as before the call. -/
theorem C25_single_field_setters (s : edgeric) (rnti lcid v g h : Nat) (p : dynamic_qos_params)
    (hrec : edgeric.get_dynamic_qos s rnti lcid = some p) :
    (edgeric.get_dynamic_qos (edgeric.set_qos_priority rnti lcid v s) rnti lcid
        = some { p with qos_priority := v, override_qos_priority := true } ∧
      edgeric.get_dynamic_qos (edgeric.set_arp_priority rnti lcid v s) rnti lcid
        = some { p with arp_priority := v, override_arp_priority := true } ∧
      edgeric.get_dynamic_qos (edgeric.set_pdb rnti lcid v s) rnti lcid
        = some { p with pdb_ms := v, override_pdb := true } ∧
      edgeric.get_dynamic_qos (edgeric.set_gbr rnti lcid g h s) rnti lcid
        = some { p with gbr_dl := g, gbr_ul := h, override_gbr := true }) ∧
    (∀ rnti' lcid' : Nat, (rnti', lcid') ≠ (rnti, lcid) →
      edgeric.get_dynamic_qos (edgeric.set_qos_priority rnti lcid v s) rnti' lcid'
        = edgeric.get_dynamic_qos s rnti' lcid' ∧
      edgeric.get_dynamic_qos (edgeric.set_arp_priority rnti lcid v s) rnti' lcid'
        = edgeric.get_dynamic_qos s rnti' lcid' ∧
      edgeric.get_dynamic_qos (edgeric.set_pdb rnti lcid v s) rnti' lcid'
        = edgeric.get_dynamic_qos s rnti' lcid' ∧
      edgeric.get_dynamic_qos (edgeric.set_gbr rnti lcid g h s) rnti' lcid'
        = edgeric.get_dynamic_qos s rnti' lcid') ∧
    ({ edgeric.set_qos_priority rnti lcid v s with qos_overrides := s.qos_overrides } = s ∧
      { edgeric.set_arp_priority rnti lcid v s with qos_overrides := s.qos_overrides } = s ∧
      { edgeric.set_pdb rnti lcid v s with qos_overrides := s.qos_overrides } = s ∧
      { edgeric.set_gbr rnti lcid g h s with qos_overrides := s.qos_overrides } = s) := by
  unfold edgeric.get_dynamic_qos at hrec
  refine ⟨?_, ?_, ?_⟩
  · simp [edgeric.get_dynamic_qos, edgeric.set_qos_priority, edgeric.set_arp_priority,
      edgeric.set_pdb, edgeric.set_gbr, find_set_self, edgeric.qos_ref, hrec]
  · intro rnti' lcid' hne
    have hk : ue_drb_key.mk rnti' lcid' ≠ ue_drb_key.mk rnti lcid := by
      intro e
      apply hne
      injection e with h1 h2
      rw [h1, h2]
    simp [edgeric.get_dynamic_qos, edgeric.set_qos_priority, edgeric.set_arp_priority,
      edgeric.set_pdb, edgeric.set_gbr, find_set_ne _ _ _ _ hk]
  · simp [edgeric.set_qos_priority, edgeric.set_arp_priority, edgeric.set_pdb, edgeric.set_gbr]

/-- Witness of C25: the bearer (17921, 4) with a record that overrides the
packet delay budget. -/
theorem C25_single_field_setters_witness :
    edgeric.get_dynamic_qos (edgeric.set_pdb 17921 4 50 {}) 17921 4
      = some { pdb_ms := 50, override_pdb := true } ∧
    ((edgeric.get_dynamic_qos
          (edgeric.set_qos_priority 17921 4 9 (edgeric.set_pdb 17921 4 50 {})) 17921 4
        = some { ({ pdb_ms := 50, override_pdb := true } : dynamic_qos_params) with
            qos_priority := 9, override_qos_priority := true } ∧
      edgeric.get_dynamic_qos
          (edgeric.set_arp_priority 17921 4 9 (edgeric.set_pdb 17921 4 50 {})) 17921 4
        = some { ({ pdb_ms := 50, override_pdb := true } : dynamic_qos_params) with
            arp_priority := 9, override_arp_priority := true } ∧
      edgeric.get_dynamic_qos
          (edgeric.set_pdb 17921 4 9 (edgeric.set_pdb 17921 4 50 {})) 17921 4
        = some { ({ pdb_ms := 50, override_pdb := true } : dynamic_qos_params) with
            pdb_ms := 9, override_pdb := true } ∧
      edgeric.get_dynamic_qos
          (edgeric.set_gbr 17921 4 1000 2000 (edgeric.set_pdb 17921 4 50 {})) 17921 4
        = some { ({ pdb_ms := 50, override_pdb := true } : dynamic_qos_params) with
            gbr_dl := 1000, gbr_ul := 2000, override_gbr := true }) ∧
    (∀ rnti' lcid' : Nat, (rnti', lcid') ≠ (17921, 4) →
      edgeric.get_dynamic_qos
          (edgeric.set_qos_priority 17921 4 9 (edgeric.set_pdb 17921 4 50 {})) rnti' lcid'
        = edgeric.get_dynamic_qos (edgeric.set_pdb 17921 4 50 {}) rnti' lcid' ∧
      edgeric.get_dynamic_qos
          (edgeric.set_arp_priority 17921 4 9 (edgeric.set_pdb 17921 4 50 {})) rnti' lcid'
        = edgeric.get_dynamic_qos (edgeric.set_pdb 17921 4 50 {}) rnti' lcid' ∧
      edgeric.get_dynamic_qos
          (edgeric.set_pdb 17921 4 9 (edgeric.set_pdb 17921 4 50 {})) rnti' lcid'
        = edgeric.get_dynamic_qos (edgeric.set_pdb 17921 4 50 {}) rnti' lcid' ∧
      edgeric.get_dynamic_qos
          (edgeric.set_gbr 17921 4 1000 2000 (edgeric.set_pdb 17921 4 50 {})) rnti' lcid'
        = edgeric.get_dynamic_qos (edgeric.set_pdb 17921 4 50 {}) rnti' lcid') ∧
    ({ edgeric.set_qos_priority 17921 4 9 (edgeric.set_pdb 17921 4 50 {}) with
          qos_overrides := (edgeric.set_pdb 17921 4 50 {}).qos_overrides }
        = edgeric.set_pdb 17921 4 50 {} ∧
      { edgeric.set_arp_priority 17921 4 9 (edgeric.set_pdb 17921 4 50 {}) with
          qos_overrides := (edgeric.set_pdb 17921 4 50 {}).qos_overrides }
        = edgeric.set_pdb 17921 4 50 {} ∧
      { edgeric.set_pdb 17921 4 9 (edgeric.set_pdb 17921 4 50 {}) with
          qos_overrides := (edgeric.set_pdb 17921 4 50 {}).qos_overrides }
        = edgeric.set_pdb 17921 4 50 {} ∧
      { edgeric.set_gbr 17921 4 1000 2000 (edgeric.set_pdb 17921 4 50 {}) with
          qos_overrides := (edgeric.set_pdb 17921 4 50 {}).qos_overrides }
        = edgeric.set_pdb 17921 4 50 {})) :=
  ⟨by decide,
    C25_single_field_setters (edgeric.set_pdb 17921 4 50 {}) 17921 4 9 1000 2000
      { pdb_ms := 50, override_pdb := true } (by decide)⟩

/-! ### Elapsed slots -/

theorem dl_candidate_last_slots (env : pf_externals) (n : Nat) (st : scheduler_time_pf.pf_state)
    (c : ue_newtx_candidate) :
    (scheduler_time_pf.dl_candidate env n st c).1.1.last_pdsch_slot = st.1.last_pdsch_slot ∧
    (scheduler_time_pf.dl_candidate env n st c).1.1.last_pusch_slot = st.1.last_pusch_slot := by
  unfold scheduler_time_pf.dl_candidate
  cases hf : find st.1.ue_history_db c.ue.ue_index <;> simp

theorem ul_candidate_last_slots (env : pf_externals) (n : Nat) (st : scheduler_time_pf.pf_state)
    (c : ue_newtx_candidate) :
    (scheduler_time_pf.ul_candidate env n st c).1.1.last_pdsch_slot = st.1.last_pdsch_slot ∧
    (scheduler_time_pf.ul_candidate env n st c).1.1.last_pusch_slot = st.1.last_pusch_slot := by
  unfold scheduler_time_pf.ul_candidate
  cases hf : find st.1.ue_history_db c.ue.ue_index <;> simp

theorem compute_dl_last_slot (env : pf_externals) (slot : slot_point)
    (cs : List ue_newtx_candidate) (st : scheduler_time_pf.pf_state) :
    (scheduler_time_pf.compute_ue_dl_priorities env slot cs st).1.1.last_pdsch_slot = slot :=
  for_candidates_invariant (scheduler_time_pf.dl_candidate env _)
    (fun s => s.1.last_pdsch_slot = slot)
    (fun s c h => ((dl_candidate_last_slots env _ s c).1).trans h) cs _ rfl

theorem compute_ul_last_slot (env : pf_externals) (slot : slot_point)
    (cs : List ue_newtx_candidate) (st : scheduler_time_pf.pf_state) :
    (scheduler_time_pf.compute_ue_ul_priorities env slot cs st).1.1.last_pusch_slot = slot :=
  for_candidates_invariant (scheduler_time_pf.ul_candidate env _)
    (fun s => s.1.last_pusch_slot = slot)
    (fun s c h => ((ul_candidate_last_slots env _ s c).2).trans h) cs _ rfl

/-- C26 (counterexample): `compute_ue_dl_priorities` is invoked for slot 5 and
then again for slot 5. In the second invocation the number of elapsed slots is
0, not at least 1: the first call pushes one zero sample for user 0 (sample
count 1), the second pushes none (sample count still 1). -/
theorem C26_same_slot_gives_zero_elapsed :
    scheduler_time_pf.nof_slots_elapsed ⟨true, 5⟩
      (scheduler_time_pf.compute_ue_dl_priorities sample_env ⟨true, 5⟩ [sample_candidate 0 10]
        sample_state).1.1.last_pdsch_slot = 0 ∧
    (find (scheduler_time_pf.compute_ue_dl_priorities sample_env ⟨true, 5⟩
        [sample_candidate 0 10] sample_state).1.1.ue_history_db 0).map
      (fun c => c.dl_avg_rate_.count) = some 1 ∧
    (find (scheduler_time_pf.compute_ue_dl_priorities sample_env ⟨true, 5⟩
        [sample_candidate 0 10]
        (scheduler_time_pf.compute_ue_dl_priorities sample_env ⟨true, 5⟩
          [sample_candidate 0 10] sample_state).1).1.1.ue_history_db 0).map
      (fun c => c.dl_avg_rate_.count) = some 1 := by
  decide!

/-- C26 (amended): `compute_ue_dl_priorities` runs its loop with the number of
elapsed slots `nof_slots_elapsed pdsch_slot last_pdsch_slot` and leaves
`last_pdsch_slot = pdsch_slot`; that number is 1 on the first invocation (no
valid previous slot), and on a later invocation it is the difference between
the current and the previous slot as an `unsigned`: the number of slots in
between, at least 1, when the current slot is later than the previous one, and
0 when the engine is invoked again for the same slot. The same holds for
`compute_ue_ul_priorities` and `last_pusch_slot`. -/
theorem C26_elapsed_slots (env : pf_externals) (slot last : slot_point)
    (cs : List ue_newtx_candidate) (st : scheduler_time_pf.pf_state) :
    (scheduler_time_pf.compute_ue_dl_priorities env slot cs st =
        scheduler_time_pf.for_candidates
          (scheduler_time_pf.dl_candidate env
            (scheduler_time_pf.nof_slots_elapsed slot st.1.last_pdsch_slot)) cs
          ({ st.1 with tti_cnt := (st.1.tti_cnt + 1) % 2 ^ 32, last_pdsch_slot := slot }, st.2) ∧
      (scheduler_time_pf.compute_ue_dl_priorities env slot cs st).1.1.last_pdsch_slot = slot) ∧
    (scheduler_time_pf.compute_ue_ul_priorities env slot cs st =
        scheduler_time_pf.for_candidates
          (scheduler_time_pf.ul_candidate env
            (scheduler_time_pf.nof_slots_elapsed slot st.1.last_pusch_slot)) cs
          ({ st.1 with last_pusch_slot := slot }, st.2) ∧
      (scheduler_time_pf.compute_ue_ul_priorities env slot cs st).1.1.last_pusch_slot = slot) ∧
    (last.valid = false → scheduler_time_pf.nof_slots_elapsed slot last = 1) ∧
    (last.valid = true → last.count < slot.count → slot.count - last.count < 2 ^ 32 →
      scheduler_time_pf.nof_slots_elapsed slot last = slot.count - last.count ∧
      1 ≤ scheduler_time_pf.nof_slots_elapsed slot last) ∧
    (last.valid = true → slot.count = last.count →
      scheduler_time_pf.nof_slots_elapsed slot last = 0) := by
  refine ⟨⟨rfl, compute_dl_last_slot env slot cs st⟩, ⟨rfl, compute_ul_last_slot env slot cs st⟩,
    ?_, ?_, ?_⟩
  · intro h
    simp [scheduler_time_pf.nof_slots_elapsed, h]
  · intro h hlt hsmall
    have hd : slot.diff last = slot.count - last.count := by
      unfold slot_point.diff
      have h1 : ((slot.count : Int) - (last.count : Int)) = ((slot.count - last.count : Nat) : Int) := by
        omega
      rw [h1]
      have h2 : (((slot.count - last.count : Nat) : Int) % 2 ^ 32)
          = ((slot.count - last.count : Nat) : Int) := by
        apply Int.emod_eq_of_lt
        · omega
        · have : ((2 : Int) ^ 32) = ((2 ^ 32 : Nat) : Int) := by norm_num
          rw [this]
          exact_mod_cast hsmall
      rw [h2]
      simp
    simp only [scheduler_time_pf.nof_slots_elapsed, h, if_true, hd]
    exact ⟨trivial, by omega⟩
  · intro h heq
    simp [scheduler_time_pf.nof_slots_elapsed, h, slot_point.diff, heq]

/-! ### Zero samples -/

/-- C27 (evaluation at the failing input): user 0 is tracked, receives a DL
grant of 1000 bytes (average 1000, one sample), and is a candidate at the next
scheduling opportunity, the first one, with 1 elapsed slot. The zero-sample
update pushes 1 zero sample, as many as there are elapsed slots and not fewer:
the average has 2 samples and is 500, although the only elapsed slot is the
one of the allocation. -/
theorem C27_allocated_user_gets_all_zero_samples :
    (find (scheduler_time_pf.save_dl_newtx_grants [⟨0, [1000]⟩]
        sample_state.1).ue_history_db 0).map
      (fun c => (c.dl_avg_rate_.count, c.dl_avg_rate, c.dl_sum_alloc_bytes))
      = some (1, 1000, 0) ∧
    scheduler_time_pf.nof_slots_elapsed ⟨true, 5⟩
      (scheduler_time_pf.save_dl_newtx_grants [⟨0, [1000]⟩]
        sample_state.1).last_pdsch_slot = 1 ∧
    (find (scheduler_time_pf.compute_ue_dl_priorities sample_env ⟨true, 5⟩
        [sample_candidate 0 10]
        (scheduler_time_pf.save_dl_newtx_grants [⟨0, [1000]⟩] sample_state.1,
          sample_state.2)).1.1.ue_history_db 0).map
      (fun c => (c.dl_avg_rate_.count, c.dl_avg_rate)) = some (2, 500) := by
  decide!

/-! ### Weight ingestion against its reference definition -/

/-- C28: for every prior table and every parsed message of even length,
`get_weights_from_er` leaves as weight table the one of the reference
definition `ingest_weights_reference` on the prior table and the listed
(RNTI, weight) pairs (and sets the round index of the message). -/
theorem C28_weights_refine_reference (s : edgeric) (msg : SchedulingWeights)
    (heven : Even msg.weights.length) :
    edgeric.get_weights_from_er (.parsed msg) s =
      some { s with
        initialized := true,
        er_ran_index_weights := msg.ran_index,
        weights_recved :=
          ingest_weights_reference s.weights_recved (weight_pairs msg.weights) } := by
  rw [get_weights_from_er_parsed s msg heven]
  rfl

/-- Witness of C28: the table `5 ↦ 1` and the message `[7, 2, 7, 6]`, which
lists RNTI 7 twice. -/
theorem C28_weights_refine_reference_witness :
    Even ([7, 2, 7, 6] : List ℚ).length ∧
    edgeric.get_weights_from_er (.parsed ⟨3, [7, 2, 7, 6]⟩) { weights_recved := [(5, 1)] } =
      some { ({ weights_recved := [(5, 1)] } : edgeric) with
        initialized := true,
        er_ran_index_weights := (⟨3, [7, 2, 7, 6]⟩ : SchedulingWeights).ran_index,
        weights_recved :=
          ingest_weights_reference ({ weights_recved := [(5, 1)] } : edgeric).weights_recved
            (weight_pairs (⟨3, [7, 2, 7, 6]⟩ : SchedulingWeights).weights) } :=
  ⟨by decide, C28_weights_refine_reference { weights_recved := [(5, 1)] } ⟨3, [7, 2, 7, 6]⟩
    (by decide)⟩

/-! ### Reads of the pair loop -/

/-- The pair loop finishes exactly when every index it reads exists. -/
theorem for_pairs_isSome_iff {α σ : Type} (xs : List α) (body : α → α → σ → σ) :
    ∀ (fuel i : Nat) (st : σ), i ≤ xs.length → xs.length < i + fuel →
      ((edgeric.for_pairs xs body fuel i st).isSome = true ↔
        ∀ j ∈ pair_loop_reads xs.length fuel i, j < xs.length) := by
  intro fuel
  induction fuel with
  | zero => intro i st h1 h2; omega
  | succ fuel ih =>
    intro i st h1 h2
    by_cases hi : i < xs.length
    · by_cases hi1 : i + 1 < xs.length
      · have e0 : xs[i]? = some xs[i] := List.getElem?_eq_getElem hi
        have e1 : xs[i + 1]? = some xs[i + 1] := List.getElem?_eq_getElem hi1
        simp only [edgeric.for_pairs, hi, if_true, e0, e1, pair_loop_reads, List.mem_cons]
        rw [ih (i + 2) _ (by omega) (by omega)]
        constructor
        · rintro h j (rfl | rfl | hj)
          · exact hi
          · exact hi1
          · exact h j hj
        · intro h j hj
          exact h j (Or.inr (Or.inr hj))
      · have e0 : xs[i]? = some xs[i] := List.getElem?_eq_getElem hi
        have e1 : xs[i + 1]? = none := List.getElem?_eq_none (by omega)
        simp only [edgeric.for_pairs, hi, if_true, e0, e1, pair_loop_reads, List.mem_cons]
        constructor
        · intro h
          simp at h
        · intro h
          exact absurd (h (i + 1) (Or.inr (Or.inl rfl))) hi1
    · simp [edgeric.for_pairs, hi, pair_loop_reads]

/-- C29 (evaluation at the failing input): for a flat list of 3 elements the
pair loop reads the indices 0, 1, 2 and 3, and index 3 is not smaller than the
list size 3; `get_weights_from_er` on the message `[7, 2, 9]` and
`get_mcs_from_er` on the message `[7, 12, 9]` have no defined result, because
of that read. -/
theorem C29_odd_length_reads_past_end :
    pair_loop_reads ([7, 2, 9] : List ℚ).length (([7, 2, 9] : List ℚ).length + 1) 0
      = [0, 1, 2, 3] ∧
    ¬ (3 < ([7, 2, 9] : List ℚ).length) ∧
    edgeric.get_weights_from_er (.parsed ⟨1, [7, 2, 9]⟩) {} = none ∧
    edgeric.get_mcs_from_er (.parsed ⟨1, [7, 12, 9]⟩) {} = none := by
  decide!

/-! ### The accumulators in reachable states -/

theorem mem_set {V : Type} (k : Nat) (v : V) (m : Map Nat V) (e : Nat × V)
    (h : e ∈ set k v m) : e = (k, v) ∨ e ∈ m := by
  induction m with
  | nil =>
    simp only [StdMap.set, List.mem_singleton] at h
    exact Or.inl h
  | cons x t ih =>
    obtain ⟨k', v'⟩ := x
    by_cases h1 : k = k'
    · simp only [StdMap.set, h1, if_true, List.mem_cons] at h
      rcases h with h | h
      · exact Or.inl (by rw [h1]; exact h)
      · exact Or.inr (List.mem_cons_of_mem _ h)
    · by_cases h2 : k < k'
      · simp only [StdMap.set, h1, h2, if_true, if_false, List.mem_cons] at h
        rcases h with h | h | h
        · exact Or.inl h
        · exact Or.inr (by rw [h]; exact List.mem_cons_self _ _)
        · exact Or.inr (List.mem_cons_of_mem _ h)
      · simp only [StdMap.set, h1, h2, if_false, List.mem_cons] at h
        rcases h with h | h
        · exact Or.inr (by rw [h]; exact List.mem_cons_self _ _)
        · rcases ih h with h' | h'
          · exact Or.inl h'
          · exact Or.inr (List.mem_cons_of_mem _ h')

theorem update_dl_keeps_sums (n : Nat) (c : ue_ctxt) :
    (c.update_dl_avg_rate_no_alloc n).dl_sum_alloc_bytes = c.dl_sum_alloc_bytes ∧
    (c.update_dl_avg_rate_no_alloc n).ul_sum_alloc_bytes = c.ul_sum_alloc_bytes := by
  induction n generalizing c with
  | zero => exact ⟨rfl, rfl⟩
  | succ n ih =>
    rw [ue_ctxt.update_dl_avg_rate_no_alloc]
    by_cases hz : c.dl_sum_alloc_bytes = 0
    · rw [if_pos hz]
      exact ih _
    · rw [if_neg hz]
      exact ih _

theorem update_ul_keeps_sums (n : Nat) (c : ue_ctxt) :
    (c.update_ul_avg_rate_no_alloc n).dl_sum_alloc_bytes = c.dl_sum_alloc_bytes ∧
    (c.update_ul_avg_rate_no_alloc n).ul_sum_alloc_bytes = c.ul_sum_alloc_bytes := by
  induction n generalizing c with
  | zero => exact ⟨rfl, rfl⟩
  | succ n ih =>
    rw [ue_ctxt.update_ul_avg_rate_no_alloc]
    by_cases hz : c.ul_sum_alloc_bytes = 0
    · rw [if_pos hz]
      exact ih _
    · rw [if_neg hz]
      exact ih _

/-- Replacing a context by one with zero accumulators keeps `accumulators_zero`. -/
theorem accumulators_zero_set (p : scheduler_time_pf) (k : Nat) (c : ue_ctxt)
    (hp : accumulators_zero p) (hc : c.dl_sum_alloc_bytes = 0 ∧ c.ul_sum_alloc_bytes = 0) :
    accumulators_zero { p with ue_history_db := set k c p.ue_history_db } := by
  intro e he
  rcases mem_set k c _ e he with h | h
  · rw [h]
    exact hc
  · exact hp e h

theorem accumulators_zero_add_ue (u : Nat) (p : scheduler_time_pf) (hp : accumulators_zero p) :
    accumulators_zero (scheduler_time_pf.add_ue u p) := by
  unfold scheduler_time_pf.add_ue
  cases hc : contains p.ue_history_db u with
  | true => simpa using hp
  | false =>
    simp only [Bool.not_false, if_true]
    exact accumulators_zero_set p u _ hp ⟨rfl, rfl⟩

theorem accumulators_zero_rem_ue (u : Nat) (p : scheduler_time_pf) (hp : accumulators_zero p) :
    accumulators_zero (scheduler_time_pf.rem_ue u p) := by
  intro e he
  simp only [scheduler_time_pf.rem_ue, erase, List.mem_filter] at he
  exact hp e he.1

theorem accumulators_zero_save_dl (gs : List dl_msg_alloc) (p : scheduler_time_pf)
    (hp : accumulators_zero p) :
    accumulators_zero (scheduler_time_pf.save_dl_newtx_grants gs p) := by
  induction gs generalizing p with
  | nil => exact hp
  | cons g gs ih =>
    have e : scheduler_time_pf.save_dl_newtx_grants (g :: gs) p =
        scheduler_time_pf.save_dl_newtx_grants gs (scheduler_time_pf.save_dl_grant p g) := rfl
    rw [e]
    apply ih
    unfold scheduler_time_pf.save_dl_grant
    cases hf : find p.ue_history_db g.ue_index with
    | none => exact hp
    | some ctxt =>
      have hz := hp _ (mem_of_find _ _ _ hf)
      exact accumulators_zero_set p _ _ hp ⟨rfl, hz.2⟩

theorem accumulators_zero_save_ul (gs : List ul_sched_info) (p : scheduler_time_pf)
    (hp : accumulators_zero p) :
    accumulators_zero (scheduler_time_pf.save_ul_newtx_grants gs p) := by
  induction gs generalizing p with
  | nil => exact hp
  | cons g gs ih =>
    have e : scheduler_time_pf.save_ul_newtx_grants (g :: gs) p =
        scheduler_time_pf.save_ul_newtx_grants gs (scheduler_time_pf.save_ul_grant p g) := rfl
    rw [e]
    apply ih
    unfold scheduler_time_pf.save_ul_grant
    cases hf : find p.ue_history_db g.ue_index with
    | none => exact hp
    | some ctxt =>
      have hz := hp _ (mem_of_find _ _ _ hf)
      exact accumulators_zero_set p _ _ hp ⟨hz.1, rfl⟩

theorem accumulators_zero_dl_candidate (env : pf_externals) (n : Nat)
    (st : scheduler_time_pf.pf_state) (c : ue_newtx_candidate) (hp : accumulators_zero st.1) :
    accumulators_zero (scheduler_time_pf.dl_candidate env n st c).1.1 := by
  unfold scheduler_time_pf.dl_candidate
  cases hf : find st.1.ue_history_db c.ue.ue_index with
  | none => exact hp
  | some ctxt =>
    have hz := hp _ (mem_of_find _ _ _ hf)
    have hk := update_dl_keeps_sums n ctxt
    exact accumulators_zero_set st.1 _ _ hp ⟨hk.1.trans hz.1, hk.2.trans hz.2⟩

theorem accumulators_zero_ul_candidate (env : pf_externals) (n : Nat)
    (st : scheduler_time_pf.pf_state) (c : ue_newtx_candidate) (hp : accumulators_zero st.1) :
    accumulators_zero (scheduler_time_pf.ul_candidate env n st c).1.1 := by
  unfold scheduler_time_pf.ul_candidate
  cases hf : find st.1.ue_history_db c.ue.ue_index with
  | none => exact hp
  | some ctxt =>
    have hz := hp _ (mem_of_find _ _ _ hf)
    have hk := update_ul_keeps_sums n ctxt
    exact accumulators_zero_set st.1 _ _ hp ⟨hk.1.trans hz.1, hk.2.trans hz.2⟩

theorem accumulators_zero_step (env : pf_externals) (op : pf_op)
    (st : scheduler_time_pf.pf_state) (hp : accumulators_zero st.1) :
    accumulators_zero (pf_step env op st).1 := by
  cases op with
  | add_ue u => exact accumulators_zero_add_ue u _ hp
  | rem_ue u => exact accumulators_zero_rem_ue u _ hp
  | compute_ue_dl_priorities slot cs =>
    exact for_candidates_invariant (scheduler_time_pf.dl_candidate env _)
      (fun s => accumulators_zero s.1)
      (fun s c h => accumulators_zero_dl_candidate env _ s c h) cs _ hp
  | compute_ue_ul_priorities slot cs =>
    exact for_candidates_invariant (scheduler_time_pf.ul_candidate env _)
      (fun s => accumulators_zero s.1)
      (fun s c h => accumulators_zero_ul_candidate env _ s c h) cs _ hp
  | save_dl_newtx_grants gs => exact accumulators_zero_save_dl gs _ hp
  | save_ul_newtx_grants gs => exact accumulators_zero_save_ul gs _ hp

theorem accumulators_zero_run (env : pf_externals) (ops : List pf_op)
    (st : scheduler_time_pf.pf_state) (hp : accumulators_zero st.1) :
    accumulators_zero (pf_run env ops st).1 := by
  induction ops generalizing st with
  | nil => exact hp
  | cons op ops ih => exact ih _ (accumulators_zero_step env op st hp)

/-- C30: in every state reached from the constructed policy (no user tracked)
by any sequence of `add_ue`, `rem_ue`, `compute_ue_dl_priorities`,
`compute_ue_ul_priorities`, `save_dl_newtx_grants` and `save_ul_newtx_grants`,
both accumulators of every context are 0; consequently, for every tracked user
and every `n`, `update_dl_avg_rate_no_alloc n` and
`update_ul_avg_rate_no_alloc n` push exactly `n` zero samples and change
nothing else. -/
theorem C30_accumulators_zero_when_reachable (env : pf_externals) (fairness_coeff : ℚ)
    (er : edgeric) (ops : List pf_op) :
    accumulators_zero (pf_run env ops (pf_initial fairness_coeff, er)).1 ∧
    ∀ (u : Nat) (c : ue_ctxt) (n : Nat),
      find (pf_run env ops (pf_initial fairness_coeff, er)).1.ue_history_db u = some c →
      c.dl_sum_alloc_bytes = 0 ∧ c.ul_sum_alloc_bytes = 0 ∧
      c.update_dl_avg_rate_no_alloc n =
        { c with dl_avg_rate_ := (exp_average_fast_start.push 0)^[n] c.dl_avg_rate_ } ∧
      c.update_ul_avg_rate_no_alloc n =
        { c with ul_avg_rate_ := (exp_average_fast_start.push 0)^[n] c.ul_avg_rate_ } := by
  have hinit : accumulators_zero (pf_initial fairness_coeff, er).1 := by
    intro e he
    simp [pf_initial] at he
  have hrun := accumulators_zero_run env ops _ hinit
  refine ⟨hrun, ?_⟩
  intro u c n hc
  have hz := hrun _ (mem_of_find _ _ _ hc)
  exact ⟨hz.1, hz.2, update_dl_of_zero n c hz.1, update_ul_of_zero n c hz.2⟩

/-! ### The shared GBR flag -/

/-- The GBR fields and their single flag after the fields of a message entry
are written: the flag is set as soon as one direction is present. -/
theorem apply_drb_fields_gbr (d : DrbQosParams) (old : dynamic_qos_params) :
    (edgeric.apply_drb_fields d old).gbr_dl = d.gbr_dl.getD old.gbr_dl ∧
    (edgeric.apply_drb_fields d old).gbr_ul = d.gbr_ul.getD old.gbr_ul ∧
    (edgeric.apply_drb_fields d old).override_gbr
      = (d.gbr_dl.isSome || d.gbr_ul.isSome || old.override_gbr) := by
  obtain ⟨rnti, lcid, clr, qp, ap, pdb, gd, gu⟩ := d
  cases qp <;> cases ap <;> cases pdb <;> cases gd <;> cases gu <;>
    simp [edgeric.apply_drb_fields]

/-- C31: in every state and for every `(rnti, lcid)`, `get_gbr_dl` returns a
value exactly when `get_gbr_ul` does, both being gated by the one flag
`override_gbr`. In particular, when `get_qos_from_er` processes an entry that
does not signal clear and carries a downlink GBR `g` but no uplink GBR, for a
bearer that has no record when the loop reaches the entry (and that no later
entry names), then afterwards `get_gbr_dl` returns `g` and `get_gbr_ul`
returns the value 0, not "no value". -/
theorem C31_gbr_directions_share_flag (s t : edgeric) (rnti lcid ran_index g : Nat)
    (pre post : List DrbQosParams) (drb : DrbQosParams)
    (hkeep : drb.clear_override = false)
    (hdl : drb.gbr_dl = some g) (hul : drb.gbr_ul = none)
    (hnew : find (edgeric.get_qos_from_er (.parsed ⟨ran_index, pre⟩) t).qos_overrides
      (drb_key drb) = none)
    (hlast : ∀ d ∈ post, drb_key d ≠ drb_key drb) :
    ((edgeric.get_gbr_dl s rnti lcid).isSome = (edgeric.get_gbr_ul s rnti lcid).isSome) ∧
    (edgeric.get_gbr_dl
        (edgeric.get_qos_from_er (.parsed ⟨ran_index, pre ++ drb :: post⟩) t)
        (drb_key drb).first (drb_key drb).second = some g ∧
      edgeric.get_gbr_ul
        (edgeric.get_qos_from_er (.parsed ⟨ran_index, pre ++ drb :: post⟩) t)
        (drb_key drb).first (drb_key drb).second = some 0) := by
  constructor
  · unfold edgeric.get_gbr_dl edgeric.get_gbr_ul
    cases hf : find s.qos_overrides (ue_drb_key.mk rnti lcid) with
    | none => rfl
    | some p => cases hflag : p.override_gbr <;> simp [hflag]
  · have hrec : find (edgeric.get_qos_from_er (.parsed ⟨ran_index, pre ++ drb :: post⟩)
        t).qos_overrides (drb_key drb) =
        some (edgeric.apply_drb_fields drb {}) := by
      simp only [edgeric.get_qos_from_er, ensure_initialized_eq, List.foldl_append,
        List.foldl_cons]
      rw [foldl_apply_drb_find_other post _ _ hlast, apply_drb_find]
      simp only [edgeric.get_qos_from_er, ensure_initialized_eq] at hnew
      simp [hkeep, edgeric.qos_ref, hnew]
    have hg := apply_drb_fields_gbr drb {}
    have hkey : ue_drb_key.mk (drb_key drb).first (drb_key drb).second = drb_key drb := rfl
    unfold edgeric.get_gbr_dl edgeric.get_gbr_ul
    rw [hkey, hrec]
    simp [hg.1, hg.2.1, hg.2.2, hdl, hul]

/-- Witness of C31: on the empty table, a message whose only entry carries the
downlink GBR 1000000 for bearer (17921, 4). -/
theorem C31_gbr_directions_share_flag_witness :
    (({ rnti := 17921, lcid := 4, gbr_dl := some 1000000 } : DrbQosParams).clear_override
        = false ∧
      ({ rnti := 17921, lcid := 4, gbr_dl := some 1000000 } : DrbQosParams).gbr_dl
        = some 1000000 ∧
      ({ rnti := 17921, lcid := 4, gbr_dl := some 1000000 } : DrbQosParams).gbr_ul = none ∧
      find (edgeric.get_qos_from_er (.parsed ⟨1, []⟩) {}).qos_overrides
        (drb_key { rnti := 17921, lcid := 4, gbr_dl := some 1000000 }) = none ∧
      ∀ d ∈ ([] : List DrbQosParams),
        drb_key d ≠ drb_key { rnti := 17921, lcid := 4, gbr_dl := some 1000000 }) ∧
    (((edgeric.get_gbr_dl (edgeric.set_pdb 17921 4 50 {}) 17921 4).isSome
        = (edgeric.get_gbr_ul (edgeric.set_pdb 17921 4 50 {}) 17921 4).isSome) ∧
    (edgeric.get_gbr_dl
        (edgeric.get_qos_from_er
          (.parsed ⟨1, [] ++ { rnti := 17921, lcid := 4, gbr_dl := some 1000000 } :: []⟩) {})
        (drb_key { rnti := 17921, lcid := 4, gbr_dl := some 1000000 }).first
        (drb_key { rnti := 17921, lcid := 4, gbr_dl := some 1000000 }).second
        = some 1000000 ∧
      edgeric.get_gbr_ul
        (edgeric.get_qos_from_er
          (.parsed ⟨1, [] ++ { rnti := 17921, lcid := 4, gbr_dl := some 1000000 } :: []⟩) {})
        (drb_key { rnti := 17921, lcid := 4, gbr_dl := some 1000000 }).first
        (drb_key { rnti := 17921, lcid := 4, gbr_dl := some 1000000 }).second = some 0)) :=
  ⟨⟨rfl, rfl, rfl, by decide, fun _ h => absurd h (List.not_mem_nil _)⟩,
    C31_gbr_directions_share_flag (edgeric.set_pdb 17921 4 50 {}) {} 17921 4 1 1000000 [] []
      { rnti := 17921, lcid := 4, gbr_dl := some 1000000 } rfl rfl rfl (by decide)
      (fun _ h => absurd h (List.not_mem_nil _))⟩
